import Mathlib

/-!
# esm.sh build resolver: a shallow embedding of `server/build_resolver.go`

Go strings are modelled by Lean strings (valid UTF-8 only); `len` is the
number of UTF-8 bytes.  Go maps whose iteration order the code observes are
association lists whose order is the iteration order of the run.
-/

namespace EsmSh

/-! ## Go string primitives (`strings`, `len`) -/

/-- UTF-8 encoding of one code point, as byte values. -/
def utf8Bytes (c : Char) : List Nat :=
  let n := c.toNat
  if n < 0x80 then [n]
  else if n < 0x800 then [0xC0 + n / 64, 0x80 + n % 64]
  else if n < 0x10000 then [0xE0 + n / 4096, 0x80 + n / 64 % 64, 0x80 + n % 64]
  else [0xF0 + n / 262144, 0x80 + n / 4096 % 64, 0x80 + n / 64 % 64, 0x80 + n % 64]

/-- Bytes of a Go string. -/
def bytes (s : String) : List Nat := s.data.flatMap utf8Bytes

/-- Go `len(s)`: the length in bytes. -/
def len (s : String) : Nat := (bytes s).length

/-- Go `strings.HasPrefix`. -/
def hasPrefix (s p : String) : Bool := p.data.isPrefixOf s.data

/-- Go `strings.HasSuffix`. -/
def hasSuffix (s p : String) : Bool := p.data.reverse.isPrefixOf s.data.reverse

/-- Go `strings.TrimPrefix`. -/
def trimPrefix (s p : String) : String :=
  if hasPrefix s p then ⟨s.data.drop p.data.length⟩ else s

/-- Go `strings.TrimSuffix`. -/
def trimSuffix (s p : String) : String :=
  if hasSuffix s p then ⟨s.data.take (s.data.length - p.data.length)⟩ else s

/-- Splitting a character list at every separator; the result is never empty. -/
def splitChars (sep : Char) : List Char → List (List Char)
  | [] => [[]]
  | c :: cs =>
    if c = sep then [] :: splitChars sep cs
    else match splitChars sep cs with
      | [] => [[c]]
      | h :: t => (c :: h) :: t

/-- Go `strings.Split(s, sep)` for a one-byte separator. -/
def split (s : String) (sep : Char) : List String :=
  (splitChars sep s.data).map String.mk

/-- Concatenation of character lists with a separator in between. -/
def joinChars (sep : List Char) : List (List Char) → List Char
  | [] => []
  | [a] => a
  | a :: b :: rest => a ++ sep ++ joinChars sep (b :: rest)

/-- Go `strings.Join(elems, sep)`. -/
def join (elems : List String) (sep : String) : String :=
  ⟨joinChars sep.data (elems.map String.data)⟩

/-- Worker of `replaceAll`: `skip` characters of a match are still to be dropped. -/
def replaceAllAux (old new : List Char) : Nat → List Char → List Char
  | _, [] => []
  | skip + 1, _ :: cs => replaceAllAux old new skip cs
  | 0, c :: cs =>
    if old.isPrefixOf (c :: cs) then new ++ replaceAllAux old new (old.length - 1) cs
    else c :: replaceAllAux old new 0 cs

/-- Go `strings.ReplaceAll(s, old, new)` for a non-empty `old`: the
non-overlapping occurrences are replaced from left to right. -/
def replaceAll (s old new : String) : String :=
  ⟨replaceAllAux old.data new.data 0 s.data⟩

/-- Whether `sub` occurs in a character list. -/
def containsChars (sub : List Char) : List Char → Bool
  | [] => sub.isEmpty
  | c :: cs => sub.isPrefixOf (c :: cs) || containsChars sub cs

/-- Go `strings.Contains`. -/
def containsSub (s sub : String) : Bool := containsChars sub.data s.data

/-! ## `crypto/sha1` and `encoding/hex` -/

/-- 32-bit left rotation. -/
def rotl32 (x k : Nat) : Nat := ((x <<< k) ||| (x >>> (32 - k))) % 2 ^ 32

/-- SHA-1 padding: a `0x80` byte, zero bytes up to 56 mod 64, and the bit
length as a 64-bit big-endian integer. -/
def sha1Pad (msg : List Nat) : List Nat :=
  let l := msg.length
  let zeros := (119 - l % 64) % 64
  let bits := 8 * l
  msg ++ [0x80] ++ List.replicate zeros 0 ++
    (List.range 8).map (fun i => bits / 2 ^ (8 * (7 - i)) % 256)

/-- Big-endian 32-bit word starting at byte `i` of a block. -/
def beWord (block : List Nat) (i : Nat) : Nat :=
  block.getD i 0 * 2 ^ 24 + block.getD (i + 1) 0 * 2 ^ 16 +
    block.getD (i + 2) 0 * 2 ^ 8 + block.getD (i + 3) 0

/-- The message schedule: 80 words of a 64-byte block. -/
def sha1Schedule (block : List Nat) : List Nat :=
  (List.range 64).foldl
    (fun w i =>
      let t := i + 16
      w ++ [rotl32 (w.getD (t - 3) 0 ^^^ w.getD (t - 8) 0 ^^^ w.getD (t - 14) 0 ^^^
              w.getD (t - 16) 0) 1])
    ((List.range 16).map (fun i => beWord block (4 * i)))

/-- The five chaining words of SHA-1. -/
structure Sha1State where
  h0 : Nat
  h1 : Nat
  h2 : Nat
  h3 : Nat
  h4 : Nat

/-- One of the 80 rounds. -/
def sha1Round (st : Sha1State) (t w : Nat) : Sha1State :=
  let b := st.h1
  let c := st.h2
  let d := st.h3
  let nb := (b ^^^ (2 ^ 32 - 1)) % 2 ^ 32
  let f :=
    if t < 20 then (b &&& c) ||| (nb &&& d)
    else if t < 40 then b ^^^ c ^^^ d
    else if t < 60 then (b &&& c) ||| (b &&& d) ||| (c &&& d)
    else b ^^^ c ^^^ d
  let k :=
    if t < 20 then 0x5A827999
    else if t < 40 then 0x6ED9EBA1
    else if t < 60 then 0x8F1BBCDC
    else 0xCA62C1D6
  { h0 := (rotl32 st.h0 5 + f + st.h4 + k + w) % 2 ^ 32
    h1 := st.h0
    h2 := rotl32 b 30
    h3 := c
    h4 := d }

/-- Compression of one 64-byte block into the chaining state. -/
def sha1Block (st : Sha1State) (block : List Nat) : Sha1State :=
  let w := sha1Schedule block
  let r := (List.range 80).foldl (fun s t => sha1Round s t (w.getD t 0)) st
  { h0 := (st.h0 + r.h0) % 2 ^ 32
    h1 := (st.h1 + r.h1) % 2 ^ 32
    h2 := (st.h2 + r.h2) % 2 ^ 32
    h3 := (st.h3 + r.h3) % 2 ^ 32
    h4 := (st.h4 + r.h4) % 2 ^ 32 }

/-- The four bytes of a 32-bit word, big-endian. -/
def beBytes (w : Nat) : List Nat :=
  [w / 2 ^ 24 % 256, w / 2 ^ 16 % 256, w / 2 ^ 8 % 256, w % 256]

/-- The digest `sha1.New(); h.Write(msg); h.Sum(nil)`: 20 bytes. -/
def sha1Sum (msg : List Nat) : List Nat :=
  let padded := sha1Pad msg
  let st := (List.range (padded.length / 64)).foldl
    (fun s i => sha1Block s ((padded.drop (64 * i)).take 64))
    { h0 := 0x67452301, h1 := 0xEFCDAB89, h2 := 0x98BADCFE, h3 := 0x10325476,
      h4 := 0xC3D2E1F0 }
  beBytes st.h0 ++ beBytes st.h1 ++ beBytes st.h2 ++ beBytes st.h3 ++ beBytes st.h4

/-- The digits of `encoding/hex`. -/
def hexDigits : List Char := "0123456789abcdef".data

/-- One lowercase hexadecimal digit. -/
def hexDigit (n : Nat) : Char := hexDigits.getD n '0'

/-- Go `hex.EncodeToString`. -/
def hexEncode (bs : List Nat) : String :=
  ⟨bs.flatMap (fun b => [hexDigit (b / 16 % 16), hexDigit (b % 16)])⟩

/-- Lowercase hex SHA-1 of a string. -/
def sha1Hex (s : String) : String := hexEncode (sha1Sum (bytes s))

/-! ## `normalizeSavePath` (build_resolver.go 1281-1294) -/

/-- Body of the loop `for i, seg := range segs`: the segment at index `i` is
overwritten when it begins with `X-` and is longer than 42 bytes. -/
def normalizeSavePathStep (segs : List String) (i : Nat) : List String :=
  let seg := segs.getD i ""
  if hasPrefix seg "X-" && decide (len seg > 42) then
    segs.set i ("X-" ++ sha1Hex seg)
  else segs

/-- Model of `normalizeSavePath(zoneId, pathname)`. -/
def normalizeSavePath (zoneId pathname : String) : String :=
  let segs := split pathname '/'
  let segs := (List.range segs.length).foldl normalizeSavePathStep segs
  if zoneId ≠ "" then zoneId ++ "/" ++ join segs "/"
  else join segs "/"

/-! ## Go `path` package and `ije/gox/utils` byte splitting -/

/-- Go `path.Base`. -/
def pathBase (p : String) : String :=
  if p = "" then "."
  else
    let stripped := (p.data.reverse.dropWhile (fun c => c == '/')).reverse
    let last := (stripped.reverse.takeWhile (fun c => c != '/')).reverse
    if last = [] then "/" else ⟨last⟩

/-- One step of `path.Clean` on the stack of kept elements (top first). -/
def pathCleanStep (rooted : Bool) (acc : List String) (c : String) : List String :=
  if c = ".." then
    match acc with
    | top :: rest => if top = ".." then c :: acc else rest
    | [] => if rooted then [] else [c]
  else c :: acc

/-- Go `path.Clean`: empty and `.` elements are dropped, an inner `..`
removes the element before it, and `..` at the root is dropped. -/
def pathClean (p : String) : String :=
  if p = "" then "."
  else
    let rooted := hasPrefix p "/"
    let comps := (split p '/').filter (fun c => c ≠ "" ∧ c ≠ ".")
    let body := join (comps.foldl (pathCleanStep rooted) []).reverse "/"
    if rooted then "/" ++ body else if body = "" then "." else body

/-- Go `path.Join`: the non-empty elements joined by `/` and cleaned. -/
def pathJoin (elems : List String) : String :=
  let ne := elems.filter (fun e => e ≠ "")
  if ne = [] then "" else pathClean (join ne "/")

/-- The `utils.SplitByLastByte` of `ije/gox`: the parts before and after the
last occurrence of `c`; the whole string and `""` when `c` does not occur. -/
def splitByLastByte (s : String) (c : Char) : String × String :=
  if c ∈ s.data then
    let after := (s.data.reverse.takeWhile (fun x => x != c)).reverse
    (⟨s.data.take (s.data.length - after.length - 1)⟩, ⟨after⟩)
  else (s, "")

/-! ## Data model -/

/-- The module path `ESMPath` of a request. -/
structure ESMPath where
  PkgName : String := ""
  PkgVersion : String := ""
  SubPath : String := ""
  SubBareName : String := ""
  GhPrefix : Bool := false
  PrPrefix : Bool := false
  deriving DecidableEq, Repr

/-- The build arguments `BuildArgs`; the maps are listed in iteration order. -/
structure BuildArgs where
  alias' : List (String × String) := []
  deps : List (String × String) := []
  external : List String := []
  conditions : List String := []
  exports : List String := []
  externalAll : Bool := false
  deriving DecidableEq, Repr

/-- The bundle mode of a build. -/
inductive BundleMode
  | BundleDefault
  | BundleAll
  | BundleFalse
  deriving DecidableEq, Repr

/-- A decoded JSON value of a manifest: `nil`, a string, an `*OrderedMap`
(objects of `exports`, keys in source order), a `map[string]interface{}`
(objects of `typesVersions`), an array, or any other scalar. -/
inductive Value
  | null
  | str (s : String)
  | omap (entries : List (String × Value))
  | obj (entries : List (String × Value))
  | arr (items : List Value)
  | other
  deriving Repr

/-- An `*OrderedMap`: the keys in insertion order with their values. -/
abbrev OrderedMap := List (String × Value)

/-- The method `OrderedMap.Get`: the value of the key, `nil` when absent. -/
def OrderedMap.Get (om : OrderedMap) (key : String) : Value :=
  (om.lookup key).getD Value.null

/-- The field `OrderedMap.keys`. -/
def OrderedMap.keys (om : OrderedMap) : List String := om.map Prod.fst

/-- The fields of `PackageJSON` that the resolver reads. -/
structure PackageJSON where
  Name : String := ""
  PkgName : String := ""
  Version : String := ""
  Type' : String := ""
  Main : String := ""
  Module : String := ""
  Types : String := ""
  Typings : String := ""
  Exports : Value := Value.null
  TypesVersions : List (String × Value) := []
  Browser : List (String × String) := []
  Dependencies : List (String × String) := []
  PeerDependencies : List (String × String) := []
  ES2015 : String := ""
  JsNextMain : String := ""

/-- The per-request `BuildContext`. -/
structure BuildContext where
  zoneId : String := ""
  esmPath : ESMPath := {}
  packageJson : PackageJSON := {}
  args : BuildArgs := {}
  target : String := ""
  dev : Bool := false
  bundleMode : BundleMode := BundleMode.BundleDefault
  pinedTarget : Bool := false
  wd : String := ""
  pkgDir : String := ""
  path : String := ""
  importMap : List (String × String) := []
  cjsRequires : List (String × String × String) := []

/-- The collaborators of the resolver whose code is outside these sources:
the file system, the module lexer, and the helpers of other files. -/
structure Env where
  /-- `existsFile(path)` -/
  existsFile : String → Bool
  /-- `validateModuleFile(path)`: whether the file parses as an ES module -/
  validateModuleFile : String → Bool
  /-- `utils.ParseJSONFile` followed by `ToNpmPackage`, `none` on error -/
  parseJSONFile : String → Option PackageJSON
  /-- `utils.NormalizePathname` -/
  normalizePathname : String → String
  /-- `isRelPathSpecifier` -/
  isRelPathSpecifier : String → Bool
  /-- `ESMPath.PackageName()` -/
  packageName : ESMPath → String
  /-- `ESMPath.String()` -/
  esmPathString : ESMPath → String
  /-- `encodeBuildArgs(args, isDts)` -/
  encodeBuildArgs : BuildArgs → Bool → String

/-! ## Canonical URL (build_resolver.go 79-166) -/

/-- Model of `ctx.getBuildArgsPrefix(isDts)`. -/
def BuildContext.getBuildArgsPrefix (env : Env) (ctx : BuildContext) (isDts : Bool) : String :=
  let a := env.encodeBuildArgs ctx.args isDts
  if a ≠ "" then "X-" ++ a ++ "/" else ""

/-- The name computed by lines 99-111 of `Path` and 132-144 of
`getImportPath`, before the suffixes are appended. -/
def moduleName (esmPath : ESMPath) : String :=
  let name := trimSuffix (pathBase esmPath.PkgName) ".js"
  if esmPath.SubBareName ≠ "" then
    let name :=
      if esmPath.SubBareName = name then "__" ++ esmPath.SubBareName
      else esmPath.SubBareName
    if esmPath.PkgName = "es5-ext" then replaceAll name "/#/" "/%23/" else name
  else name

/-- Model of `ctx.Path()`: the canonical URL path and the context with the
path memoized. -/
def BuildContext.Path (env : Env) (ctx : BuildContext) : String × BuildContext :=
  if ctx.path ≠ "" then (ctx.path, ctx)
  else
    let esmPath := ctx.esmPath
    if ctx.target = "types" then
      let p :=
        if hasSuffix esmPath.SubPath ".d.ts" then
          "/" ++ env.packageName esmPath ++ "/" ++ ctx.getBuildArgsPrefix env true
            ++ esmPath.SubPath
        else "/" ++ env.esmPathString esmPath
      (p, { ctx with path := p })
    else
      let name := moduleName esmPath
      let name := if ctx.dev then name ++ ".development" else name
      let name :=
        if ctx.bundleMode = BundleMode.BundleAll then name ++ ".bundle"
        else if ctx.bundleMode = BundleMode.BundleFalse then name ++ ".nobundle"
        else name
      let p := "/" ++ env.packageName esmPath ++ "/"
        ++ ctx.getBuildArgsPrefix env (decide (ctx.target = "types")) ++ ctx.target ++ "/"
        ++ name ++ ".mjs"
      (p, { ctx with path := p })

/-- Model of `ctx.getImportPath(esmPath, buildArgsPrefix)`. -/
def BuildContext.getImportPath (env : Env) (ctx : BuildContext) (esmPath : ESMPath)
    (buildArgsPrefix : String) : String :=
  let name := moduleName esmPath
  let name := if ctx.dev then name ++ ".development" else name
  "/" ++ env.packageName esmPath ++ "/" ++ buildArgsPrefix ++ ctx.target ++ "/"
    ++ name ++ ".mjs"

/-- Model of `ctx.getSavepath()`. -/
def BuildContext.getSavepath (env : Env) (ctx : BuildContext) : String :=
  normalizeSavePath ctx.zoneId (pathJoin ["builds", (ctx.Path env).1])

/-- Model of `ctx.isDenoTarget()`. -/
def BuildContext.isDenoTarget (ctx : BuildContext) : Bool :=
  ctx.target = "deno" || ctx.target = "denonext"

/-- Model of `ctx.isBrowserTarget()`. -/
def BuildContext.isBrowserTarget (ctx : BuildContext) : Bool :=
  hasPrefix ctx.target "es"

/-- Model of `ctx.existsPkgFile(fp...)`. -/
def BuildContext.existsPkgFile (env : Env) (ctx : BuildContext) (fp : List String) : Bool :=
  env.existsFile (pathJoin (ctx.pkgDir :: fp))


/-! ## Sample collaborators for concrete runs -/

/-- Modelled from the spec: `ESMPath.PackageName()` is not part of these
sources; the package spec is the origin prefix (`gh/` or `pr/`), the package
name, and `@<version>`. -/
def packageSpec (p : ESMPath) : String :=
  (if p.GhPrefix then "gh/" else if p.PrPrefix then "pr/" else "")
    ++ p.PkgName ++ "@" ++ p.PkgVersion

/-- Modelled from the spec: `ESMPath.String()` is not part of these sources;
the package spec followed by the sub-path when there is one. -/
def packagePath (p : ESMPath) : String :=
  if p.SubPath ≠ "" then packageSpec p ++ "/" ++ p.SubPath else packageSpec p

/-- A world for concrete runs: the files of `files` exist, the files of
`esmFiles` parse as ES modules, no nested manifest is readable, path names are
normalized by `path.Clean` under a leading slash, relative specifiers begin
with `./` or `../`, and no build argument is encoded. -/
def sampleEnv (files esmFiles : List String) : Env where
  existsFile := fun p => decide (p ∈ files)
  validateModuleFile := fun p => decide (p ∈ esmFiles)
  parseJSONFile := fun _ => none
  normalizePathname := fun p => pathClean ("/" ++ p)
  isRelPathSpecifier := fun s => hasPrefix s "./" || hasPrefix s "../"
  packageName := packageSpec
  esmPathString := packagePath
  encodeBuildArgs := fun _ _ => ""

/-! ## Specification-side definitions -/

/-- The replacement that `normalizeSavePath` applies to one segment: a segment
that begins with `X-` and is longer than 42 bytes becomes `X-` followed by
the lowercase hex SHA-1 of the segment. -/
def savePathSeg (seg : String) : String :=
  if hasPrefix seg "X-" && decide (len seg > 42) then "X-" ++ sha1Hex seg else seg

/-- The suffixes that `Path` appends to the name: `.development` when dev,
then the bundle-mode suffix. -/
def nameSuffix (dev : Bool) (mode : BundleMode) : String :=
  (if dev then ".development" else "")
    ++ (match mode with
        | BundleMode.BundleAll => ".bundle"
        | BundleMode.BundleFalse => ".nobundle"
        | BundleMode.BundleDefault => "")

/-- The name after the sub-bare-name rule of `Path` (lines 99-106): `__` and
the sub-bare-name when it equals the base name, the sub-bare-name otherwise. -/
def subModuleName (p : ESMPath) : String :=
  if p.SubBareName = trimSuffix (pathBase p.PkgName) ".js" then "__" ++ p.SubBareName
  else p.SubBareName

/-- Sub-module `foo` of package `foo`, target `es2022`. -/
def ctxFooFoo : BuildContext :=
  { esmPath := { PkgName := "foo", PkgVersion := "1.0.0", SubPath := "foo", SubBareName := "foo" }
    target := "es2022" }

/-- Sub-module `array/#/some` of `es5-ext`, a dev build without bundling. -/
def ctxEs5Ext : BuildContext :=
  { esmPath := { PkgName := "es5-ext", PkgVersion := "0.10.64", SubPath := "array/#/some",
                 SubBareName := "array/#/some" }
    target := "es2022", dev := true, bundleMode := BundleMode.BundleFalse }

/-- Sub-module `string/#/#/at` of `es5-ext`: two overlapping `/#/`. -/
def ctxEs5ExtOverlap : BuildContext :=
  { esmPath := { PkgName := "es5-ext", PkgVersion := "0.10.64", SubPath := "string/#/#/at",
                 SubBareName := "string/#/#/at" }
    target := "es2022" }

/-- The declaration file `index.d.ts` of `foo`, target `types`. -/
def ctxFooTypes : BuildContext :=
  { esmPath := { PkgName := "foo", PkgVersion := "1.0.0", SubPath := "index.d.ts",
                 SubBareName := "index.d.ts" }
    target := "types" }

/-- The `es5-ext` workaround `strings.ReplaceAll(name, "/#/", "/%23/")` on
character lists. -/
def encHash (l : List Char) : List Char := replaceAllAux "/#/".data "/%23/".data 0 l

/-! ## Conditional exports (build_resolver.go 16-77, 625-688) -/

/-- The build entry points `BuildEntry` of a module. -/
structure BuildEntry where
  esm : String := ""
  cjs : String := ""
  dts : String := ""
  deriving DecidableEq, Repr

/-- Model of `entry.isEmpty()`. -/
def BuildEntry.isEmpty (entry : BuildEntry) : Bool :=
  entry.esm = "" && entry.cjs = "" && entry.dts = ""

/-- Model of `entry.hasEntry(entryType)`. -/
def BuildEntry.hasEntry (entry : BuildEntry) (entryType : String) : Bool :=
  if entryType = "esm" then entry.esm ≠ ""
  else if entryType = "cjs" then entry.cjs ≠ ""
  else if entryType = "dts" then entry.dts ≠ ""
  else false

/-- Model of `entry.updateEntry(entryType, entryPath)`. -/
def BuildEntry.updateEntry (entry : BuildEntry) (entryType entryPath : String) : BuildEntry :=
  if entryType = "esm" then { entry with esm := entryPath }
  else if entryType = "cjs" then { entry with cjs := entryPath }
  else if entryType = "dts" then { entry with dts := entryPath }
  else entry

/-- Whether a decoded value is Go `nil`. -/
def Value.isNil : Value → Bool
  | Value.null => true
  | _ => false

mutual
/-- Nesting depth of a value. -/
def Value.depth : Value → Nat
  | Value.omap es => depthEntries es + 1
  | Value.obj es => depthEntries es + 1
  | Value.arr vs => depthItems vs + 1
  | _ => 0
/-- Largest depth among the values of a list of entries. -/
def depthEntries : List (String × Value) → Nat
  | [] => 0
  | e :: rest => max e.2.depth (depthEntries rest)
/-- Largest depth among the items of an array. -/
def depthItems : List Value → Nat
  | [] => 0
  | v :: rest => max v.depth (depthItems rest)
end

/-- Body of `entry.resolve(ctx, mType, condition, entryType)`, with the
evaluator `ctx.resolveConditionExportEntry` of the recursive call passed as
`eval`. -/
def BuildEntry.resolveWith (eval : OrderedMap → String → BuildEntry) (entry : BuildEntry)
    (mType : String) (condition : Value) (entryType : String) : BuildEntry :=
  if entry.hasEntry entryType then entry
  else
    match condition with
    | Value.str s => entry.updateEntry entryType s
    | Value.omap om =>
      let entry :=
        match om.lookup "default" with
        | some (Value.str s) => if s ≠ "" then entry.updateEntry entryType s else entry
        | _ => entry
      let e := eval om mType
      let entry :=
        if e.esm ≠ "" && !entry.hasEntry "esm" then entry.updateEntry "esm" e.esm else entry
      let entry :=
        if e.cjs ≠ "" && !entry.hasEntry "cjs" then entry.updateEntry "cjs" e.cjs else entry
      let entry :=
        if e.dts ≠ "" && !entry.hasEntry "dts" then entry.updateEntry "dts" e.dts else entry
      entry
    | _ => entry

/-- The slot that the module-type hint implies (lines 626-634). -/
def entryKeyOf (mType : String) : String :=
  if mType = "" ∨ mType = "commonjs" then "cjs"
  else if mType = "module" then "esm"
  else if mType = "types" then "dts"
  else "esm"

/-- Lines 636-643: the user conditions, in the order supplied. -/
def resolveUserConditions (ctx : BuildContext) (eval : OrderedMap → String → BuildEntry)
    (conditions : OrderedMap) (mType : String) (entry : BuildEntry) : BuildEntry :=
  ctx.args.conditions.foldl
    (fun entry conditionName =>
      let condition := conditions.Get conditionName
      if !condition.isNil then entry.resolveWith eval mType condition (entryKeyOf mType)
      else entry)
    entry

/-- Lines 645-650: the `development` condition of a dev build. -/
def resolveDevelopment (ctx : BuildContext) (eval : OrderedMap → String → BuildEntry)
    (conditions : OrderedMap) (mType : String) (entry : BuildEntry) : BuildEntry :=
  if ctx.dev then
    let condition := conditions.Get "development"
    if !condition.isNil then entry.resolveWith eval mType condition (entryKeyOf mType)
    else entry
  else entry

/-- Lines 652-672: the runtime condition of the target. -/
def resolveRuntime (ctx : BuildContext) (eval : OrderedMap → String → BuildEntry)
    (conditions : OrderedMap) (mType : String) (entry : BuildEntry) : BuildEntry :=
  if ctx.isBrowserTarget then
    let condition := conditions.Get "browser"
    if !condition.isNil then entry.resolveWith eval mType condition (entryKeyOf mType)
    else entry
  else if ctx.isDenoTarget then
    match ["deno", "node"].find? (fun conditionName => !(conditions.Get conditionName).isNil) with
    | some conditionName =>
      entry.resolveWith eval mType (conditions.Get conditionName) (entryKeyOf mType)
    | none => entry
  else if ctx.target = "node" then
    let condition := conditions.Get "node"
    if !condition.isNil then entry.resolveWith eval mType condition (entryKeyOf mType)
    else entry
  else entry

/-- Lines 674-686: the keys of the mapping in source order. -/
def resolveSourceOrder (eval : OrderedMap → String → BuildEntry)
    (conditions : OrderedMap) (mType : String) (entry : BuildEntry) : BuildEntry :=
  conditions.keys.foldl
    (fun entry conditionName =>
      let condition := conditions.Get conditionName
      if conditionName = "module" ∨ conditionName = "import" ∨ conditionName = "es2015" then
        entry.resolveWith eval "module" condition "esm"
      else if conditionName = "require" then
        entry.resolveWith eval "commonjs" condition "cjs"
      else if conditionName = "types" ∨ conditionName = "typings" then
        entry.resolveWith eval "types" condition "dts"
      else if conditionName = "default" then
        entry.resolveWith eval mType condition (entryKeyOf mType)
      else entry)
    entry

/-- Body of `ctx.resolveConditionExportEntry(conditions, mType)`, with the
evaluator of the nested calls passed as `eval`: the four blocks run in
sequence on the entry, which starts empty. -/
def resolveConditionExportEntryBody (ctx : BuildContext)
    (eval : OrderedMap → String → BuildEntry) (conditions : OrderedMap) (mType : String) :
    BuildEntry :=
  let entry : BuildEntry := {}
  let entry := resolveUserConditions ctx eval conditions mType entry
  let entry := resolveDevelopment ctx eval conditions mType entry
  let entry := resolveRuntime ctx eval conditions mType entry
  resolveSourceOrder eval conditions mType entry

/-- The evaluator with a bound on the nesting it follows. -/
def resolveConditionExportEntryFuel (ctx : BuildContext) :
    Nat → OrderedMap → String → BuildEntry
  | 0, _, _ => {}
  | fuel + 1, conditions, mType =>
    resolveConditionExportEntryBody ctx (resolveConditionExportEntryFuel ctx fuel) conditions mType

/-- Model of `ctx.resolveConditionExportEntry(conditions, mType)`: the nesting
of the conditions bounds the recursion. -/
def BuildContext.resolveConditionExportEntry (ctx : BuildContext) (conditions : OrderedMap)
    (mType : String) : BuildEntry :=
  resolveConditionExportEntryFuel ctx (depthEntries conditions + 1) conditions mType

/-- Model of `entry.resolve(ctx, mType, condition, entryType)`. -/
def BuildEntry.resolve (entry : BuildEntry) (ctx : BuildContext) (mType : String)
    (condition : Value) (entryType : String) : BuildEntry :=
  entry.resolveWith ctx.resolveConditionExportEntry mType condition entryType

/-! ## The visit order of the conditional-exports evaluator -/

/-- One call of `entry.resolve` made by `resolveConditionExportEntry`: the
condition key visited, the module-type hint and the value passed on, and the
target slot. -/
structure Visit where
  key : String
  mType : String
  cond : Value
  slot : String

/-- The visit of a key that `resolveConditionExportEntry` looks up by name:
none when the key is absent or `nil`. -/
def visitOf (conditions : OrderedMap) (mType : String) (name : String) : List Visit :=
  if (conditions.Get name).isNil then []
  else [⟨name, mType, conditions.Get name, entryKeyOf mType⟩]

/-- The visit that the source-order loop makes at a key. -/
def visitKey (conditions : OrderedMap) (mType : String) (name : String) : List Visit :=
  if name = "module" ∨ name = "import" ∨ name = "es2015" then
    [⟨name, "module", conditions.Get name, "esm"⟩]
  else if name = "require" then [⟨name, "commonjs", conditions.Get name, "cjs"⟩]
  else if name = "types" ∨ name = "typings" then [⟨name, "types", conditions.Get name, "dts"⟩]
  else if name = "default" then [⟨name, mType, conditions.Get name, entryKeyOf mType⟩]
  else []

/-- The visits of the runtime condition. -/
def visitsRuntime (ctx : BuildContext) (conditions : OrderedMap) (mType : String) :
    List Visit :=
  if ctx.isBrowserTarget then visitOf conditions mType "browser"
  else if ctx.isDenoTarget then
    if (conditions.Get "deno").isNil then visitOf conditions mType "node"
    else visitOf conditions mType "deno"
  else if ctx.target = "node" then visitOf conditions mType "node"
  else []

/-- The visit order of `resolveConditionExportEntry`: the user conditions in
the order supplied, `development` when dev, the runtime condition, then the
keys of the mapping in source order. -/
def visits (ctx : BuildContext) (conditions : OrderedMap) (mType : String) : List Visit :=
  ctx.args.conditions.flatMap (visitOf conditions mType)
    ++ (if ctx.dev then visitOf conditions mType "development" else [])
    ++ visitsRuntime ctx conditions mType
    ++ conditions.keys.flatMap (visitKey conditions mType)

/-- The running entry after a sequence of visits. -/
def runVisits (ctx : BuildContext) (entry : BuildEntry) (vs : List Visit) : BuildEntry :=
  vs.foldl (fun e v => e.resolve ctx v.mType v.cond v.slot) entry

/-- The conditions mapping without the key `key`. -/
def OrderedMap.delete (om : OrderedMap) (key : String) : OrderedMap :=
  om.filter (fun e => e.1 != key)

/-- The slots of `a` that are filled have the same value in `b`. -/
def Keeps (a b : BuildEntry) : Prop :=
  (a.esm ≠ "" → b.esm = a.esm) ∧ (a.cjs ≠ "" → b.cjs = a.cjs) ∧ (a.dts ≠ "" → b.dts = a.dts)

/-- Two visit lists agree up to the first visit of `key`: the visits of the
first list before that visit open the second list, and the lists are equal
when `key` is not visited at all. -/
def AgreeBefore (key : String) (l l' : List Visit) : Prop :=
  (l.takeWhile (fun v => v.key != key) <+: l') ∧
  ((∀ v ∈ l, v.key ≠ key) → l' = l)

/-- A browser build without user conditions. -/
def ctxBrowser : BuildContext := { target := "es2022" }

/-- The conditions `browser`, `import`, `default` with string values. -/
def condsBrowserImportDefault : OrderedMap :=
  [("browser", Value.str "./b.js"), ("import", Value.str "./i.js"),
   ("default", Value.str "./d.js")]

/-! ## Entry resolution (build_resolver.go 253-622, 1186-1279; js.go 15-28) -/

/-- Modelled from the spec: the helper `endsWith(s, suffixes...)` is not part
of these sources; the string ends in one of the suffixes. -/
def endsWith (s : String) (suffixes : List String) : Bool :=
  suffixes.any (fun suffix => hasSuffix s suffix)

/-- The module extensions `jsExts` of js.go. -/
def jsExts : List String := [".mjs", ".js", ".jsx", ".mts", ".ts", ".tsx", ".cjs"]

/-- Worker of `stripModuleExt`: the first extension of the list that ends the
string is cut off. -/
def stripExts (s : String) : List String → String
  | [] => s
  | ext :: rest =>
    if hasSuffix s ext then ⟨s.data.take (s.data.length - ext.data.length)⟩
    else stripExts s rest

/-- Model of `stripModuleExt(s, exts...)`; with no extensions given `jsExts`
is used. -/
def stripModuleExt (s : String) (exts : List String) : String :=
  stripExts s (if exts = [] then jsExts else exts)

/-- Model of `normalizeEntryPath(path)`. -/
def normalizeEntryPath (env : Env) (path : String) : String :=
  "." ++ env.normalizePathname path

/-- Lines 1226-1239 of `normalizeBuildEntry`: the esm slot is normalized and,
without a module extension, completed to the first existing candidate. -/
def normalizeEsmEntry (env : Env) (ctx : BuildContext) (entry : BuildEntry) : BuildEntry :=
  if entry.esm ≠ "" then
    let esm := normalizeEntryPath env entry.esm
    if !endsWith esm [".mjs", ".js"] then
      if ctx.existsPkgFile env [esm ++ ".mjs"] then { entry with esm := esm ++ ".mjs" }
      else if ctx.existsPkgFile env [esm ++ ".js"] then { entry with esm := esm ++ ".js" }
      else if ctx.existsPkgFile env [esm, "index.mjs"] then
        { entry with esm := esm ++ "/index.mjs" }
      else if ctx.existsPkgFile env [esm, "index.js"] then
        { entry with esm := esm ++ "/index.js" }
      else { entry with esm := esm }
    else { entry with esm := esm }
  else entry

/-- Lines 1255-1263 of `normalizeBuildEntry`: a cjs entry in `.js` form that
parses as an ES module is moved to the esm slot when that is empty. -/
def promoteEsmEntry (env : Env) (ctx : BuildContext) (entry : BuildEntry) : BuildEntry :=
  if entry.cjs ≠ "" && hasSuffix entry.cjs ".js" then
    if env.validateModuleFile (pathJoin [ctx.pkgDir, entry.cjs]) then
      if entry.esm = "" then { entry with esm := entry.cjs, cjs := "" }
      else { entry with cjs := "" }
    else entry
  else entry

/-- Lines 1242-1253 of `normalizeBuildEntry`: the cjs slot is normalized and,
without a module extension, completed to the first existing candidate. -/
def completeCjsEntry (env : Env) (ctx : BuildContext) (entry : BuildEntry) : BuildEntry :=
  let cjs := normalizeEntryPath env entry.cjs
  if !endsWith cjs [".cjs", ".js"] then
    if ctx.existsPkgFile env [cjs ++ ".cjs"] then { entry with cjs := cjs ++ ".cjs" }
    else if ctx.existsPkgFile env [cjs ++ ".js"] then { entry with cjs := cjs ++ ".js" }
    else if ctx.existsPkgFile env [cjs, "index.cjs"] then
      { entry with cjs := cjs ++ "/index.cjs" }
    else if ctx.existsPkgFile env [cjs, "index.js"] then
      { entry with cjs := cjs ++ "/index.js" }
    else { entry with cjs := cjs }
  else { entry with cjs := cjs }

/-- Lines 1241-1264 of `normalizeBuildEntry`: the treatment of a non-empty
cjs slot. -/
def normalizeCjsEntry (env : Env) (ctx : BuildContext) (entry : BuildEntry) : BuildEntry :=
  if entry.cjs ≠ "" then promoteEsmEntry env ctx (completeCjsEntry env ctx entry) else entry

/-- Lines 1266-1274 of `normalizeBuildEntry`: every non-empty slot is
normalized. -/
def normalizeEntryPaths (env : Env) (entry : BuildEntry) : BuildEntry :=
  let entry :=
    if entry.esm ≠ "" then { entry with esm := normalizeEntryPath env entry.esm } else entry
  let entry :=
    if entry.cjs ≠ "" then { entry with cjs := normalizeEntryPath env entry.cjs } else entry
  if entry.dts ≠ "" then { entry with dts := normalizeEntryPath env entry.dts } else entry

/-- Model of `normalizeBuildEntry(ctx, entry)`. -/
def normalizeBuildEntry (env : Env) (ctx : BuildContext) (entry : BuildEntry) : BuildEntry :=
  let entry := normalizeEsmEntry env ctx entry
  let entry := normalizeCjsEntry env ctx entry
  normalizeEntryPaths env entry

/-- Model of `matchAsteriskExports(epxortsKey, pkg)`: the diff, when the key
matches. -/
def matchAsteriskExports (epxortsKey : String) (pkg : ESMPath) : Option String :=
  if '*' ∈ epxortsKey.data then
    let pfx := (splitByLastByte epxortsKey '*').1
    let subModule := "./" ++ pkg.SubBareName
    if hasPrefix subModule pfx then some (trimPrefix subModule pfx) else none
  else none

mutual
/-- Worker of `resloveAsteriskPathMapping` on one value: a string has its
`*` replaced, a nested mapping is rewritten, other values are dropped. -/
def resloveAsteriskValue (diff : String) : Value → Option Value
  | Value.str s => some (Value.str (replaceAll s "*" diff))
  | Value.omap om => some (Value.omap (resloveAsteriskEntries diff om))
  | _ => none
/-- Model of `resloveAsteriskPathMapping(om, diff)` for a mapping with
distinct keys: the entries with a string or mapping value, in order. -/
def resloveAsteriskEntries (diff : String) : List (String × Value) → List (String × Value)
  | [] => []
  | e :: rest =>
    match resloveAsteriskValue diff e.2 with
    | some v => (e.1, v) :: resloveAsteriskEntries diff rest
    | none => resloveAsteriskEntries diff rest
end

/-- Model of `resloveAsteriskPathMapping(om, diff)`. -/
def resloveAsteriskPathMapping (om : OrderedMap) (diff : String) : OrderedMap :=
  resloveAsteriskEntries diff om

/-- Lines 329-338 and 458-467: the export entry is normalized and each of its
slots replaces the slot of the entry only when its file exists. -/
def applyExportEntry (env : Env) (ctx : BuildContext) (entry exportEntry : BuildEntry) :
    BuildEntry :=
  let exportEntry := normalizeBuildEntry env ctx exportEntry
  let entry :=
    if exportEntry.esm ≠ "" && ctx.existsPkgFile env [exportEntry.esm] then
      { entry with esm := exportEntry.esm }
    else entry
  let entry :=
    if exportEntry.cjs ≠ "" && ctx.existsPkgFile env [exportEntry.cjs] then
      { entry with cjs := exportEntry.cjs }
    else entry
  if exportEntry.dts ≠ "" && ctx.existsPkgFile env [exportEntry.dts] then
    { entry with dts := exportEntry.dts }
  else entry

/-- Lines 274-327: the loop over the keys of `exports` for a sub-module; an
exact key ends the loop, a wildcard key does not. -/
def subModuleExportsLoop (ctx : BuildContext) (esm : ESMPath) (om : OrderedMap) :
    List String → BuildEntry → BuildEntry
  | [], exportEntry => exportEntry
  | name :: rest, exportEntry =>
    let conditions := om.Get name
    let subModuleName := esm.SubBareName
    if name = "./" ++ subModuleName
        ∨ stripModuleExt name [".js", ".cjs", ".mjs"] = "./" ++ subModuleName then
      match conditions with
      | Value.str s =>
        if ctx.packageJson.Type' = "module" then { exportEntry with esm := s }
        else { exportEntry with cjs := s }
      | Value.omap om' => ctx.resolveConditionExportEntry om' ctx.packageJson.Type'
      | _ => exportEntry
    else
      match matchAsteriskExports name esm with
      | some diff =>
        match conditions with
        | Value.str s =>
          let e := replaceAll s "*" diff
          subModuleExportsLoop ctx esm om rest
            (if ctx.packageJson.Type' = "module" then { exportEntry with esm := e }
             else { exportEntry with cjs := e })
        | Value.omap om' =>
          subModuleExportsLoop ctx esm om rest
            (ctx.resolveConditionExportEntry (resloveAsteriskPathMapping om' diff)
              ctx.packageJson.Type')
        | _ => subModuleExportsLoop ctx esm om rest exportEntry
      | none => subModuleExportsLoop ctx esm om rest exportEntry

/-- Lines 341-357: the fields of a nested `package.json` fill the empty slots. -/
def applyNestedManifest (env : Env) (ctx : BuildContext) (subModuleName : String)
    (entry : BuildEntry) : BuildEntry :=
  match env.parseJSONFile (pathJoin [ctx.pkgDir, subModuleName, "package.json"]) with
  | some p =>
    let entry :=
      if entry.esm = "" ∧ p.Module ≠ "" then
        { entry with esm := "./" ++ pathJoin [subModuleName, p.Module] }
      else entry
    let entry :=
      if entry.cjs = "" ∧ p.Main ≠ "" then
        { entry with cjs := "./" ++ pathJoin [subModuleName, p.Main] }
      else entry
    if entry.dts = "" then
      if p.Types ≠ "" then { entry with dts := "./" ++ pathJoin [subModuleName, p.Types] }
      else if p.Typings ≠ "" then
        { entry with dts := "./" ++ pathJoin [subModuleName, p.Typings] }
      else entry
    else entry
  | none => entry

/-- Lines 359-371: conventional ES module files of a sub-module. -/
def probeSubModuleEsm (env : Env) (ctx : BuildContext) (subModuleName : String)
    (entry : BuildEntry) : BuildEntry :=
  if entry.esm = "" then
    if ctx.existsPkgFile env [subModuleName ++ ".mjs"] then
      { entry with esm := "./" ++ subModuleName ++ ".mjs" }
    else if ctx.existsPkgFile env [subModuleName, "index.mjs"] then
      { entry with esm := "./" ++ subModuleName ++ "/index.mjs" }
    else if ctx.packageJson.Type' = "module" then
      if ctx.existsPkgFile env [subModuleName ++ ".js"] then
        { entry with esm := "./" ++ subModuleName ++ ".js" }
      else if ctx.existsPkgFile env [subModuleName, "index.js"] then
        { entry with esm := "./" ++ subModuleName ++ "/index.js" }
      else entry
    else entry
  else entry

/-- Lines 373-385: conventional CommonJS files of a sub-module. -/
def probeSubModuleCjs (env : Env) (ctx : BuildContext) (subModuleName : String)
    (entry : BuildEntry) : BuildEntry :=
  if entry.cjs = "" then
    if ctx.existsPkgFile env [subModuleName ++ ".cjs"] then
      { entry with cjs := "./" ++ subModuleName ++ ".cjs" }
    else if ctx.existsPkgFile env [subModuleName, "index.cjs"] then
      { entry with cjs := "./" ++ subModuleName ++ "/index.cjs" }
    else if ctx.packageJson.Type' ≠ "module" then
      if ctx.existsPkgFile env [subModuleName ++ ".js"] then
        { entry with cjs := "./" ++ subModuleName ++ ".js" }
      else if ctx.existsPkgFile env [subModuleName, "index.js"] then
        { entry with cjs := "./" ++ subModuleName ++ "/index.js" }
      else entry
    else entry
  else entry

/-- Lines 387-401: declaration files of a sub-module. -/
def probeSubModuleDts (env : Env) (ctx : BuildContext) (subModuleName : String)
    (entry : BuildEntry) : BuildEntry :=
  if entry.dts = "" then
    if entry.esm ≠ "" ∧ ctx.existsPkgFile env [stripModuleExt entry.esm [] ++ ".d.ts"] = true then
      { entry with dts := stripModuleExt entry.esm [] ++ ".d.ts" }
    else if entry.cjs ≠ "" ∧ ctx.existsPkgFile env [stripModuleExt entry.cjs [] ++ ".d.ts"] = true then
      { entry with dts := stripModuleExt entry.cjs [] ++ ".d.ts" }
    else if ctx.existsPkgFile env [subModuleName ++ ".d.mts"] then
      { entry with dts := "./" ++ subModuleName ++ ".d.mts" }
    else if ctx.existsPkgFile env [subModuleName ++ ".d.ts"] then
      { entry with dts := "./" ++ subModuleName ++ ".d.ts" }
    else if ctx.existsPkgFile env [subModuleName, "index.d.mts"] then
      { entry with dts := "./" ++ subModuleName ++ "/index.d.mts" }
    else if ctx.existsPkgFile env [subModuleName, "index.d.ts"] then
      { entry with dts := "./" ++ subModuleName ++ "/index.d.ts" }
    else entry
  else entry

/-- Lines 359-401: conventional files of a sub-module fill the empty slots. -/
def probeSubModule (env : Env) (ctx : BuildContext) (subModuleName : String)
    (entry : BuildEntry) : BuildEntry :=
  let entry := probeSubModuleEsm env ctx subModuleName entry
  let entry := probeSubModuleCjs env ctx subModuleName entry
  probeSubModuleDts env ctx subModuleName entry

/-- Lines 267-401: the entry of a sub-module from `exports`, a nested
manifest and conventional files. -/
def resolveSubModule (env : Env) (ctx : BuildContext) (esm : ESMPath) : BuildEntry :=
  let subModuleName := esm.SubBareName
  let entry : BuildEntry := {}
  let entry :=
    if !ctx.packageJson.Exports.isNil then
      let exportEntry :=
        match ctx.packageJson.Exports with
        | Value.omap om => subModuleExportsLoop ctx esm om (OrderedMap.keys om) {}
        | _ => {}
      applyExportEntry env ctx entry exportEntry
    else entry
  let entry := applyNestedManifest env ctx subModuleName entry
  probeSubModule env ctx subModuleName entry

/-- Lines 412-457: the export entry of the root module. -/
def rootExportEntry (ctx : BuildContext) : BuildEntry :=
  match ctx.packageJson.Exports with
  | Value.omap om =>
    match om.lookup "." with
    | some (Value.str s) =>
      if ctx.packageJson.Type' = "module" then { esm := s } else { cjs := s }
    | some (Value.omap om') => ctx.resolveConditionExportEntry om' ctx.packageJson.Type'
    | some _ => {}
    | none => ctx.resolveConditionExportEntry om ctx.packageJson.Type'
  | Value.str s =>
    if ctx.packageJson.Type' = "module" then { esm := s } else { cjs := s }
  | _ => {}

/-- Lines 493-506 and 507-520: a declaration file next to the entry `file`
fills an empty dts slot. -/
def probeSiblingDts (env : Env) (ctx : BuildContext) (file : String) (entry : BuildEntry) :
    BuildEntry :=
  if entry.dts = "" ∧ file ≠ "" then
    if ctx.existsPkgFile env [stripModuleExt file [] ++ ".d.mts"] then
      { entry with dts := stripModuleExt file [] ++ ".d.mts" }
    else if ctx.existsPkgFile env [stripModuleExt file [] ++ ".d.ts"] then
      { entry with dts := stripModuleExt file [] ++ ".d.ts" }
    else if stripModuleExt (pathBase file) [] = "index" then
      let dir := (splitByLastByte file '/').1
      if ctx.existsPkgFile env [dir, "index.d.mts"] then
        { entry with dts := dir ++ "/index.d.mts" }
      else if ctx.existsPkgFile env [dir, "index.d.ts"] then
        { entry with dts := dir ++ "/index.d.ts" }
      else entry
    else entry
  else entry

/-- Lines 470-476: the conventional ES module index of the root module. -/
def probeRootEsm (env : Env) (ctx : BuildContext) (entry : BuildEntry) : BuildEntry :=
  if entry.esm = "" then
    if ctx.packageJson.Type' = "module" ∧ ctx.existsPkgFile env ["index.js"] = true then
      { entry with esm := "./index.js" }
    else if ctx.existsPkgFile env ["index.mjs"] then { entry with esm := "./index.mjs" }
    else entry
  else entry

/-- Lines 478-484: the conventional CommonJS index of the root module. -/
def probeRootCjs (env : Env) (ctx : BuildContext) (entry : BuildEntry) : BuildEntry :=
  if entry.cjs = "" then
    if ctx.packageJson.Type' ≠ "module" ∧ ctx.existsPkgFile env ["index.js"] = true then
      { entry with cjs := "./index.js" }
    else if ctx.existsPkgFile env ["index.cjs"] then { entry with cjs := "./index.cjs" }
    else entry
  else entry

/-- Lines 486-492: the conventional declaration index of the root module. -/
def probeRootDts (env : Env) (ctx : BuildContext) (entry : BuildEntry) : BuildEntry :=
  if entry.dts = "" then
    if ctx.existsPkgFile env ["index.d.mts"] then { entry with dts := "./index.d.mts" }
    else if ctx.existsPkgFile env ["index.d.ts"] then { entry with dts := "./index.d.ts" }
    else entry
  else entry

/-- Lines 470-520: conventional files of the root module fill the empty slots. -/
def probeRootModule (env : Env) (ctx : BuildContext) (entry : BuildEntry) : BuildEntry :=
  let entry := probeRootEsm env ctx entry
  let entry := probeRootCjs env ctx entry
  let entry := probeRootDts env ctx entry
  let entry := probeSiblingDts env ctx entry.esm entry
  probeSiblingDts env ctx entry.cjs entry

/-- Lines 403-520: the entry of the root module from the manifest seeds,
`exports` and conventional files. -/
def resolveRootModule (env : Env) (ctx : BuildContext) : BuildEntry :=
  let entry : BuildEntry :=
    { esm := ctx.packageJson.Module, cjs := ctx.packageJson.Main, dts := ctx.packageJson.Types }
  let entry :=
    if entry.dts = "" ∧ ctx.packageJson.Typings ≠ "" then
      { entry with dts := ctx.packageJson.Typings }
    else entry
  let entry :=
    if !ctx.packageJson.Exports.isNil then applyExportEntry env ctx entry (rootExportEntry ctx)
    else entry
  probeRootModule env ctx entry

/-- Byte-wise order of Go strings, on character lists. -/
def charsLe : List Char → List Char → Bool
  | [], _ => true
  | _ :: _, [] => false
  | a :: as, b :: bs =>
    if a.toNat < b.toNat then true
    else if b.toNat < a.toNat then false
    else charsLe as bs

/-- Insertion of a string into an ascending list. -/
def insertSorted (s : String) : List String → List String
  | [] => [s]
  | t :: rest => if charsLe s.data t.data then s :: t :: rest else t :: insertSorted s rest

/-- Go `sort.StringSlice.Sort`: ascending order. -/
def sortStrings (l : List String) : List String := l.foldr insertSorted []

/-- Lines 553-563: the loop over the mapping of the latest range, in the
iteration order of the run; the first key ending in `/*` whose prefix opens
the dts ends the loop with its value and the captured suffix. -/
def matchWildcardKey (env : Env) (dts : String) : List (String × Value) → Option (Value × String)
  | [] => none
  | (key, value) :: rest =>
    if hasSuffix key "/*" then
      let key := normalizeEntryPath env key
      if hasPrefix dts (trimSuffix key "/*") then
        some (value, trimPrefix dts (trimSuffix key "*"))
      else matchWildcardKey env dts rest
    else matchWildcardKey env dts rest

/-- Lines 568-587: the dts remapped to the first path of a matched entry. -/
def remapDts (env : Env) (entry : BuildEntry) (dts : String) (paths : Value) (exact : Bool)
    (suffix : String) : BuildEntry :=
  match paths with
  | Value.arr (Value.str path :: _) =>
    let path := normalizeEntryPath env path
    if exact then { entry with dts := path }
    else
      let pfx := (splitByLastByte path '*').1
      if suffix ≠ "" then { entry with dts := pfx ++ suffix }
      else if hasPrefix dts pfx then
        let diff := trimPrefix dts pfx
        { entry with dts := replaceAll path "*" diff }
      else { entry with dts := pfx ++ ⟨dts.data.drop 2⟩ }
  | _ => entry

/-- Lines 523-590: the dts remapped by the `typesVersions` field; the
mappings are listed in the iteration order of the run. -/
def applyTypesVersions (env : Env) (ctx : BuildContext) (entry : BuildEntry) : BuildEntry :=
  let typesVersions := ctx.packageJson.TypesVersions
  if typesVersions.length > 0 ∧ entry.dts ≠ "" then
    let versions := sortStrings ((typesVersions.map Prod.fst).filter (fun c => hasPrefix c ">"))
    match versions.getLast? with
    | some latest =>
      match typesVersions.lookup latest with
      | some (Value.obj mapping) =>
        let dts := normalizeEntryPath env entry.dts
        match mapping.lookup dts with
        | some paths => remapDts env entry dts paths true ""
        | none =>
          match mapping.lookup (trimPrefix dts "./") with
          | some paths => remapDts env entry dts paths true ""
          | none =>
            match matchWildcardKey env dts mapping with
            | some (paths, suffix) => remapDts env entry dts paths false suffix
            | none =>
              match mapping.lookup "*" with
              | some paths => remapDts env entry dts paths false ""
              | none => entry
      | _ => entry
    | none => entry
  else entry

/-- Lines 592-617: the `browser` field of the manifest, for a browser target. -/
def applyBrowserField (env : Env) (ctx : BuildContext) (esm : ESMPath) (entry : BuildEntry) :
    BuildEntry :=
  if ctx.packageJson.Browser.length > 0 ∧ ctx.isBrowserTarget = true then
    let entry := normalizeBuildEntry env ctx entry
    let entry :=
      if entry.esm ≠ "" then
        match ctx.packageJson.Browser.lookup entry.esm with
        | some m => if env.isRelPathSpecifier m then { entry with esm := m } else entry
        | none => entry
      else entry
    let entry :=
      if entry.cjs ≠ "" then
        match ctx.packageJson.Browser.lookup entry.cjs with
        | some m => if env.isRelPathSpecifier m then { entry with cjs := m } else entry
        | none => entry
      else entry
    if esm.SubBareName = "" then
      match ctx.packageJson.Browser.lookup "." with
      | some m =>
        if env.isRelPathSpecifier m then
          if hasSuffix m ".mjs" then { entry with esm := m }
          else if entry.esm = "" then { entry with cjs := m }
          else entry
        else entry
      | none => entry
    else entry
  else entry

/-- Lines 256-521: the entry before the `typesVersions`, `browser` and final
normalization steps, for a request that does not return early. -/
def resolveModuleFiles (env : Env) (ctx : BuildContext) (esm : ESMPath) : BuildEntry :=
  if esm.SubBareName ≠ "" then resolveSubModule env ctx esm else resolveRootModule env ctx

/-- Model of `ctx.resolveEntry(esm)`. -/
def BuildContext.resolveEntry (env : Env) (ctx : BuildContext) (esm : ESMPath) : BuildEntry :=
  if esm.SubBareName ≠ "" ∧ endsWith esm.SubPath [".d.ts", ".d.mts", ".d.cts"] = true then
    { dts := normalizeEntryPath env esm.SubPath }
  else if esm.SubBareName ≠ ""
      ∧ endsWith esm.SubPath [".jsx", ".ts", ".tsx", ".mts", ".svelte", ".vue"] = true then
    { esm := normalizeEntryPath env esm.SubPath }
  else
    let entry := resolveModuleFiles env ctx esm
    let entry := applyTypesVersions env ctx entry
    let entry := applyBrowserField env ctx esm entry
    normalizeBuildEntry env ctx entry

/-- Every non-empty slot of the entry names a file for which `existsPkgFile`
is true. -/
def SlotsExist (env : Env) (ctx : BuildContext) (entry : BuildEntry) : Prop :=
  (entry.esm ≠ "" → ctx.existsPkgFile env [entry.esm] = true) ∧
  (entry.cjs ≠ "" → ctx.existsPkgFile env [entry.cjs] = true) ∧
  (entry.dts ≠ "" → ctx.existsPkgFile env [entry.dts] = true)

/-! ## External imports (build_resolver.go 932-979) -/

/-- Lines 932-979 of `resolveExternalModule`: the URL emitted for a dependency
`depPath` whose version is not fixed, with the build args `args` of the
dependency; `args.alias'` is listed in the iteration order of the run. -/
def resolveExternalModuleQuery (env : Env) (ctx : BuildContext) (depPath : ESMPath)
    (args : BuildArgs) : String :=
  let resolvedPath := "/" ++ env.esmPathString depPath
  -- workaround for es5-ext "../#/.." path
  let resolvedPath :=
    if depPath.PkgName = "es5-ext" then replaceAll resolvedPath "/#/" "/%23/" else resolvedPath
  let params : List String := []
  let params :=
    if args.alias'.length > 0 then
      params ++ ["alias=" ++ join (args.alias'.map (fun kv => kv.1 ++ ":" ++ kv.2)) ","]
    else params
  let params :=
    if args.deps.length > 0 then
      params ++ ["deps=" ++ join (sortStrings (args.deps.map (fun nv => nv.1 ++ "@" ++ nv.2))) ","]
    else params
  let params :=
    if args.external.length > 0 then
      params ++ ["external=" ++ join (sortStrings args.external) ","]
    else params
  let params :=
    if args.conditions.length > 0 then
      params ++ ["conditions=" ++ join (sortStrings args.conditions) ","]
    else params
  let params := if ctx.pinedTarget then params ++ ["target=" ++ ctx.target] else params
  let params := if ctx.dev then params ++ ["dev"] else params
  let params := if hasSuffix resolvedPath ".json" then params ++ ["module"] else params
  if params.length > 0 then resolvedPath ++ "?" ++ join params "&" else resolvedPath

/-! ## Sample packages -/

/-- Package `left-pad@1.3.0` with `main` set to `./index.js`. -/
def ctxLeftPad : BuildContext :=
  { esmPath := { PkgName := "left-pad", PkgVersion := "1.3.0" }
    packageJson := { Name := "left-pad", Version := "1.3.0", Main := "./index.js" }
    target := "es2022", pkgDir := "/pkg" }

/-- Package `bar@2.0.0` of type `module` with the wildcard export
`./lib/*` to `./src/*.js`, requested at the sub-path `lib/x`. -/
def ctxBar : BuildContext :=
  { esmPath := { PkgName := "bar", PkgVersion := "2.0.0", SubPath := "lib/x",
                 SubBareName := "lib/x" }
    packageJson :=
      { Name := "bar", Version := "2.0.0", Type' := "module"
        Exports := Value.omap [("./lib/*", Value.str "./src/*.js")] }
    target := "es2022", pkgDir := "/pkg" }

/-- Two `typesVersions` keys ending in `/*` whose prefixes both open the dts
`./lib/sub/a.d.ts`. -/
def wildcardMapping : List (String × Value) :=
  [("lib/*", Value.arr [Value.str "x/*"]), ("lib/sub/*", Value.arr [Value.str "y/*"])]

/-- A package with types `lib/sub/a.d.ts` and one `typesVersions` range whose
mapping is iterated in the given order. -/
def ctxTypesVersions (mapping : List (String × Value)) : BuildContext :=
  { esmPath := { PkgName := "pkg", PkgVersion := "1.0.0" }
    packageJson :=
      { Name := "pkg", Version := "1.0.0", Types := "lib/sub/a.d.ts"
        TypesVersions := [(">=4.0", Value.obj mapping)] }
    target := "types", pkgDir := "/pkg" }

/-! ## Definitions for the statements about the evaluator -/

/-- The value of the slot named by an entry type; empty for any other name. -/
def BuildEntry.slot (entry : BuildEntry) (entryType : String) : String :=
  if entryType = "esm" then entry.esm
  else if entryType = "cjs" then entry.cjs
  else if entryType = "dts" then entry.dts
  else ""

/-- A build with the user conditions `worker` and `custom`, for target `node`. -/
def ctxUserConditions : BuildContext :=
  { target := "node", dev := true, args := { conditions := ["worker", "custom"] } }

/-- Conditions in which the first user condition present is `custom`. -/
def condsCustom : OrderedMap :=
  [("import", Value.str "./i.js"), ("node", Value.str "./n.js"),
   ("development", Value.str "./dev.js"), ("custom", Value.str "./c.js"),
   ("default", Value.str "./d.js")]

/-- The conditions `browser` and `default` of the package `foo`. -/
def condsBrowserDefault : OrderedMap :=
  [("browser", Value.str "./b.js"), ("default", Value.str "./d.js")]

/-- A build for target `node` without user conditions. -/
def ctxNode : BuildContext := { target := "node" }

/-- The value of the first entry, in source order, whose key is one of `keys`
and whose value is a non-empty string; empty when there is none. -/
def firstValue (keys : List String) : OrderedMap → String
  | [] => ""
  | e :: rest =>
    match e.2 with
    | Value.str s => if e.1 ∈ keys ∧ s ≠ "" then s else firstValue keys rest
    | _ => firstValue keys rest

/-- The keys that fill a slot in the source-order loop: the keys that imply
the slot, and `default` when the module-type hint implies it. -/
def slotKeys (mType slot : String) : List String :=
  (if slot = "esm" then ["module", "import", "es2015"]
   else if slot = "cjs" then ["require"]
   else if slot = "dts" then ["types", "typings"]
   else [])
  ++ (if entryKeyOf mType = slot then ["default"] else [])

/-- The slot that the source-order loop targets at a key, if any. -/
def keyTarget (mType key : String) : Option String :=
  if key = "module" ∨ key = "import" ∨ key = "es2015" then some "esm"
  else if key = "require" then some "cjs"
  else if key = "types" ∨ key = "typings" then some "dts"
  else if key = "default" then some (entryKeyOf mType)
  else none

/-- A flat mapping of the slot-implying keys, with `default` first. -/
def condsFlat : OrderedMap :=
  [("default", Value.str "./d.js"), ("types", Value.str "./t.d.ts"),
   ("import", Value.str "./i.mjs"), ("module", Value.str "./m.js"),
   ("require", Value.str "./r.cjs"), ("typings", Value.str "./y.d.ts")]

/-- A build for a target without a runtime condition and without user
conditions. -/
def ctxTypesTarget : BuildContext := { target := "types" }

/-- Lines 61-65 of `resolve`: the non-empty `default` string of a nested
mapping is assigned to the target slot. -/
def assignDefault (entry : BuildEntry) (om : OrderedMap) (entryType : String) : BuildEntry :=
  match om.lookup "default" with
  | some (Value.str s) => if s ≠ "" then entry.updateEntry entryType s else entry
  | _ => entry

/-- The nested conditions `browser` with `import` and `require`. -/
def condsNested (a b : String) : OrderedMap :=
  [("browser", Value.omap [("import", Value.str a), ("require", Value.str b)])]

/-- The part of a string before the first occurrence of `c`; the whole string
when `c` does not occur. -/
def beforeFirst (s : String) (c : Char) : String := ⟨s.data.takeWhile (fun x => x != c)⟩

/-- Whether a value is a string or a mapping, the two kinds of value that
`resloveAsteriskPathMapping` carries over. -/
def Value.isPathValue : Value → Bool
  | Value.str _ => true
  | Value.omap _ => true
  | _ => false

/-- A wildcard mapping with a fallback array under `import`. -/
def condsFallbackArray : OrderedMap :=
  [("import", Value.arr [Value.str "./*.mjs", Value.str "./*.js"]),
   ("default", Value.str "./*.js")]

/-- A wildcard key with a conditions mapping and an exact key with a string
value, both matching the sub-module `lib/x`; the wildcard key comes first. -/
def exportsWildcardFirst : OrderedMap :=
  [("./lib/*", Value.omap [("types", Value.str "./types/*.d.ts"),
                           ("import", Value.str "./esm/*.js")]),
   ("./lib/x", Value.str "./x.js")]

/-- The mapping `exportsWildcardFirst` with the exact key first. -/
def exportsExactFirst : OrderedMap :=
  [("./lib/x", Value.str "./x.js"),
   ("./lib/*", Value.omap [("types", Value.str "./types/*.d.ts"),
                           ("import", Value.str "./esm/*.js")])]

/-- The sub-module `lib/x` of an ES-module package with the given exports. -/
def ctxExactWildcard (exports : OrderedMap) : BuildContext :=
  { esmPath := { PkgName := "bar", PkgVersion := "2.0.0", SubPath := "lib/x",
                 SubBareName := "lib/x" }
    packageJson :=
      { Name := "bar", Version := "2.0.0", Type' := "module"
        Exports := Value.omap exports }
    target := "es2022", pkgDir := "/pkg" }

/-- The files named by the values of `exportsWildcardFirst` for `lib/x`. -/
def filesExactWildcard : List String :=
  ["/pkg/x.js", "/pkg/esm/x.js", "/pkg/types/x.d.ts"]

/-- Every non-empty slot of the entry begins with `./`. -/
def SlotsRelative (entry : BuildEntry) : Prop :=
  (entry.esm ≠ "" → hasPrefix entry.esm "./" = true) ∧
  (entry.cjs ≠ "" → hasPrefix entry.cjs "./" = true) ∧
  (entry.dts ≠ "" → hasPrefix entry.dts "./" = true)

/-- A package with seeds, conditional exports, a `typesVersions` range and a
`browser` field, requested for a browser target. -/
def ctxAllFields : BuildContext :=
  { esmPath := { PkgName := "pkg", PkgVersion := "1.0.0" }
    packageJson :=
      { Name := "pkg", Version := "1.0.0", Main := "lib/index", Module := "esm/index.mjs"
        Types := "types/index.d.ts"
        Exports := Value.omap [("import", Value.str "esm/index.mjs"),
                               ("require", Value.str "lib/index.js")]
        TypesVersions := [(">=4.0", Value.obj [("*", Value.arr [Value.str "ts4/*"])])]
        Browser := [("./lib/index.js", "./browser/index.js")] }
    target := "es2022", pkgDir := "/pkg" }

/-- The request for the sub-path `sub` of the package of `ctxAllFields`. -/
def subPathOf (sub : String) : ESMPath :=
  { PkgName := "pkg", PkgVersion := "1.0.0", SubPath := sub, SubBareName := sub }

/-- The context with the `typesVersions` field of its manifest replaced. -/
def withTypesVersions (ctx : BuildContext) (tv : List (String × Value)) : BuildContext :=
  { ctx with packageJson := { ctx.packageJson with TypesVersions := tv } }

/-- Package `@types/node@20.1.0` with types `index.d.ts` and the single
range `>=4.0` that maps `*` to `ts4.0/*`. -/
def ctxTypesNode : BuildContext :=
  { esmPath := { PkgName := "@types/node", PkgVersion := "20.1.0" }
    packageJson :=
      { Name := "@types/node", Version := "20.1.0", Types := "index.d.ts"
        TypesVersions := [(">=4.0", Value.obj [("*", Value.arr [Value.str "ts4.0/*"])])] }
    target := "types", pkgDir := "/pkg" }

/-- The ranges `>9.0` and `>10.0`, each mapping `*` to a directory of its own. -/
def rangesNineTen : List (String × Value) :=
  [(">9.0", Value.obj [("*", Value.arr [Value.str "ts9/*"])]),
   (">10.0", Value.obj [("*", Value.arr [Value.str "ts10/*"])])]

/-- A package whose types are `types` and whose single range `>=4.0` has the
given mapping. -/
def ctxTypesMapping (types : String) (mapping : List (String × Value)) : BuildContext :=
  { esmPath := { PkgName := "pkg", PkgVersion := "1.0.0" }
    packageJson :=
      { Name := "pkg", Version := "1.0.0", Types := types
        TypesVersions := [(">=4.0", Value.obj mapping)] }
    target := "types", pkgDir := "/pkg" }

/-- A mapping with an exact key, a key ending in `/*` and the key `*`. -/
def mappingThreeKinds : List (String × Value) :=
  [("*", Value.arr [Value.str "all/*"]),
   ("lib/*", Value.arr [Value.str "x/*"]),
   ("lib/a.d.ts", Value.arr [Value.str "exact/*/a.d.ts"])]

/-- Lines 594-606: the entry is normalized, then the esm and cjs paths that
are keys of the `browser` mapping with a relative value are replaced. -/
def applyBrowserPaths (env : Env) (ctx : BuildContext) (entry : BuildEntry) : BuildEntry :=
  let entry := normalizeBuildEntry env ctx entry
  let entry :=
    if entry.esm ≠ "" then
      match ctx.packageJson.Browser.lookup entry.esm with
      | some m => if env.isRelPathSpecifier m then { entry with esm := m } else entry
      | none => entry
    else entry
  if entry.cjs ≠ "" then
    match ctx.packageJson.Browser.lookup entry.cjs with
    | some m => if env.isRelPathSpecifier m then { entry with cjs := m } else entry
    | none => entry
  else entry

/-- A package with `main`, the given `module` and a `browser` field whose key
`.` has the value `m`, built for the target `target`. -/
def ctxBrowserRoot (module m target : String) : BuildContext :=
  { esmPath := { PkgName := "pkg", PkgVersion := "1.0.0" }
    packageJson :=
      { Name := "pkg", Version := "1.0.0", Main := "lib/index.js", Module := module
        Browser := [(".", m)] }
    target := target, pkgDir := "/pkg" }

/-- Following the spec: the first candidate for which `ok` holds, `dflt` when
there is none. -/
def firstExisting (ok : String → Bool) (dflt : String) : List String → String
  | [] => dflt
  | c :: rest => if ok c then c else firstExisting ok dflt rest

/-- Following the spec: the esm slot after completion; `p` is the normalized
slot and the candidates are `p.mjs`, `p.js`, `p/index.mjs`, `p/index.js`. -/
def completedEsm (env : Env) (ctx : BuildContext) (entry : BuildEntry) : String :=
  let p := normalizeEntryPath env entry.esm
  if entry.esm = "" then ""
  else if endsWith p [".mjs", ".js"] then p
  else firstExisting (fun c => ctx.existsPkgFile env [c]) p
    [p ++ ".mjs", p ++ ".js", p ++ "/index.mjs", p ++ "/index.js"]

/-- Following the spec: the cjs slot after completion; `p` is the normalized
slot and the candidates are `p.cjs`, `p.js`, `p/index.cjs`, `p/index.js`. -/
def completedCjs (env : Env) (ctx : BuildContext) (entry : BuildEntry) : String :=
  let p := normalizeEntryPath env entry.cjs
  if entry.cjs = "" then ""
  else if endsWith p [".cjs", ".js"] then p
  else firstExisting (fun c => ctx.existsPkgFile env [c]) p
    [p ++ ".cjs", p ++ ".js", p ++ "/index.cjs", p ++ "/index.js"]

/-- Following the spec: the completed cjs entry is in `.js` form and the
module validator reports an ES module. -/
def cjsIsEsm (env : Env) (ctx : BuildContext) (entry : BuildEntry) : Bool :=
  completedCjs env ctx entry != "" && hasSuffix (completedCjs env ctx entry) ".js"
    && env.validateModuleFile (pathJoin [ctx.pkgDir, completedCjs env ctx entry])

/-! ## External imports (build_resolver.go 190-251, 690-931) -/

/-- The characters left after the first `n` bytes of a string, `none` when the
string is shorter; a cut inside a multi-byte character leaves the characters
after it. -/
def dropBytes : List Char → Nat → Option (List Char)
  | cs, 0 => some cs
  | [], _ + 1 => none
  | c :: cs, n + 1 => dropBytes cs (n + 1 - (utf8Bytes c).length)

/-- The characters of the first `n` bytes of a string, `none` when the string
is shorter; a cut inside a multi-byte character keeps that character. -/
def takeBytes : List Char → Nat → Option (List Char)
  | _, 0 => some []
  | [], _ + 1 => none
  | c :: cs, n + 1 => (takeBytes cs (n + 1 - (utf8Bytes c).length)).map (fun r => c :: r)

/-- Go `s[n:]`: `none` stands for the run-time panic of a slice out of range. -/
def sliceFrom (s : String) (n : Nat) : Option String := (dropBytes s.data n).map String.mk

/-- Go `s[:n]`: `none` stands for the run-time panic of a slice out of range. -/
def sliceTo (s : String) (n : Nat) : Option String := (takeBytes s.data n).map String.mk

/-- The `utils.SplitByFirstByte` of `ije/gox`: the parts before and after the
first occurrence of `c`; the whole string and `""` when `c` does not occur. -/
def splitByFirstByte (s : String) (c : Char) : String × String :=
  if c ∈ s.data then
    let before := s.data.takeWhile (fun x => x != c)
    (⟨before⟩, ⟨s.data.drop (before.length + 1)⟩)
  else (s, "")

/-- Go `path.Dir`: the path up to its last slash, cleaned. -/
def pathDir (p : String) : String :=
  let last := (p.data.reverse.takeWhile (fun c => c != '/')).reverse
  pathClean ⟨p.data.take (p.data.length - last.length)⟩

/-- Go `unicode.IsSpace`. -/
def isSpace (c : Char) : Bool :=
  let n := c.toNat
  (0x09 ≤ n && n ≤ 0x0D) || n == 0x20 || n == 0x85 || n == 0xA0 || n == 0x1680
    || (0x2000 ≤ n && n ≤ 0x200A) || n == 0x2028 || n == 0x2029 || n == 0x202F
    || n == 0x205F || n == 0x3000

/-- Go `strings.TrimSpace`. -/
def trimSpace (s : String) : String :=
  ⟨((s.data.dropWhile isSpace).reverse.dropWhile isSpace).reverse⟩

/-- The kinds `api.ResolveKind` of esbuild. -/
inductive ResolveKind
  | ResolveNone
  | ResolveEntryPoint
  | ResolveJSImportStatement
  | ResolveJSRequireCall
  | ResolveJSDynamicImport
  | ResolveJSRequireResolve
  | ResolveCSSImportRule
  | ResolveCSSComposesFrom
  | ResolveCSSURLToken
  deriving DecidableEq, Repr

/-- The parts of a parsed `url.URL` that the resolver reads; `Hostname` and
`Port` hold the values of the methods of these names. -/
structure URL where
  Scheme : String := ""
  Host : String := ""
  Hostname : String := ""
  Port : String := ""
  Path : String := ""
  Fragment : String := ""
  deriving DecidableEq, Repr

/-- A reference `GitRef` of a repository. -/
structure GitRef where
  Ref : String := ""
  Sha : String := ""
  deriving DecidableEq, Repr

/-- The collaborators of `resolveExternalModule` and `lookupDep` whose code is
outside these sources, in addition to those of `Env`. -/
structure DepEnv extends Env where
  /-- `isNodeBuiltInModule(specifier)` -/
  isNodeBuiltInModule : String → Bool
  /-- `toPackageName(specifier)` -/
  toPackageName : String → String
  /-- `toTypesPackageName(pkgName)` -/
  toTypesPackageName : String → String
  /-- `splitESMPath(specifier)`: the package name, version and sub-path -/
  splitESMPath : String → String × String × String
  /-- `toModuleBareName(path, stripIndexSuffix)` -/
  toModuleBareName : String → Bool → String
  /-- `isHttpSepcifier(specifier)` -/
  isHttpSepcifier : String → Bool
  /-- `url.Parse`, `none` on error -/
  urlParse : String → Option URL
  /-- `url.QueryEscape` -/
  queryEscape : String → String
  /-- `regexpVersion.MatchString` -/
  regexpVersion : String → Bool
  /-- `regexpVersionStrict.MatchString` -/
  regexpVersionStrict : String → Bool
  /-- `isCommitish(s)` -/
  isCommitish : String → Bool
  /-- `listRepoRefs(repo)` -/
  listRepoRefs : String → Except String (List GitRef)
  /-- `normalizeBuildArgs(npmrc, wd, &args, esm)`: the normalized args -/
  normalizeBuildArgs : String → BuildArgs → ESMPath → Except String BuildArgs
  /-- `npmrc.getPackageInfo(name, version)` -/
  getPackageInfo : String → String → Except String PackageJSON
  /-- `relPath(basePath, targetPath)`, `none` on error -/
  relPath : String → String → Option String

/-- How a call of `resolveExternalModule` ends: with a resolved path and no
error, with an error, or in a run-time panic. -/
inductive Outcome
  | ok (resolvedPath : String)
  | err (message : String)
  | panic
  deriving DecidableEq, Repr

/-- A stage of `resolveExternalModule` either ends the call or goes on with
the dependency path. -/
inductive Step
  | done (outcome : Outcome)
  | next (depPath : ESMPath)
  deriving DecidableEq, Repr

/-- One pass through the label `lookup` of `lookupDep`: the values returned
when the pass does not jump back to the label, and the package name and
version with which the label is entered again when it does. -/
structure LookupPass where
  result : Except String (ESMPath × PackageJSON)
  retry : Option (String × String) := none

/-- Lines 221-239 of `lookupDep`: the package name and version looked up for a
dependency that is neither pinned by `deps` nor installed. -/
def lookupDepVersion (env : DepEnv) (ctx : BuildContext) (pkgName version : String) :
    String × String :=
  if version = "" then
    match ctx.packageJson.Dependencies.lookup pkgName with
    | some v =>
      if hasPrefix v "npm:" then
        let r := env.splitESMPath ⟨v.data.drop 4⟩
        (r.1, r.2.1)
      else (pkgName, v)
    | none =>
      match ctx.packageJson.PeerDependencies.lookup pkgName with
      | some v =>
        if hasPrefix v "npm:" then
          let r := env.splitESMPath ⟨v.data.drop 4⟩
          (r.1, r.2.1)
        else (pkgName, v)
      | none => (pkgName, "latest")
  else (pkgName, version)

/-- Lines 192-250 of `lookupDep`: one pass from the label `lookup` to the
return or the jump back; `parseJSONFile` gives the manifest of an installed
package. -/
def lookupDepPass (env : DepEnv) (ctx : BuildContext) (pkgName version subpath : String)
    (isDts : Bool) : LookupPass :=
  match ctx.args.deps.lookup pkgName with
  | some v =>
    match env.getPackageInfo pkgName v with
    | Except.ok p =>
      { result := Except.ok
          ({ PkgName := pkgName, PkgVersion := p.Version, SubPath := subpath,
             SubBareName := env.toModuleBareName subpath true }, p) }
    | Except.error e => { result := Except.error e }
  | none =>
    let pkgJsonPath :=
      pathJoin [ctx.wd, "node_modules", ".pnpm", "node_modules", pkgName, "package.json"]
    let pkgJsonPath :=
      if !env.existsFile pkgJsonPath then
        pathJoin [ctx.wd, "node_modules", pkgName, "package.json"]
      else pkgJsonPath
    match (if env.existsFile pkgJsonPath then env.parseJSONFile pkgJsonPath else none) with
    | some rawInfo =>
      { result := Except.ok
          ({ PkgName := pkgName, PkgVersion := rawInfo.Version, SubPath := subpath,
             SubBareName := env.toModuleBareName subpath true }, rawInfo) }
    | none =>
      let nv := lookupDepVersion env ctx pkgName version
      match env.getPackageInfo nv.1 nv.2 with
      | Except.ok p =>
        { result := Except.ok
            ({ PkgName := nv.1, PkgVersion := p.Version, SubPath := subpath,
               SubBareName := env.toModuleBareName subpath true }, p) }
      | Except.error e =>
        { result := Except.error e
          retry :=
            if hasSuffix e " not found" && isDts && !hasPrefix nv.1 "@types/" then
              some (env.toTypesPackageName nv.1, nv.2)
            else none }

/-- Line 713: the specifier is the entry of the current package from GitHub. -/
def isGhSelf (ctx : BuildContext) (specifier : String) : Bool :=
  ctx.esmPath.GhPrefix
    && (specifier == ctx.packageJson.Name || specifier == ctx.packageJson.PkgName)

/-- Lines 714-719: the URL of the entry of the current package from GitHub. -/
def resolveGhSelf (env : DepEnv) (ctx : BuildContext) : String :=
  ctx.getImportPath env.toEnv
    { PkgName := ctx.packageJson.Name, PkgVersion := ctx.packageJson.Version, GhPrefix := true }
    (ctx.getBuildArgsPrefix env.toEnv false)

/-- Lines 724-733: a Node built-in module. -/
def resolveNodeBuiltin (ctx : BuildContext) (specifier : String) : Outcome :=
  if ctx.args.externalAll || ctx.target == "node" || ctx.target == "denonext"
      || decide (specifier ∈ ctx.args.external) then
    Outcome.ok specifier
  else if ctx.target = "deno" then
    match sliceFrom specifier 5 with
    | some name => Outcome.ok ("https://deno.land/std@0.177.1/node/" ++ name ++ ".ts")
    | none => Outcome.panic
  else
    match sliceFrom specifier 5 with
    | some name => Outcome.ok ("/node/" ++ name ++ ".mjs")
    | none => Outcome.panic

/-- Lines 743-750: the module path of a sub-module of the current package. -/
def subModuleOf (env : DepEnv) (ctx : BuildContext) (specifier : String) : ESMPath :=
  let subPath := trimPrefix specifier (ctx.packageJson.Name ++ "/")
  { PkgName := ctx.esmPath.PkgName, PkgVersion := ctx.esmPath.PkgVersion, SubPath := subPath,
    SubBareName := env.toModuleBareName subPath false, GhPrefix := ctx.esmPath.GhPrefix }

/-- Lines 742-785: the URL of a sub-module of the current package; the
scheduling of its build does not change the URL. -/
def resolveSubModuleImport (env : DepEnv) (ctx : BuildContext) (specifier : String) : String :=
  let subModule := subModuleOf env ctx specifier
  let resolvedPath :=
    ctx.getImportPath env.toEnv subModule (ctx.getBuildArgsPrefix env.toEnv false)
  if ctx.bundleMode = BundleMode.BundleFalse then
    let ne := splitByLastByte resolvedPath '.'
    ne.1 ++ ".nobundle." ++ ne.2
  else resolvedPath

/-- Lines 789-806: the version expression of a dependency. -/
def dependencyVersion (ctx : BuildContext) (pkgName version : String) : String :=
  let version :=
    if version = "" then
      if pkgName = ctx.esmPath.PkgName then ctx.esmPath.PkgVersion
      else
        match ctx.args.deps.lookup pkgName with
        | some pkgVerson => pkgVerson
        | none =>
          match ctx.packageJson.Dependencies.lookup pkgName with
          | some v => trimSpace v
          | none =>
            match ctx.packageJson.PeerDependencies.lookup pkgName with
            | some v => trimSpace v
            | none => "latest"
    else version
  -- force the version of 'react' (as dependency) equals to 'react-dom'
  if ctx.esmPath.PkgName = "react-dom" ∧ pkgName = "react" then ctx.esmPath.PkgVersion
  else version

/-- The synthetic error URL of lines 823-851:
`/error.js?type=<kind>&name=<name>&importer=<importer>`. -/
def errorURL (env : DepEnv) (ctx : BuildContext) (kind name : String) : String :=
  "/error.js?type=" ++ kind ++ "&name=" ++ name ++ "&importer="
    ++ env.esmPathString ctx.esmPath

/-- Lines 827-846: a dependency given by an HTTP URL. -/
def resolveHttpDependency (env : DepEnv) (ctx : BuildContext) (pkgName version : String)
    (depPath : ESMPath) : Step :=
  match env.urlParse version with
  | none => Step.done (Outcome.ok (errorURL env ctx "unsupported-http-dependency" pkgName))
  | some u =>
    if u.Host ≠ "pkg.pr.new" then
      Step.done (Outcome.ok (errorURL env ctx "unsupported-http-dependency" pkgName))
    else
      match sliceFrom u.Path 1 with
      | none => Step.done Outcome.panic
      | some p =>
        let nr := splitByLastByte p '@'
        if nr.2 = "" then
          Step.done (Outcome.ok (errorURL env ctx "invalid-http-dependency" nr.1))
        else
          let version := (splitByFirstByte nr.2 '/').1
          if version = "" || !env.regexpVersion version then
            Step.done (Outcome.ok (errorURL env ctx "invalid-http-dependency" nr.1))
          else
            Step.next { depPath with PkgName := nr.1, PkgVersion := version, PrPrefix := true }

/-- Lines 856-868: a dependency given by a git URL. -/
def resolveGitDependency (env : DepEnv) (ctx : BuildContext) (pkgName version : String)
    (depPath : ESMPath) : Step :=
  match env.urlParse version with
  | none => Step.done (Outcome.ok (errorURL env ctx "unsupported-git-dependency" pkgName))
  | some gitUrl =>
    if gitUrl.Hostname ≠ "github.com" then
      Step.done (Outcome.ok (errorURL env ctx "unsupported-git-dependency" pkgName))
    else
      match sliceFrom gitUrl.Path 1 with
      | none => Step.done Outcome.panic
      | some p =>
        let repo := trimSuffix p ".git"
        let repo := if gitUrl.Scheme = "git+ssh" then gitUrl.Port ++ "/" ++ repo else repo
        Step.next
          { depPath with
            PkgName := repo
            PkgVersion := trimPrefix (env.queryEscape gitUrl.Fragment) "semver:"
            GhPrefix := true }

/-- Lines 820-875: the alias schemes of a dependency version. -/
def resolveDependencyAlias (env : DepEnv) (ctx : BuildContext) (pkgName version : String)
    (depPath : ESMPath) : Step :=
  -- ban file specifier
  if hasPrefix version "file:" then
    Step.done (Outcome.ok (errorURL env ctx "unsupported-file-dependency" pkgName))
  else if env.isHttpSepcifier version then
    resolveHttpDependency env ctx pkgName version depPath
  else if hasPrefix version "npm:" then
    let r := env.splitESMPath ⟨version.data.drop 4⟩
    Step.next { depPath with PkgName := r.1, PkgVersion := r.2.1 }
  else if hasPrefix version "jsr:" then
    let r := env.splitESMPath ⟨version.data.drop 4⟩
    if !hasPrefix r.1 "@" || !decide ('/' ∈ r.1.data) then
      Step.done (Outcome.ok (errorURL env ctx "invalid-jsr-dependency" r.1))
    else
      let sn := splitByFirstByte r.1 '/'
      Step.next
        { depPath with
          PkgName := "@jsr/" ++ ⟨sn.1.data.drop 1⟩ ++ "__" ++ sn.2
          PkgVersion := r.2.1 }
  else if hasPrefix version "git+ssh://" || hasPrefix version "git+https://"
      || hasPrefix version "git://" then
    resolveGitDependency env ctx pkgName version depPath
  else if hasPrefix version "github:"
      || (!hasPrefix version "@" && decide ('/' ∈ version.data)) then
    let rf := splitByLastByte (trimPrefix version "github:") '#'
    Step.next
      { depPath with
        GhPrefix := true
        PkgName := rf.1
        PkgVersion := trimPrefix (env.queryEscape rf.2) "semver:" }
  else Step.next depPath

/-- Lines 878-890: the head of the repository is the version of a GitHub
dependency without one. -/
def resolveRepoHead (env : DepEnv) (depPath : ESMPath) : Step :=
  if depPath.GhPrefix && depPath.PkgVersion == "" then
    match env.listRepoRefs ("https://github.com/" ++ depPath.PkgName) with
    | Except.error e => Step.done (Outcome.err e)
    | Except.ok refs =>
      match refs.find? (fun ref => ref.Ref == "HEAD") with
      | some ref =>
        match sliceTo ref.Sha 16 with
        | some sha => Step.next { depPath with PkgVersion := sha }
        | none => Step.done Outcome.panic
      | none => Step.next depPath
  else Step.next depPath

/-- Lines 892-899: whether the version of the dependency is fixed. -/
def isFixedVersion (env : DepEnv) (depPath : ESMPath) : Bool :=
  if depPath.GhPrefix then
    env.isCommitish depPath.PkgVersion
      || env.regexpVersionStrict (trimPrefix depPath.PkgVersion "v")
  else if depPath.PrPrefix then true
  else env.regexpVersionStrict depPath.PkgVersion

/-- Lines 900-979: the URL of a dependency from its path; `pkgName` and
`version` are the name and version expression in the importing package. -/
def resolveDependencyURL (env : DepEnv) (ctx : BuildContext) (pkgName version : String)
    (depPath : ESMPath) : Outcome :=
  let args : BuildArgs :=
    { alias' := ctx.args.alias', deps := ctx.args.deps, external := ctx.args.external,
      conditions := ctx.args.conditions, exports := [] }
  match env.normalizeBuildArgs ctx.wd args depPath with
  | Except.error e => Outcome.err e
  | Except.ok args =>
    if isFixedVersion env depPath then
      let a := env.encodeBuildArgs args false
      let buildArgsPrefix := if a ≠ "" then "X-" ++ a ++ "/" else ""
      Outcome.ok (ctx.getImportPath env.toEnv depPath buildArgsPrefix)
    else if decide ('|' ∈ depPath.PkgVersion.data) || decide (' ' ∈ depPath.PkgVersion.data) then
      -- fetch the latest version of the package based on the semver range;
      -- `lookupDep` is called without dts mode, in which it returns after one pass
      let r := env.splitESMPath (pkgName ++ "@" ++ version)
      match (lookupDepPass env ctx r.1 r.2.1 r.2.2 false).result with
      | Except.error e => Outcome.err e
      | Except.ok p =>
        Outcome.ok (resolveExternalModuleQuery env.toEnv ctx
          { depPath with PkgVersion := "^" ++ p.2.Version } args)
    else Outcome.ok (resolveExternalModuleQuery env.toEnv ctx depPath args)

/-- Lines 712-979: the body of `resolveExternalModule`, before the deferred
bookkeeping. -/
def resolveExternalModuleBody (env : DepEnv) (ctx : BuildContext) (specifier : String) :
    Outcome :=
  -- it's the entry of current package from GitHub
  if isGhSelf ctx specifier then Outcome.ok (resolveGhSelf env ctx)
  -- node builtin module
  else if env.isNodeBuiltInModule specifier then resolveNodeBuiltin ctx specifier
  -- check `?external`
  else if ctx.args.externalAll || decide (env.toPackageName specifier ∈ ctx.args.external) then
    Outcome.ok specifier
  -- it's a sub-module of current package
  else if hasPrefix specifier (ctx.packageJson.Name ++ "/") then
    Outcome.ok (resolveSubModuleImport env ctx specifier)
  else
    -- common npm dependency
    let r := env.splitESMPath specifier
    let version := dependencyVersion ctx r.1 r.2.1
    let depPath : ESMPath :=
      { PkgName := r.1, PkgVersion := version, SubPath := r.2.2,
        SubBareName := env.toModuleBareName r.2.2 true }
    match resolveDependencyAlias env ctx r.1 version depPath with
    | Step.done outcome => outcome
    | Step.next depPath =>
      match resolveRepoHead env depPath with
      | Step.done outcome => outcome
      | Step.next depPath => resolveDependencyURL env ctx r.1 version depPath

/-- Lines 691-710: the deferred bookkeeping for the resolved path of a call
without error; the value returned and the context afterwards. -/
def recordResolved (env : DepEnv) (ctx : BuildContext) (specifier : String)
    (kind : ResolveKind) (resolvedPath : String) : String × BuildContext :=
  let resolvedPathFull := resolvedPath
  -- use relative path for sub-module of current package
  let rc : String × BuildContext :=
    if hasPrefix specifier (ctx.packageJson.Name ++ "/") then
      let pc := ctx.Path env.toEnv
      match env.relPath (pathDir pc.1) resolvedPath with
      | some rp => (rp, pc.2)
      | none => (resolvedPath, pc.2)
    else (resolvedPath, ctx)
  let resolvedPath := rc.1
  let ctx := rc.2
  -- mark the resolved path for _preload_
  let ctx :=
    if kind ≠ ResolveKind.ResolveJSDynamicImport then
      { ctx with importMap := ctx.importMap ++ [(resolvedPathFull, resolvedPath)] }
    else ctx
  -- if it's `require("module")` call
  if kind = ResolveKind.ResolveJSRequireCall then
    (specifier,
      { ctx with cjsRequires := ctx.cjsRequires ++ [(specifier, resolvedPathFull, resolvedPath)] })
  else (resolvedPath, ctx)

/-- Model of `ctx.resolveExternalModule(specifier, kind)`: how the call ends
and the context afterwards. The deferred function also runs when the body
panics, with an empty resolved path. -/
def BuildContext.resolveExternalModule (env : DepEnv) (ctx : BuildContext)
    (specifier : String) (kind : ResolveKind) : Outcome × BuildContext :=
  match resolveExternalModuleBody env ctx specifier with
  | Outcome.ok resolvedPath =>
    let rc := recordResolved env ctx specifier kind resolvedPath
    (Outcome.ok rc.1, rc.2)
  | Outcome.err e => (Outcome.err e, ctx)
  | Outcome.panic => (Outcome.panic, (recordResolved env ctx specifier kind "").2)

/-! ## Sample collaborators of the external-import rewriter -/

/-- Sample `splitESMPath`: `name[@version][/sub-path]`, the name with its
scope when it begins with `@`. -/
def sampleSplitESMPath (s : String) : String × String × String :=
  let segs := split s '/'
  let hasScope := hasPrefix s "@"
  let head := if hasScope then join (segs.take 2) "/" else join (segs.take 1) "/"
  let sub := join (segs.drop (if hasScope then 2 else 1)) "/"
  let nv := splitByFirstByte ⟨head.data.drop (if hasScope then 1 else 0)⟩ '@'
  ((if hasScope then "@" else "") ++ nv.1, nv.2, sub)

/-- Sample `toModuleBareName`: the path without its module extension and,
when asked, without a final `index` element. -/
def sampleModuleBareName (p : String) (stripIndexSuffix : Bool) : String :=
  let p := stripModuleExt p []
  if stripIndexSuffix then
    if p = "index" then "" else trimSuffix p "/index"
  else p

/-- Sample `url.Parse`: `scheme://[user@]host[:port][/path][#fragment]`. -/
def sampleUrlParse (s : String) : Option URL :=
  let sr := splitByFirstByte s ':'
  if hasPrefix sr.2 "//" then
    let pf := splitByFirstByte ⟨sr.2.data.drop 2⟩ '#'
    let authority : String := ⟨pf.1.data.takeWhile (fun c => c != '/')⟩
    let path : String := ⟨pf.1.data.dropWhile (fun c => c != '/')⟩
    let host := if '@' ∈ authority.data then (splitByLastByte authority '@').2 else authority
    let hp := splitByFirstByte host ':'
    some { Scheme := sr.1, Host := host, Hostname := hp.1, Port := hp.2, Path := path,
           Fragment := pf.2 }
  else none

/-- The upper-case hexadecimal digit of a number below 16. -/
def upperHexDigit (n : Nat) : Char :=
  if n < 10 then Char.ofNat (48 + n) else Char.ofNat (55 + n)

/-- Sample `url.QueryEscape` of one character. -/
def sampleEscapeChar (c : Char) : List Char :=
  if c.isAlphanum || c == '-' || c == '_' || c == '.' || c == '~' then [c]
  else if c == ' ' then ['+']
  else (utf8Bytes c).flatMap (fun b => ['%', upperHexDigit (b / 16), upperHexDigit (b % 16)])

/-- Sample `regexpVersion`: one or more word characters, `+`, `-` or `.`. -/
def sampleVersion (s : String) : Bool :=
  s.data ≠ [] && s.data.all (fun c => c.isAlphanum || c == '_' || c == '+' || c == '-' || c == '.')

/-- Sample `regexpVersionStrict`: three numbers joined by dots, then
optionally `-` and a non-empty `regexpVersion` tail. -/
def sampleVersionStrict (s : String) : Bool :=
  let core : String := ⟨s.data.takeWhile (fun c => c != '-')⟩
  let tail : String := ⟨s.data.dropWhile (fun c => c != '-')⟩
  let nums := split core '.'
  nums.length == 3 && nums.all (fun n => n.data ≠ [] && n.data.all Char.isDigit)
    && (tail == "" || sampleVersion ⟨tail.data.drop 1⟩)

/-- A world for concrete runs of the external-import rewriter over
`sampleEnv files esmFiles`: the Node built-ins are `node:` followed by a name
of `builtins`, a package of `registry` has the listed version, HTTP
specifiers begin with `http://` or `https://`, a commit-ish is 7 to 40
lower-case hexadecimal digits, every repository has one `HEAD` reference,
build args are normalized to themselves, and a path is relative to a base
that opens it. -/
def sampleDepEnv (files esmFiles builtins : List String) (registry : List (String × String)) :
    DepEnv where
  toEnv := sampleEnv files esmFiles
  isNodeBuiltInModule := fun s =>
    hasPrefix s "node:" && decide ((⟨s.data.drop 5⟩ : String) ∈ builtins)
  toPackageName := fun s => (sampleSplitESMPath s).1
  toTypesPackageName := fun n =>
    "@types/" ++ (if hasPrefix n "@" then replaceAll ⟨n.data.drop 1⟩ "/" "__" else n)
  splitESMPath := sampleSplitESMPath
  toModuleBareName := sampleModuleBareName
  isHttpSepcifier := fun s => hasPrefix s "http://" || hasPrefix s "https://"
  urlParse := sampleUrlParse
  queryEscape := fun s => ⟨s.data.flatMap sampleEscapeChar⟩
  regexpVersion := sampleVersion
  regexpVersionStrict := sampleVersionStrict
  isCommitish := fun s =>
    7 ≤ s.data.length && s.data.length ≤ 40
      && s.data.all (fun c => c.isDigit || ('a' ≤ c && c ≤ 'f'))
  listRepoRefs := fun _ =>
    Except.ok [{ Ref := "refs/heads/main", Sha := "89abcdef0123456789abcdef0123456789abcdef" },
               { Ref := "HEAD", Sha := "0123456789abcdef0123456789abcdef01234567" }]
  normalizeBuildArgs := fun _ args _ => Except.ok args
  getPackageInfo := fun name _ =>
    match registry.lookup name with
    | some v => Except.ok { Name := name, Version := v }
    | none => Except.error ("package " ++ name ++ " not found")
  relPath := fun base target =>
    if hasPrefix target (base ++ "/") then some ("./" ++ trimPrefix target (base ++ "/"))
    else none

/-- The sample world in which the Node built-ins are `node:fs` and
`node:path` and the registry is empty. -/
def worldBuiltins : DepEnv := sampleDepEnv [] [] ["fs", "path"] []

/-- A world in which the bare name `fs` is reported as a Node built-in. -/
def worldBareBuiltins : DepEnv :=
  { worldBuiltins with isNodeBuiltInModule := fun s => decide (s ∈ ["fs", "path"]) }

/-- A build of `left-pad@1.3.0` for the given target. -/
def ctxTarget (target : String) : BuildContext := { ctxLeftPad with target := target }

/-- The URL that the deferred bookkeeping records as emitted for the resolved
path `p`: the path relative to the directory of `Path()` for a sub-module of
the current package when `relPath` succeeds, `p` itself otherwise. -/
def emittedPath (env : DepEnv) (ctx : BuildContext) (specifier p : String) : String :=
  if hasPrefix specifier (ctx.packageJson.Name ++ "/") then
    (env.relPath (pathDir (ctx.Path env.toEnv).1) p).getD p
  else p

/-- A build of `name@version` for `es2022` whose manifest lists the
dependencies `dependencies` and the peer dependencies `peers`, with the
versions `deps` fixed by the build args. -/
def ctxImporter (name version : String) (deps dependencies peers : List (String × String)) :
    BuildContext :=
  { esmPath := { PkgName := name, PkgVersion := version }
    packageJson :=
      { Name := name, Version := version, Dependencies := dependencies,
        PeerDependencies := peers }
    args := { deps := deps }
    target := "es2022", pkgDir := "/pkg" }

/-- Following the spec: the URL of a dependency without a fixed version,
`/<pkg-spec>` and, when a parameter applies, `?` and the parameters joined by
`&`: sorted `alias=`, sorted `deps=`, sorted `external=`, sorted
`conditions=`, `target=` when the target is pinned, `dev`, and `module` when
the path ends in `.json`. -/
def sortedQuery (env : Env) (ctx : BuildContext) (depPath : ESMPath) (args : BuildArgs) :
    String :=
  let resolvedPath := "/" ++ env.esmPathString depPath
  let resolvedPath :=
    if depPath.PkgName = "es5-ext" then replaceAll resolvedPath "/#/" "/%23/" else resolvedPath
  let params : List String :=
    (if args.alias'.length > 0 then
      ["alias=" ++ join (sortStrings (args.alias'.map (fun kv => kv.1 ++ ":" ++ kv.2))) ","]
     else [])
    ++ (if args.deps.length > 0 then
      ["deps=" ++ join (sortStrings (args.deps.map (fun nv => nv.1 ++ "@" ++ nv.2))) ","]
     else [])
    ++ (if args.external.length > 0 then
      ["external=" ++ join (sortStrings args.external) ","] else [])
    ++ (if args.conditions.length > 0 then
      ["conditions=" ++ join (sortStrings args.conditions) ","] else [])
    ++ (if ctx.pinedTarget then ["target=" ++ ctx.target] else [])
    ++ (if ctx.dev then ["dev"] else [])
    ++ (if hasSuffix resolvedPath ".json" then ["module"] else [])
  if params.length > 0 then resolvedPath ++ "?" ++ join params "&" else resolvedPath

/-- Build args with two entries of each kind, none listed in sorted order. -/
def argsUnsorted : BuildArgs :=
  { alias' := [("b", "y"), ("a", "x")], deps := [("n", "2.0.0"), ("m", "1.0.0")],
    external := ["e2", "e1"], conditions := ["c2", "c1"] }

/-- A development build with a pinned target. -/
def ctxPinnedDev : BuildContext := { target := "es2022", dev := true, pinedTarget := true }

mutual
/-- The strings that occur as values in a conditions tree, at any depth. -/
def Value.strings : Value → List String
  | Value.str s => [s]
  | Value.omap es => stringsEntries es
  | _ => []
/-- The strings that occur as values in the entries of a conditions mapping,
at any depth. -/
def stringsEntries : List (String × Value) → List String
  | [] => []
  | e :: rest => e.2.strings ++ stringsEntries rest
end

/-- Every non-empty slot of the entry is one of the strings `leaves`. -/
def FromTree (leaves : List String) (entry : BuildEntry) : Prop :=
  (entry.esm ≠ "" → entry.esm ∈ leaves) ∧ (entry.cjs ≠ "" → entry.cjs ∈ leaves)
    ∧ (entry.dts ≠ "" → entry.dts ∈ leaves)

/-- Conditions nested three levels deep, with a fallback array that the
evaluator does not read. -/
def condsDeep : OrderedMap :=
  [("node", Value.omap [("import", Value.omap [("types", Value.str "./n.d.mts"),
                                               ("default", Value.str "./n.mjs")]),
                        ("require", Value.arr [Value.str "./n.cjs"])]),
   ("default", Value.str "./d.js")]

/-- The loop of `lookupDep` over its label `lookup`: `fuel` bounds the number
of times the label is entered, `none` means that the bound is used up before
the function returns. -/
def lookupDepLoop (env : DepEnv) (ctx : BuildContext) (subpath : String) (isDts : Bool) :
    Nat → String → String → Option (Except String (ESMPath × PackageJSON))
  | 0, _, _ => none
  | fuel + 1, pkgName, version =>
    let pass := lookupDepPass env ctx pkgName version subpath isDts
    match pass.retry with
    | none => some pass.result
    | some nv => lookupDepLoop env ctx subpath isDts fuel nv.1 nv.2

/-- Model of `ctx.lookupDep(specifier, isDts)` with a bound on the number of
times the label `lookup` is entered. -/
def BuildContext.lookupDep (env : DepEnv) (ctx : BuildContext) (specifier : String)
    (isDts : Bool) (fuel : Nat) : Option (Except String (ESMPath × PackageJSON)) :=
  let r := env.splitESMPath specifier
  lookupDepLoop env ctx r.2.2 isDts fuel r.1 r.2.1

/-- A manifest that lists `a` as an alias of `b` without a version, and
`@types/b` as an alias of `b` as well. -/
def ctxAliasCycle : BuildContext :=
  ctxImporter "app" "1.0.0" [] [("a", "npm:b"), ("@types/b", "npm:b")] []

/-- Lines 751-770: the build context of a sub-module of the current package,
whose `Path()` is the key under which the sub-build is scheduled. -/
def subBuildContext (ctx : BuildContext) (subModule : ESMPath) : BuildContext :=
  { zoneId := ctx.zoneId, esmPath := subModule, packageJson := ctx.packageJson,
    args := ctx.args, target := ctx.target, dev := ctx.dev, wd := ctx.wd,
    pkgDir := ctx.pkgDir,
    bundleMode :=
      if ctx.bundleMode = BundleMode.BundleFalse then BundleMode.BundleFalse
      else BundleMode.BundleDefault }

/-- A build of `left-pad@1.3.0` for `es2022` with the given dev flag and
bundle mode. -/
def ctxMode (dev : Bool) (mode : BundleMode) : BuildContext :=
  { ctxLeftPad with dev := dev, bundleMode := mode }

/-! ## Manifest normalization (build_resolver.go 1044-1109, 1209-1222) -/

mutual
/-- Worker of `getAllExportsPaths` on one value: a string is a path, a nested
mapping gives its paths, other values give none. -/
def getAllExportsPathsValue : Value → List String
  | Value.str s => [s]
  | Value.omap om => getAllExportsPaths om
  | _ => []
/-- Model of `getAllExportsPaths(om)`: the string values of the mapping at any
depth, in key order. -/
def getAllExportsPaths : List (String × Value) → List String
  | [] => []
  | e :: rest => getAllExportsPathsValue e.2 ++ getAllExportsPaths rest
end

/-- The closure `check` of `normalizePackageJSON` (lines 1075-1077) for the
current value `isPkgMainModule` of the flag; `none` stands for the panic of
the slice `[1:]` of an empty path name. -/
def checkMain (env : Env) (subModule : String) (isPkgMainModule : Bool) (s : String) :
    Option Bool :=
  if isPkgMainModule then some true
  else if s ≠ "" then
    (sliceFrom (env.normalizePathname (stripModuleExt s [])) 1).map
      (fun name => decide (subModule = name))
  else some false

/-- Lines 1090-1096: the loop over the paths of `exports["."]`, left at the
first path that is the sub-module. -/
def checkPaths (env : Env) (subModule : String) : List String → Option Bool
  | [] => some false
  | path :: rest =>
    match checkMain env subModule false path with
    | none => none
    | some true => some true
    | some false => checkPaths env subModule rest

/-- Lines 1078-1099: the flag `isPkgMainModule` after the look at `exports`. -/
def checkExports (env : Env) (subModule : String) (p : PackageJSON) : Option Bool :=
  match p.Exports with
  | Value.str s => checkMain env subModule false s
  | Value.omap om =>
    match OrderedMap.Get om "." with
    | Value.str s => checkMain env subModule false s
    | Value.omap om => checkPaths env subModule (getAllExportsPaths om)
    | _ => some false
  | _ => some false

/-- Lines 1100-1102: the flag `isPkgMainModule` from the `module` and `main`
fields, when `exports` did not set it. -/
def checkFields (env : Env) (subModule : String) (p : PackageJSON) : Option Bool :=
  match (if p.Module ≠ "" then checkMain env subModule false p.Module else some false) with
  | none => none
  | some true => some true
  | some false => if p.Main ≠ "" then checkMain env subModule false p.Main else some false

/-- Lines 1073-1102: whether the sub-module is the main module of the package. -/
def isPkgMainModule (env : Env) (subModule : String) (p : PackageJSON) : Option Bool :=
  match checkExports env subModule p with
  | none => none
  | some true => some true
  | some false => checkFields env subModule p

/-- Lines 1045-1054: the name and version of the manifest. -/
def normalizeManifestVersion (ctx : BuildContext) (p : PackageJSON) : PackageJSON :=
  if ctx.esmPath.GhPrefix || ctx.esmPath.PrPrefix then
    -- if the name in package.json is not the same as the repository name
    let p :=
      if p.Name ≠ ctx.esmPath.PkgName then
        { p with PkgName := p.Name, Name := ctx.esmPath.PkgName }
      else p
    { p with Version := ctx.esmPath.PkgVersion }
  else { p with Version := trimPrefix p.Version "v" }

/-- Lines 1060-1069: the `module` field taken from `es2015`, `jsnext:main` or
`main` when it is empty. -/
def normalizeManifestModule (env : Env) (ctx : BuildContext) (p : PackageJSON) : PackageJSON :=
  if p.Module = "" then
    if p.ES2015 ≠ "" && ctx.existsPkgFile env [p.ES2015] then { p with Module := p.ES2015 }
    else if p.JsNextMain ≠ "" && ctx.existsPkgFile env [p.JsNextMain] then
      { p with Module := p.JsNextMain }
    else if p.Main ≠ "" && (p.Type' == "module" || hasSuffix p.Main ".mjs") then
      { p with Module := p.Main, Main := "" }
    else p
  else p

/-- The context with the sub-path, the sub-bare-name and the memoized path
cleared (lines 1104-1106). -/
def clearSubPath (ctx : BuildContext) : BuildContext :=
  { ctx with esmPath := { ctx.esmPath with SubBareName := "", SubPath := "" }, path := "" }

/-- Model of `ctx.normalizePackageJSON(p)`: the manifest and the context
afterwards; `none` stands for a run-time panic. -/
def BuildContext.normalizePackageJSON (env : Env) (ctx : BuildContext) (p : PackageJSON) :
    Option (PackageJSON × BuildContext) :=
  let p := normalizeManifestVersion ctx p
  if ctx.target = "types" then some (p, ctx)
  else
    let p := normalizeManifestModule env ctx p
    -- Check if the `SubPath` is the same as the `main` or `module` field of the package.json
    if ctx.esmPath.SubBareName ≠ "" then
      match isPkgMainModule env ctx.esmPath.SubBareName p with
      | none => none
      | some true => some (p, clearSubPath ctx)
      | some false => some (p, ctx)
    else some (p, ctx)

/-- Following the spec: the extension-stripped, normalized path of an entry,
without its leading slash. -/
def mainName (env : Env) (s : String) : String :=
  ⟨(env.normalizePathname (stripModuleExt s [])).data.drop 1⟩

/-- Following the spec: the paths of the main entry given by `exports`: a
string `exports`, or `exports["."]` as a string or the string leaves of its
nested mapping. -/
def exportsMainPaths (exports : Value) : List String :=
  match exports with
  | Value.str s => [s]
  | Value.omap om =>
    match OrderedMap.Get om "." with
    | Value.str s => [s]
    | Value.omap om => getAllExportsPaths om
    | _ => []
  | _ => []

/-- Following the spec: the sub-bare-name is the extension-stripped,
normalized path of a main entry of the manifest, taken from `exports` or from
the `module` and `main` fields. -/
def isMainEntry (env : Env) (subModule : String) (p : PackageJSON) : Bool :=
  (exportsMainPaths p.Exports ++ [p.Module, p.Main]).any
    (fun s => s != "" && subModule == mainName env s)

/-- A request for the sub-module `sub` of `pkg@1.0.0`, for the given target. -/
def ctxSubModule (sub target : String) : BuildContext :=
  { esmPath := { PkgName := "pkg", PkgVersion := "1.0.0", SubPath := sub ++ ".js",
                 SubBareName := sub }
    target := target, pkgDir := "/pkg", path := "/pkg@1.0.0/" ++ target ++ "/" ++ sub ++ ".mjs" }

/-- A manifest with `main` and with nested conditions under `exports["."]`. -/
def manifestNested : PackageJSON :=
  { Name := "pkg", Version := "v1.0.0", Main := "./lib/index.js"
    Exports := Value.omap
      [(".", Value.omap [("node", Value.omap [("import", Value.str "./esm/index.mjs"),
                                              ("require", Value.str "./cjs/index.cjs")]),
                         ("default", Value.str "./esm/index.mjs")]),
       ("./feature", Value.str "./feature.js")] }

/-- A manifest whose only entry field is `es2015`. -/
def manifestES2015 : PackageJSON :=
  { Name := "pkg", Version := "1.0.0", ES2015 := "es/index.js" }

/-! ## Further sample packages -/

/-- A browser build with the user condition `import`. -/
def ctxUserImport : BuildContext :=
  { target := "es2022", args := { conditions := ["import"] } }

/-- The conditions `require`, `browser` (a nested mapping with `require`)
and `import`, in source order. -/
def condsRequireBrowserImport : OrderedMap :=
  [("require", Value.str "./r.cjs"),
   ("browser", Value.omap [("require", Value.str "./nested.cjs")]),
   ("import", Value.str "./i.js")]

/-- A package with the seeds `./seed.mjs`, `./seed.cjs` and `./seed.d.ts` and
the given `exports` and `type`, requested at the root for `es2022`. -/
def ctxRootExports (exports : Value) (type : String) : BuildContext :=
  { esmPath := { PkgName := "pkg", PkgVersion := "1.0.0" }
    packageJson :=
      { Name := "pkg", Version := "1.0.0", Type' := type, Module := "./seed.mjs"
        Main := "./seed.cjs", Types := "./seed.d.ts", Exports := exports }
    target := "es2022", pkgDir := "/pkg" }

/-- The conditions `import`, `require` and `types` of a root export. -/
def condsImportRequireTypes : OrderedMap :=
  [("import", Value.str "./esm/index.mjs"), ("require", Value.str "./cjs/index.cjs"),
   ("types", Value.str "./types/index.d.ts")]

/-- The world of `sampleEnv` in which the file `manifest` is a readable
`package.json` with the fields of `p`. -/
def sampleEnvNested (files esmFiles : List String) (manifest : String) (p : PackageJSON) : Env :=
  { sampleEnv files esmFiles with
    parseJSONFile := fun f => if f = manifest then some p else none }

/-- Package `left-pad@1.3.0` whose `main` leaves the package directory and
returns to it. -/
def ctxLeftPadDotDot : BuildContext :=
  { ctxLeftPad with
    packageJson := { Name := "left-pad", Version := "1.3.0", Main := "../pkg/index.js" } }


/-! # Theorems -/


theorem normalizeSavePathStep_append (a : List String) (x : String) (rest : List String) :
    normalizeSavePathStep (a ++ x :: rest) a.length = a ++ savePathSeg x :: rest := by
  have hget : (a ++ x :: rest).getD a.length "" = x := by
    rw [List.getD_eq_getElem?_getD, List.getElem?_append_right (le_refl _)]
    simp
  unfold normalizeSavePathStep
  simp only [hget]
  by_cases h : (hasPrefix x "X-" && decide (len x > 42)) = true
  · rw [if_pos h]
    simp [savePathSeg, h]
  · rw [if_neg h]
    simp [savePathSeg, h]

theorem normalizeSavePath_loop (l : List String) (n : Nat) (hn : n ≤ l.length) :
    (List.range n).foldl normalizeSavePathStep l
      = (l.take n).map savePathSeg ++ l.drop n := by
  induction n with
  | zero => simp
  | succ n ih =>
    rw [List.range_succ, List.foldl_append, ih (by omega)]
    simp only [List.foldl_cons, List.foldl_nil]
    have hlt : n < l.length := by omega
    have hdrop : l.drop n = l[n] :: l.drop (n + 1) := by simp
    have htake : l.take (n + 1) = l.take n ++ [l[n]] := by
      rw [List.take_succ]; simp [List.getElem?_eq_getElem hlt]
    have hlen : ((l.take n).map savePathSeg).length = n := by
      simp [List.length_take]; omega
    have := normalizeSavePathStep_append ((l.take n).map savePathSeg) l[n] (l.drop (n + 1))
    rw [hlen] at this
    rw [hdrop, this, htake, List.map_append, List.append_assoc]
    rfl

theorem normalizeSavePath_eq (zoneId pathname : String) :
    normalizeSavePath zoneId pathname
      = (if zoneId ≠ "" then zoneId ++ "/" else "")
          ++ join ((split pathname '/').map savePathSeg) "/" := by
  unfold normalizeSavePath
  simp only [normalizeSavePath_loop _ _ (le_refl _), List.take_length, List.drop_length,
    List.append_nil]
  by_cases hz : zoneId = ""
  · simp [hz]
  · simp [hz]

/-! ### split / join -/

theorem splitChars_ne_nil (sep : Char) (cs : List Char) : splitChars sep cs ≠ [] := by
  cases cs with
  | nil => simp [splitChars]
  | cons c cs =>
    unfold splitChars
    split
    · simp
    · split <;> simp

theorem splitChars_no_sep (sep : Char) (cs : List Char) :
    ∀ s ∈ splitChars sep cs, sep ∉ s := by
  induction cs with
  | nil => simp [splitChars]
  | cons c cs ih =>
    unfold splitChars
    split
    · intro s hs
      rcases List.mem_cons.1 hs with h | h
      · simp [h]
      · exact ih s h
    · rename_i hc
      split
      · intro s hs
        simp at hs
        subst hs
        simpa using fun h => hc h.symm
      · rename_i h t heq
        rw [heq] at ih
        intro s hs
        rcases List.mem_cons.1 hs with h' | h'
        · subst h'
          intro hmem
          rcases List.mem_cons.1 hmem with h1 | h1
          · exact hc h1.symm
          · exact ih h (by simp) h1
        · exact ih s (by simp [h'])

theorem splitChars_of_no_sep (sep : Char) (s : List Char) (h : sep ∉ s) :
    splitChars sep s = [s] := by
  induction s with
  | nil => rfl
  | cons c cs ih =>
    have hc : c ≠ sep := fun e => h (by simp [e])
    have hcs : sep ∉ cs := fun e => h (by simp [e])
    simp [splitChars, hc, ih hcs]

theorem splitChars_append_sep (sep : Char) (a rest : List Char) (h : sep ∉ a) :
    splitChars sep (a ++ sep :: rest) = a :: splitChars sep rest := by
  induction a with
  | nil => simp [splitChars]
  | cons c cs ih =>
    have hc : c ≠ sep := fun e => h (by simp [e])
    have hcs : sep ∉ cs := fun e => h (by simp [e])
    simp [splitChars, hc, ih hcs]

theorem splitChars_joinChars (sep : Char) (segs : List (List Char)) (hne : segs ≠ [])
    (h : ∀ s ∈ segs, sep ∉ s) : splitChars sep (joinChars [sep] segs) = segs := by
  induction segs with
  | nil => exact absurd rfl hne
  | cons a rest ih =>
    cases rest with
    | nil => simpa [joinChars] using splitChars_of_no_sep sep a (h a (by simp))
    | cons b rest =>
      have := ih (by simp) (fun s hs => h s (by simp [hs]))
      simp only [joinChars, List.append_assoc, List.singleton_append]
      rw [splitChars_append_sep sep a _ (h a (by simp)), this]

/-! ### the hash is 40 hexadecimal digits -/

theorem sha1Sum_length (msg : List Nat) : (sha1Sum msg).length = 20 := by
  simp [sha1Sum, beBytes]

theorem hexDigit_mem (n : Nat) : hexDigit n ∈ hexDigits := by
  unfold hexDigit
  rw [List.getD_eq_getElem?_getD]
  cases h : hexDigits[n]? with
  | none => simp [hexDigits]
  | some c =>
    obtain ⟨hn, hc⟩ := List.getElem?_eq_some.1 h
    simp [← hc]

theorem hexEncode_length (bs : List Nat) : (hexEncode bs).data.length = 2 * bs.length := by
  induction bs with
  | nil => rfl
  | cons b bs ih =>
    simp only [hexEncode, List.flatMap_cons, List.length_append, List.length_cons,
      List.length_nil] at ih ⊢
    omega

theorem hexEncode_mem (bs : List Nat) : ∀ c ∈ (hexEncode bs).data, c ∈ hexDigits := by
  intro c hc
  simp only [hexEncode, List.mem_flatMap] at hc
  obtain ⟨b, _, hb⟩ := hc
  simp at hb
  rcases hb with h | h <;> subst h <;> exact hexDigit_mem _

theorem bytes_length_of_ascii (cs : List Char) (h : ∀ c ∈ cs, (utf8Bytes c).length = 1) :
    (cs.flatMap utf8Bytes).length = cs.length := by
  induction cs with
  | nil => rfl
  | cons c cs ih =>
    simp only [List.flatMap_cons, List.length_append, List.length_cons]
    rw [ih (fun c hc => h c (by simp [hc])), h c (by simp)]
    omega

theorem ascii_hex : ∀ c ∈ hexDigits, (utf8Bytes c).length = 1 := by decide

theorem ascii_X : ∀ c ∈ "X-".data, (utf8Bytes c).length = 1 := by decide

theorem hashed_len (seg : String) : len ("X-" ++ sha1Hex seg) = 42 := by
  unfold len bytes
  rw [bytes_length_of_ascii]
  · simp only [String.data_append, List.length_append, sha1Hex, hexEncode_length,
      sha1Sum_length]
    rfl
  · intro c hc
    simp only [String.data_append, List.mem_append] at hc
    rcases hc with hc | hc
    · exact ascii_X c hc
    · exact ascii_hex c (hexEncode_mem _ c hc)

theorem hashed_no_slash (seg : String) : '/' ∉ ("X-" ++ sha1Hex seg).data := by
  intro hc
  simp only [String.data_append, List.mem_append] at hc
  rcases hc with hc | hc
  · revert hc; decide
  · have := hexEncode_mem _ _ hc
    revert this; decide

theorem savePathSeg_idem (seg : String) : savePathSeg (savePathSeg seg) = savePathSeg seg := by
  by_cases h : (hasPrefix seg "X-" && decide (len seg > 42)) = true
  · have h1 : savePathSeg seg = "X-" ++ sha1Hex seg := by simp [savePathSeg, h]
    rw [h1]
    simp [savePathSeg, hashed_len]
  · have h1 : savePathSeg seg = seg := by simp [savePathSeg, h]
    rw [h1, h1]

theorem savePathSeg_no_slash (seg : String) (h : '/' ∉ seg.data) :
    '/' ∉ (savePathSeg seg).data := by
  unfold savePathSeg
  split
  · exact hashed_no_slash seg
  · exact h

theorem split_join (segs : List String) (hne : segs ≠ [])
    (h : ∀ s ∈ segs, '/' ∉ s.data) : split (join segs "/") '/' = segs := by
  unfold split join
  have : splitChars '/' (joinChars "/".data (segs.map String.data)) = segs.map String.data := by
    apply splitChars_joinChars
    · simpa using hne
    · intro s hs
      obtain ⟨t, ht, rfl⟩ := List.mem_map.1 hs
      exact h t ht
  simp only [this, List.map_map]
  conv_rhs => rw [← List.map_id segs]
  apply List.map_congr_left
  intro a _
  rfl

theorem split_ne_nil (p : String) : split p '/' ≠ [] := by
  simp [split, splitChars_ne_nil]

theorem split_no_slash (p : String) : ∀ s ∈ split p '/', '/' ∉ s.data := by
  intro s hs
  obtain ⟨t, ht, rfl⟩ := List.mem_map.1 hs
  exact splitChars_no_sep '/' _ t ht

theorem savePath_rewrite_idem (z p : String) :
    normalizeSavePath z (normalizeSavePath "" p) = normalizeSavePath z p := by
  rw [normalizeSavePath_eq z, normalizeSavePath_eq z, normalizeSavePath_eq "" p]
  simp only [ne_eq, not_true_eq_false, if_false, String.empty_append]
  rw [split_join]
  · simp [List.map_map, Function.comp_def, savePathSeg_idem]
  · simpa using split_ne_nil p
  · intro s hs
    obtain ⟨t, ht, rfl⟩ := List.mem_map.1 hs
    exact savePathSeg_no_slash t (split_no_slash p t ht)

/-- C8 (amended): save-path normalization is idempotent for the empty zoneId,
and the segment rewriting is idempotent under every zoneId: normalizing an
already normalized path with zone `z` gives the same as normalizing the
original with `z`. -/
theorem normalizeSavePath_idempotent_no_zone (z p : String) :
    normalizeSavePath "" (normalizeSavePath "" p) = normalizeSavePath "" p ∧
    normalizeSavePath z (normalizeSavePath "" p) = normalizeSavePath z p :=
  ⟨savePath_rewrite_idem "" p, savePath_rewrite_idem z p⟩

/-- Counterexample to C8: with the zoneId `z` a second normalization of `a`
prepends the zone again. -/
theorem normalizeSavePath_not_idempotent :
    normalizeSavePath "z" (normalizeSavePath "z" "a") ≠ normalizeSavePath "z" "a" := by
  decide


theorem hasSuffix_append (a b : String) : hasSuffix (a ++ b) b = true := by
  simp [hasSuffix, List.isPrefixOf_iff_prefix]


theorem Path_module (env : Env) (ctx : BuildContext) (hmemo : ctx.path = "")
    (htarget : ctx.target ≠ "types") :
    (ctx.Path env).1 = "/" ++ env.packageName ctx.esmPath ++ "/"
      ++ ctx.getBuildArgsPrefix env false ++ ctx.target ++ "/"
      ++ (moduleName ctx.esmPath ++ nameSuffix ctx.dev ctx.bundleMode) ++ ".mjs" := by
  unfold BuildContext.Path nameSuffix
  simp only [hmemo, htarget, ne_eq, not_true_eq_false, if_false, decide_False]
  cases ctx.dev <;> cases ctx.bundleMode <;> simp [String.append_assoc]

/-- C3: with nothing memoized, for a target other than `types` the result of
`Path()` is `/` PackageName `/` argsPrefix target `/` name `.mjs`, and for the
target `types` with a sub-path ending in `.d.ts` it is `/` PackageName `/`
argsPrefix SubPath; argsPrefix is empty when the encoded build args are empty
and `X-` encodedArgs `/` otherwise. -/
theorem Path_canonical_shape (env : Env) (ctx : BuildContext) (hmemo : ctx.path = "") :
    (ctx.target ≠ "types" →
      (ctx.Path env).1 = "/" ++ env.packageName ctx.esmPath ++ "/"
        ++ (if env.encodeBuildArgs ctx.args false = "" then ""
            else "X-" ++ env.encodeBuildArgs ctx.args false ++ "/")
        ++ ctx.target ++ "/"
        ++ (moduleName ctx.esmPath ++ nameSuffix ctx.dev ctx.bundleMode) ++ ".mjs") ∧
    (ctx.target = "types" → hasSuffix ctx.esmPath.SubPath ".d.ts" = true →
      (ctx.Path env).1 = "/" ++ env.packageName ctx.esmPath ++ "/"
        ++ (if env.encodeBuildArgs ctx.args true = "" then ""
            else "X-" ++ env.encodeBuildArgs ctx.args true ++ "/")
        ++ ctx.esmPath.SubPath) := by
  constructor
  · intro htarget
    rw [Path_module env ctx hmemo htarget]
    unfold BuildContext.getBuildArgsPrefix
    by_cases h : env.encodeBuildArgs ctx.args false = "" <;> simp [h]
  · intro htarget hsub
    unfold BuildContext.Path BuildContext.getBuildArgsPrefix
    by_cases h : env.encodeBuildArgs ctx.args true = "" <;> simp [hmemo, htarget, hsub, h]


/-! ### `strings.ReplaceAll` of `/#/` -/

theorem replaceAllAux_skip (old new : List Char) (k : Nat) (l : List Char) :
    replaceAllAux old new k l = replaceAllAux old new 0 (l.drop k) := by
  induction k generalizing l with
  | zero => rfl
  | succ k ih =>
    cases l with
    | nil => simp [replaceAllAux]
    | cons c cs => simp [replaceAllAux, ih]

theorem encHash_nil : encHash [] = [] := rfl

theorem encHash_match (rest : List Char) :
    encHash ('/' :: '#' :: '/' :: rest) = '/' :: '%' :: '2' :: '3' :: '/' :: encHash rest := by
  unfold encHash
  rw [replaceAllAux]
  simp only [String.data]
  rw [if_pos (by simp [List.isPrefixOf])]
  rw [replaceAllAux_skip]
  rfl

theorem encHash_nomatch (c : Char) (cs : List Char)
    (h : ("/#/".data).isPrefixOf (c :: cs) = false) : encHash (c :: cs) = c :: encHash cs := by
  unfold encHash
  rw [replaceAllAux]
  simp [h]

theorem encHash_cases (l : List Char) :
    l = [] ∨ (∃ rest, l = '/' :: '#' :: '/' :: rest) ∨
      (∃ c cs, l = c :: cs ∧ ("/#/".data).isPrefixOf (c :: cs) = false) := by
  cases l with
  | nil => exact Or.inl rfl
  | cons c cs =>
    right
    by_cases h : ("/#/".data).isPrefixOf (c :: cs) = true
    · left
      have := List.isPrefixOf_iff_prefix.1 h
      obtain ⟨t, ht⟩ := this
      exact ⟨t, by simpa using ht.symm⟩
    · right
      exact ⟨c, cs, rfl, Bool.eq_false_iff.2 h⟩

theorem encHash_head_slash (l out : List Char) (h : encHash l = '/' :: out) :
    ∃ t, l = '/' :: t := by
  rcases encHash_cases l with rfl | ⟨rest, rfl⟩ | ⟨c, cs, rfl, hn⟩
  · simp [encHash_nil] at h
  · exact ⟨_, rfl⟩
  · rw [encHash_nomatch c cs hn] at h
    simp at h
    exact ⟨cs, by rw [h.1]⟩

theorem encHash_head_hash_slash (l out : List Char) (h : encHash l = '#' :: '/' :: out) :
    ∃ t, l = '#' :: '/' :: t := by
  rcases encHash_cases l with rfl | ⟨rest, rfl⟩ | ⟨c, cs, rfl, hn⟩
  · simp [encHash_nil] at h
  · rw [encHash_match] at h
    simp at h
  · rw [encHash_nomatch c cs hn] at h
    simp at h
    obtain ⟨t, rfl⟩ := encHash_head_slash cs out h.2
    exact ⟨t, by rw [h.1]⟩

theorem encHash_no_hash (n : Nat) : ∀ l : List Char, l.length ≤ n →
    containsChars "/#/#/".data l = false → containsChars "/#/".data (encHash l) = false := by
  induction n with
  | zero =>
    intro l hl _
    have : l = [] := List.length_eq_zero.1 (by omega)
    subst this
    rfl
  | succ n ih =>
    intro l hl hno
    rcases encHash_cases l with rfl | ⟨rest, rfl⟩ | ⟨c, cs, rfl, hn⟩
    · rfl
    · rw [encHash_match]
      have hrest : containsChars "/#/#/".data rest = false := by
        simp only [containsChars, Bool.or_eq_false_iff] at hno
        exact hno.2.2.2
      have hih := ih rest (by simp at hl; omega) hrest
      have hne : ¬ ∃ out, encHash rest = '#' :: '/' :: out := by
        rintro ⟨out, ho⟩
        obtain ⟨t, rfl⟩ := encHash_head_hash_slash rest out ho
        simp [containsChars, List.isPrefixOf] at hno
      simp only [containsChars, Bool.or_eq_false_iff]
      refine ⟨by simp [List.isPrefixOf], by simp [List.isPrefixOf], by simp [List.isPrefixOf],
        by simp [List.isPrefixOf], ?_, hih⟩
      cases hr : encHash rest with
      | nil => simp [List.isPrefixOf]
      | cons a as =>
        cases as with
        | nil => simp [List.isPrefixOf]
        | cons b bs =>
          by_contra hcon
          apply hne
          simp [List.isPrefixOf] at hcon
          exact ⟨bs, by rw [hr, hcon.1, hcon.2]⟩
    · rw [encHash_nomatch c cs hn]
      have hcs : containsChars "/#/#/".data cs = false := by
        simp only [containsChars, Bool.or_eq_false_iff] at hno
        exact hno.2
      have hih := ih cs (by simp at hl; omega) hcs
      simp only [containsChars, Bool.or_eq_false_iff]
      refine ⟨?_, hih⟩
      by_contra hcon
      simp only [Bool.not_eq_false] at hcon
      obtain ⟨t, ht⟩ := List.isPrefixOf_iff_prefix.1 hcon
      simp at ht
      obtain ⟨hc, ht⟩ := ht
      obtain ⟨u, rfl⟩ := encHash_head_hash_slash cs t ht.symm
      subst hc
      simp [List.isPrefixOf] at hn

theorem replaceAll_no_hash (s : String) (h : containsSub s "/#/#/" = false) :
    containsSub (replaceAll s "/#/" "/%23/") "/#/" = false :=
  encHash_no_hash s.data.length s.data (le_refl _) h

/-! ### The canonical URL name -/

theorem moduleName_sub (p : ESMPath) (hsub : p.SubBareName ≠ "") :
    moduleName p = if p.PkgName = "es5-ext" then replaceAll (subModuleName p) "/#/" "/%23/"
      else subModuleName p := by
  unfold moduleName subModuleName
  simp only [hsub, ne_eq, not_false_eq_true, if_true]

theorem es5ext_base : trimSuffix (pathBase "es5-ext") ".js" = "es5-ext" := by decide

/-- C4: in `Path()`, for a non-empty sub-bare-name (module artifact, nothing
memoized): when the sub-bare-name equals the base of the package name with a
trailing `.js` stripped, the URL name is `__` followed by the sub-bare-name,
for every package; otherwise the sub-bare-name takes the place of the base
name (for `es5-ext` after the `/#/` encoding of the workaround). -/
theorem Path_sub_bare_name (env : Env) (ctx : BuildContext) (hmemo : ctx.path = "")
    (htarget : ctx.target ≠ "types") (hsub : ctx.esmPath.SubBareName ≠ "") :
    (ctx.esmPath.SubBareName = trimSuffix (pathBase ctx.esmPath.PkgName) ".js" →
      (ctx.Path env).1 = "/" ++ env.packageName ctx.esmPath ++ "/"
        ++ ctx.getBuildArgsPrefix env false ++ ctx.target ++ "/"
        ++ ("__" ++ ctx.esmPath.SubBareName ++ nameSuffix ctx.dev ctx.bundleMode) ++ ".mjs") ∧
    (ctx.esmPath.SubBareName ≠ trimSuffix (pathBase ctx.esmPath.PkgName) ".js" →
      ctx.esmPath.PkgName ≠ "es5-ext" →
      (ctx.Path env).1 = "/" ++ env.packageName ctx.esmPath ++ "/"
        ++ ctx.getBuildArgsPrefix env false ++ ctx.target ++ "/"
        ++ (ctx.esmPath.SubBareName ++ nameSuffix ctx.dev ctx.bundleMode) ++ ".mjs") ∧
    (ctx.esmPath.SubBareName ≠ trimSuffix (pathBase ctx.esmPath.PkgName) ".js" →
      ctx.esmPath.PkgName = "es5-ext" →
      (ctx.Path env).1 = "/" ++ env.packageName ctx.esmPath ++ "/"
        ++ ctx.getBuildArgsPrefix env false ++ ctx.target ++ "/"
        ++ (replaceAll ctx.esmPath.SubBareName "/#/" "/%23/"
              ++ nameSuffix ctx.dev ctx.bundleMode) ++ ".mjs") := by
  rw [Path_module env ctx hmemo htarget, moduleName_sub _ hsub]
  refine ⟨?_, ?_, ?_⟩
  · intro heq
    by_cases hpkg : ctx.esmPath.PkgName = "es5-ext"
    · have hs : ctx.esmPath.SubBareName = "es5-ext" := by
        rw [heq, hpkg, es5ext_base]
      have hn : subModuleName ctx.esmPath = "__es5-ext" := by
        unfold subModuleName
        rw [if_pos heq, hs]
        rfl
      rw [if_pos hpkg, hn, hs]
      rfl
    · rw [if_neg hpkg]
      unfold subModuleName
      rw [if_pos heq]
  · intro hne hpkg
    rw [if_neg hpkg]
    unfold subModuleName
    rw [if_neg hne]
  · intro hne hpkg
    rw [if_pos hpkg]
    unfold subModuleName
    rw [if_neg hne]

/-- Witness of C4: sub-module `foo` of package `foo`, not dev, default bundle
mode, has the URL basename `__foo.mjs`. -/
theorem Path_sub_bare_name_witness :
    (ctxFooFoo.Path (sampleEnv [] [])).1 = "/foo@1.0.0/es2022/__foo.mjs" :=
  ((Path_sub_bare_name (sampleEnv [] []) ctxFooFoo rfl (by decide) (by decide)).1
    (by decide)).trans (by decide)

/-- C5: in `Path()` the name suffixes come in this order: `.development` when
dev is set, then `.bundle` for BundleAll or `.nobundle` for BundleFalse
(nothing for the default mode), and only then `.mjs`; a dev BundleFalse build
of name `n` ends in `n.development.nobundle.mjs`. -/
theorem Path_suffix_order (env : Env) (ctx : BuildContext) (hmemo : ctx.path = "")
    (htarget : ctx.target ≠ "types") :
    (ctx.Path env).1 = "/" ++ env.packageName ctx.esmPath ++ "/"
        ++ ctx.getBuildArgsPrefix env false ++ ctx.target ++ "/"
        ++ (moduleName ctx.esmPath
            ++ (if ctx.dev = true then ".development" else "")
            ++ (if ctx.bundleMode = BundleMode.BundleAll then ".bundle"
                else if ctx.bundleMode = BundleMode.BundleFalse then ".nobundle" else ""))
        ++ ".mjs" ∧
    (ctx.dev = true → ctx.bundleMode = BundleMode.BundleFalse →
      hasSuffix (ctx.Path env).1 (moduleName ctx.esmPath ++ ".development.nobundle.mjs")
        = true) := by
  have hP := Path_module env ctx hmemo htarget
  constructor
  · rw [hP]
    unfold nameSuffix
    cases ctx.dev <;> cases ctx.bundleMode <;> simp [String.append_assoc]
  · intro hdev hmode
    rw [hP, hdev, hmode]
    have : "/" ++ env.packageName ctx.esmPath ++ "/" ++ ctx.getBuildArgsPrefix env false
        ++ ctx.target ++ "/"
        ++ (moduleName ctx.esmPath ++ nameSuffix true BundleMode.BundleFalse) ++ ".mjs"
        = ("/" ++ env.packageName ctx.esmPath ++ "/" ++ ctx.getBuildArgsPrefix env false
            ++ ctx.target ++ "/")
          ++ (moduleName ctx.esmPath ++ ".development.nobundle.mjs") := by
      simp [nameSuffix, String.append_assoc]
    rw [this]
    exact hasSuffix_append _ _

/-- Witness of C5: the dev, non-bundled build of `es5-ext/array/#/some`. -/
theorem Path_suffix_order_witness :
    (ctxEs5Ext.Path (sampleEnv [] [])).1
      = "/es5-ext@0.10.64/es2022/array/%23/some.development.nobundle.mjs" :=
  ((Path_suffix_order (sampleEnv [] []) ctxEs5Ext rfl (by decide)).1).trans (by decide)

/-- Witness of C3: the module artifact of `foo/foo` for target `es2022` and
the declaration artifact `index.d.ts` of `foo` for target `types`. -/
theorem Path_canonical_shape_witness :
    (ctxFooFoo.Path (sampleEnv [] [])).1 = "/foo@1.0.0/es2022/__foo.mjs" ∧
    (ctxFooTypes.Path (sampleEnv [] [])).1 = "/foo@1.0.0/index.d.ts" :=
  ⟨((Path_canonical_shape (sampleEnv [] []) ctxFooFoo rfl).1 (by decide)).trans (by decide),
   ((Path_canonical_shape (sampleEnv [] []) ctxFooTypes rfl).2 (by decide) (by decide)).trans
     (by decide)⟩

/-- Counterexample to C6: for `es5-ext` and the sub-bare-name `string/#/#/at`
the second `/#/`, which overlaps the first, stays in the URL name. -/
theorem es5ext_overlap_not_encoded :
    (ctxEs5ExtOverlap.Path (sampleEnv [] [])).1
        = "/es5-ext@0.10.64/es2022/string/%23/#/at.mjs" ∧
    containsSub (ctxEs5ExtOverlap.Path (sampleEnv [] [])).1 "/#/" = true ∧
    containsSub
      (ctxEs5ExtOverlap.getImportPath (sampleEnv [] []) ctxEs5ExtOverlap.esmPath "") "/#/"
        = true := by
  decide

/-- C6 (amended): for a non-empty sub-bare-name the URL name of `Path()` and of
`getImportPath` is, for package `es5-ext`, the name with its `/#/` replaced by
`/%23/` from left to right without overlap (`strings.ReplaceAll`), which
leaves no `/#/` whenever the name holds no `/#/#/`; for any other package the
name is left unencoded. -/
theorem es5ext_name_encoding (env : Env) (ctx : BuildContext) (p : ESMPath) (bp : String)
    (hmemo : ctx.path = "") (htarget : ctx.target ≠ "types")
    (hsub : ctx.esmPath.SubBareName ≠ "") (hp : p.SubBareName ≠ "") :
    (ctx.Path env).1 = "/" ++ env.packageName ctx.esmPath ++ "/"
        ++ ctx.getBuildArgsPrefix env false ++ ctx.target ++ "/"
        ++ ((if ctx.esmPath.PkgName = "es5-ext"
              then replaceAll (subModuleName ctx.esmPath) "/#/" "/%23/"
              else subModuleName ctx.esmPath)
            ++ nameSuffix ctx.dev ctx.bundleMode) ++ ".mjs" ∧
    ctx.getImportPath env p bp = "/" ++ env.packageName p ++ "/" ++ bp ++ ctx.target ++ "/"
        ++ ((if p.PkgName = "es5-ext" then replaceAll (subModuleName p) "/#/" "/%23/"
              else subModuleName p)
            ++ (if ctx.dev = true then ".development" else "")) ++ ".mjs" ∧
    (∀ q : ESMPath, containsSub (subModuleName q) "/#/#/" = false →
      containsSub (replaceAll (subModuleName q) "/#/" "/%23/") "/#/" = false) := by
  refine ⟨?_, ?_, fun q hq => replaceAll_no_hash _ hq⟩
  · rw [Path_module env ctx hmemo htarget, moduleName_sub _ hsub]
  · unfold BuildContext.getImportPath
    rw [moduleName_sub _ hp]
    cases ctx.dev <;> simp

/-- Witness of C6: `es5-ext` sub-module `array/#/some` yields a path that
contains `array/%23/some` and no `/#/`. -/
theorem es5ext_name_encoding_witness :
    (ctxEs5Ext.Path (sampleEnv [] [])).1
        = "/es5-ext@0.10.64/es2022/array/%23/some.development.nobundle.mjs" ∧
    containsSub (ctxEs5Ext.Path (sampleEnv [] [])).1 "/#/" = false ∧
    ctxEs5Ext.getImportPath (sampleEnv [] []) ctxEs5Ext.esmPath ""
        = "/es5-ext@0.10.64/es2022/array/%23/some.development.mjs" :=
  ⟨((es5ext_name_encoding (sampleEnv [] []) ctxEs5Ext ctxEs5Ext.esmPath "" rfl (by decide)
      (by decide) (by decide)).1).trans (by decide),
   by decide,
   ((es5ext_name_encoding (sampleEnv [] []) ctxEs5Ext ctxEs5Ext.esmPath "" rfl (by decide)
      (by decide) (by decide)).2.1).trans (by decide)⟩

/-- C7: `normalizeSavePath` splits the pathname on `/`, replaces exactly the
segments that begin with `X-` and are longer than 42 bytes by `X-` and the
lowercase hex SHA-1 of the segment, keeps every other segment unchanged and in
place, rejoins with `/`, and prepends the zoneId and `/` iff the zoneId is
non-empty. -/
theorem normalizeSavePath_segments (zoneId pathname : String) :
    normalizeSavePath zoneId pathname
      = (if zoneId ≠ "" then zoneId ++ "/" else "")
          ++ join ((split pathname '/').map
              (fun seg => if hasPrefix seg "X-" = true ∧ len seg > 42
                then "X-" ++ sha1Hex seg else seg)) "/" := by
  rw [normalizeSavePath_eq]
  congr 2
  apply List.map_congr_left
  intro seg _
  unfold savePathSeg
  by_cases h1 : hasPrefix seg "X-" = true <;> by_cases h2 : len seg > 42 <;> simp [h1, h2]

/-! ### The evaluator never overwrites a slot -/

theorem updateEntry_keeps (entry : BuildEntry) (t p : String) (h : entry.hasEntry t = false) :
    (entry.esm ≠ "" → (entry.updateEntry t p).esm = entry.esm) ∧
    (entry.cjs ≠ "" → (entry.updateEntry t p).cjs = entry.cjs) ∧
    (entry.dts ≠ "" → (entry.updateEntry t p).dts = entry.dts) := by
  unfold BuildEntry.hasEntry at h
  unfold BuildEntry.updateEntry
  by_cases h1 : t = "esm"
  · simp [h1] at h ⊢
    intro hc; exact absurd h hc
  · by_cases h2 : t = "cjs"
    · simp [h1, h2] at h ⊢
      intro hc; exact absurd h hc
    · by_cases h3 : t = "dts"
      · simp [h1, h2, h3] at h ⊢
        intro hc; exact absurd h hc
      · simp [h1, h2, h3]

theorem keeps_refl (a : BuildEntry) : Keeps a a := ⟨fun _ => rfl, fun _ => rfl, fun _ => rfl⟩

theorem keeps_trans {a b c : BuildEntry} (h1 : Keeps a b) (h2 : Keeps b c) : Keeps a c := by
  refine ⟨fun h => ?_, fun h => ?_, fun h => ?_⟩
  · have := h1.1 h; rw [← this]; exact h2.1 (by rw [this]; exact h)
  · have := h1.2.1 h; rw [← this]; exact h2.2.1 (by rw [this]; exact h)
  · have := h1.2.2 h; rw [← this]; exact h2.2.2 (by rw [this]; exact h)

theorem keeps_update (entry : BuildEntry) (t p : String) (h : entry.hasEntry t = false) :
    Keeps entry (entry.updateEntry t p) := updateEntry_keeps entry t p h

theorem keeps_fill (entry : BuildEntry) (t v : String) :
    Keeps entry (if (v ≠ "" && !entry.hasEntry t) = true then entry.updateEntry t v else entry) := by
  by_cases h : (decide (v ≠ "") && !entry.hasEntry t) = true
  · rw [if_pos h]
    simp only [Bool.and_eq_true, Bool.not_eq_true'] at h
    exact keeps_update entry t v h.2
  · rw [if_neg h]
    exact keeps_refl _

theorem resolveWith_keeps (eval : OrderedMap → String → BuildEntry) (entry : BuildEntry)
    (mType : String) (condition : Value) (entryType : String) :
    Keeps entry (entry.resolveWith eval mType condition entryType) := by
  unfold BuildEntry.resolveWith
  by_cases h : entry.hasEntry entryType = true
  · rw [if_pos h]; exact keeps_refl _
  · rw [if_neg h]
    have hf : entry.hasEntry entryType = false := by simpa using h
    cases condition with
    | str s => exact keeps_update entry entryType s hf
    | omap om =>
      have h0 : Keeps entry
          (match om.lookup "default" with
            | some (Value.str s) => if s ≠ "" then entry.updateEntry entryType s else entry
            | _ => entry) := by
        split
        · split
          · exact keeps_update entry entryType _ hf
          · exact keeps_refl _
        · exact keeps_refl _
      exact keeps_trans (keeps_trans (keeps_trans h0 (keeps_fill _ _ _)) (keeps_fill _ _ _)) (keeps_fill _ _ _)
    | null => exact keeps_refl _
    | obj es => exact keeps_refl _
    | arr vs => exact keeps_refl _
    | other => exact keeps_refl _

theorem runVisits_keeps (ctx : BuildContext) (vs : List Visit) (entry : BuildEntry) :
    Keeps entry (runVisits ctx entry vs) := by
  induction vs generalizing entry with
  | nil => exact keeps_refl _
  | cons v vs ih =>
    exact keeps_trans (resolveWith_keeps _ entry v.mType v.cond v.slot) (ih _)

theorem runVisits_append (ctx : BuildContext) (entry : BuildEntry) (a b : List Visit) :
    runVisits ctx entry (a ++ b) = runVisits ctx (runVisits ctx entry a) b := by
  simp [runVisits, List.foldl_append]

/-! ### The evaluator as a run over its visit order -/

theorem foldl_flatMap_visits {α : Type} (f : BuildEntry → Visit → BuildEntry)
    (g : α → List Visit) (l : List α) (init : BuildEntry) :
    (l.flatMap g).foldl f init = l.foldl (fun acc x => (g x).foldl f acc) init := by
  induction l generalizing init with
  | nil => rfl
  | cons x xs ih => simp [List.flatMap_cons, List.foldl_append, ih]

theorem foldl_visitOf (eval : OrderedMap → String → BuildEntry) (conditions : OrderedMap)
    (mType name : String) (entry : BuildEntry) :
    (visitOf conditions mType name).foldl
        (fun e v => e.resolveWith eval v.mType v.cond v.slot) entry
      = if (!(conditions.Get name).isNil) = true then
          entry.resolveWith eval mType (conditions.Get name) (entryKeyOf mType)
        else entry := by
  unfold visitOf
  by_cases h : (conditions.Get name).isNil = true <;> simp [h]

theorem resolveUserConditions_visits (ctx : BuildContext)
    (eval : OrderedMap → String → BuildEntry) (conditions : OrderedMap) (mType : String)
    (entry : BuildEntry) :
    resolveUserConditions ctx eval conditions mType entry
      = (ctx.args.conditions.flatMap (visitOf conditions mType)).foldl
          (fun e v => e.resolveWith eval v.mType v.cond v.slot) entry := by
  rw [foldl_flatMap_visits]
  unfold resolveUserConditions
  congr 1
  funext e name
  rw [foldl_visitOf]

theorem resolveDevelopment_visits (ctx : BuildContext)
    (eval : OrderedMap → String → BuildEntry) (conditions : OrderedMap) (mType : String)
    (entry : BuildEntry) :
    resolveDevelopment ctx eval conditions mType entry
      = (if ctx.dev then visitOf conditions mType "development" else []).foldl
          (fun e v => e.resolveWith eval v.mType v.cond v.slot) entry := by
  unfold resolveDevelopment
  by_cases hd : ctx.dev = true
  · simp only [hd, if_true]
    rw [foldl_visitOf]
  · simp [hd]

theorem resolveRuntime_visits (ctx : BuildContext)
    (eval : OrderedMap → String → BuildEntry) (conditions : OrderedMap) (mType : String)
    (entry : BuildEntry) :
    resolveRuntime ctx eval conditions mType entry
      = (visitsRuntime ctx conditions mType).foldl
          (fun e v => e.resolveWith eval v.mType v.cond v.slot) entry := by
  unfold resolveRuntime visitsRuntime
  by_cases hb : ctx.isBrowserTarget = true
  · simp only [hb, if_true]
    rw [foldl_visitOf]
  · simp only [hb, if_false, Bool.false_eq_true]
    by_cases hdn : ctx.isDenoTarget = true
    · simp only [hdn, if_true]
      by_cases h1 : (conditions.Get "deno").isNil = true
      · simp only [h1, if_true]
        rw [foldl_visitOf]
        by_cases h2 : (conditions.Get "node").isNil = true
        · simp [List.find?, h1, h2]
        · simp [List.find?, h1, h2]
      · simp only [h1, if_false, Bool.false_eq_true]
        rw [foldl_visitOf]
        simp [List.find?, h1]
    · simp only [hdn, if_false, Bool.false_eq_true]
      by_cases hn : ctx.target = "node"
      · simp only [hn, if_true]
        rw [foldl_visitOf]
      · simp [hn]

theorem resolveSourceOrder_visits (eval : OrderedMap → String → BuildEntry)
    (conditions : OrderedMap) (mType : String) (entry : BuildEntry) :
    resolveSourceOrder eval conditions mType entry
      = (conditions.keys.flatMap (visitKey conditions mType)).foldl
          (fun e v => e.resolveWith eval v.mType v.cond v.slot) entry := by
  rw [foldl_flatMap_visits]
  unfold resolveSourceOrder
  congr 1
  funext e name
  unfold visitKey
  by_cases h1 : name = "module" ∨ name = "import" ∨ name = "es2015"
  · simp [h1]
  · by_cases h2 : name = "require"
    · simp [h1, h2]
    · by_cases h3 : name = "types" ∨ name = "typings"
      · simp [h1, h2, h3]
      · by_cases h4 : name = "default"
        · simp [h1, h2, h3, h4]
        · simp [h1, h2, h3, h4]

/-- The body of the evaluator is the run over its visit order. -/
theorem body_eq_visits (ctx : BuildContext) (eval : OrderedMap → String → BuildEntry)
    (conditions : OrderedMap) (mType : String) :
    resolveConditionExportEntryBody ctx eval conditions mType
      = (visits ctx conditions mType).foldl
          (fun e v => e.resolveWith eval v.mType v.cond v.slot) {} := by
  unfold resolveConditionExportEntryBody visits
  simp only [List.foldl_append]
  rw [resolveSourceOrder_visits, resolveRuntime_visits, resolveDevelopment_visits,
    resolveUserConditions_visits]

/-! ### The fuel bound is enough -/

theorem depth_lookup (om : OrderedMap) (k : String) (v : Value) (h : om.lookup k = some v) :
    v.depth ≤ depthEntries om := by
  induction om with
  | nil => simp [List.lookup] at h
  | cons e rest ih =>
    obtain ⟨k', v'⟩ := e
    unfold depthEntries
    by_cases hk : (k == k') = true
    · simp only [List.lookup, hk] at h
      cases h
      exact le_max_left _ _
    · have hk' : (k == k') = false := by simpa using hk
      simp only [List.lookup, hk'] at h
      exact le_trans (ih h) (le_max_right _ _)

theorem depth_Get (om : OrderedMap) (k : String) : (om.Get k).depth ≤ depthEntries om := by
  unfold OrderedMap.Get
  cases h : om.lookup k with
  | none => simp [Value.depth]
  | some v => simpa using depth_lookup om k v h

theorem visitOf_cond (conditions : OrderedMap) (mType name : String) :
    ∀ v ∈ visitOf conditions mType name, v.cond = conditions.Get v.key ∧ v.key = name := by
  intro v hv
  unfold visitOf at hv
  split at hv
  · simp at hv
  · simp at hv; subst hv; exact ⟨rfl, rfl⟩

theorem visitKey_cond (conditions : OrderedMap) (mType name : String) :
    ∀ v ∈ visitKey conditions mType name, v.cond = conditions.Get v.key ∧ v.key = name := by
  intro v hv
  unfold visitKey at hv
  split at hv
  · simp at hv; subst hv; exact ⟨rfl, rfl⟩
  · split at hv
    · simp at hv; subst hv; exact ⟨rfl, rfl⟩
    · split at hv
      · simp at hv; subst hv; exact ⟨rfl, rfl⟩
      · split at hv
        · simp at hv; subst hv; exact ⟨rfl, rfl⟩
        · simp at hv

theorem visitsRuntime_cond (ctx : BuildContext) (conditions : OrderedMap) (mType : String) :
    ∀ v ∈ visitsRuntime ctx conditions mType, v.cond = conditions.Get v.key := by
  intro v hv
  unfold visitsRuntime at hv
  split at hv
  · exact (visitOf_cond _ _ _ v hv).1
  · split at hv
    · split at hv
      · exact (visitOf_cond _ _ _ v hv).1
      · exact (visitOf_cond _ _ _ v hv).1
    · split at hv
      · exact (visitOf_cond _ _ _ v hv).1
      · simp at hv

theorem visits_cond (ctx : BuildContext) (conditions : OrderedMap) (mType : String) :
    ∀ v ∈ visits ctx conditions mType, v.cond = conditions.Get v.key := by
  intro v hv
  unfold visits at hv
  simp only [List.mem_append, List.mem_flatMap] at hv
  rcases hv with ((⟨n, _, h⟩ | h) | h) | ⟨n, _, h⟩
  · exact (visitOf_cond _ _ _ v h).1
  · split at h
    · exact (visitOf_cond _ _ _ v h).1
    · simp at h
  · exact visitsRuntime_cond _ _ _ v h
  · exact (visitKey_cond _ _ _ v h).1

theorem resolveWith_congr (e1 e2 : OrderedMap → String → BuildEntry) (entry : BuildEntry)
    (mType : String) (condition : Value) (entryType : String)
    (h : ∀ om, condition = Value.omap om → e1 om mType = e2 om mType) :
    entry.resolveWith e1 mType condition entryType
      = entry.resolveWith e2 mType condition entryType := by
  cases condition with
  | omap om =>
    unfold BuildEntry.resolveWith
    simp only [h om rfl]
  | str s => rfl
  | null => rfl
  | obj es => rfl
  | arr vs => rfl
  | other => rfl

theorem foldl_congr_mem {α β : Type} (f g : β → α → β) (l : List α) (init : β)
    (h : ∀ x ∈ l, ∀ b, f b x = g b x) : l.foldl f init = l.foldl g init := by
  induction l generalizing init with
  | nil => rfl
  | cons x xs ih =>
    simp only [List.foldl_cons]
    rw [h x (by simp), ih _ (fun y hy b => h y (by simp [hy]) b)]

theorem body_congr (ctx : BuildContext) (e1 e2 : OrderedMap → String → BuildEntry)
    (conditions : OrderedMap) (mType : String)
    (h : ∀ om m, depthEntries om < depthEntries conditions → e1 om m = e2 om m) :
    resolveConditionExportEntryBody ctx e1 conditions mType
      = resolveConditionExportEntryBody ctx e2 conditions mType := by
  rw [body_eq_visits, body_eq_visits]
  apply foldl_congr_mem
  intro v hv b
  apply resolveWith_congr
  intro om hom
  apply h
  have h1 := visits_cond ctx conditions mType v hv
  have h2 := depth_Get conditions v.key
  rw [← h1, hom] at h2
  simp only [Value.depth] at h2
  omega

theorem fuel_stable (ctx : BuildContext) (n : Nat) :
    ∀ (conditions : OrderedMap) (mType : String), depthEntries conditions < n →
      resolveConditionExportEntryFuel ctx n conditions mType
        = ctx.resolveConditionExportEntry conditions mType := by
  induction n using Nat.strong_induction_on with
  | _ n ih =>
    intro conditions mType hn
    unfold BuildContext.resolveConditionExportEntry
    cases n with
    | zero => omega
    | succ k =>
      simp only [resolveConditionExportEntryFuel]
      apply body_congr
      intro om m hom
      rw [ih k (by omega) om m (by omega)]
      by_cases hk : depthEntries conditions = 0
      · omega
      · rw [ih (depthEntries conditions) (by omega) om m hom]

/-- The evaluator satisfies the recursive equation of the source: its nested
calls are calls of the evaluator itself. -/
theorem resolveConditionExportEntry_unfold (ctx : BuildContext) (conditions : OrderedMap)
    (mType : String) :
    ctx.resolveConditionExportEntry conditions mType
      = resolveConditionExportEntryBody ctx ctx.resolveConditionExportEntry conditions mType := by
  conv_lhs => unfold BuildContext.resolveConditionExportEntry
  simp only [resolveConditionExportEntryFuel]
  apply body_congr
  intro om m hom
  exact fuel_stable ctx _ om m hom

theorem resolveConditionExportEntry_visits (ctx : BuildContext) (conditions : OrderedMap)
    (mType : String) :
    ctx.resolveConditionExportEntry conditions mType
      = runVisits ctx {} (visits ctx conditions mType) := by
  rw [resolveConditionExportEntry_unfold, body_eq_visits]
  rfl

/-! ### Deleting a key that is visited later -/

theorem lookup_delete_ne (om : OrderedMap) (k k' : String) (h : k ≠ k') :
    (om.delete k').lookup k = om.lookup k := by
  induction om with
  | nil => rfl
  | cons e rest ih =>
    obtain ⟨a, v⟩ := e
    unfold OrderedMap.delete at ih ⊢
    rw [List.filter_cons]
    by_cases ha : a = k'
    · have h1 : ((a, v).1 != k') = false := by simp [ha]
      have hka : (k == a) = false := by simp [ha, h]
      rw [h1, List.lookup_cons, hka]
      simpa using ih
    · have h1 : ((a, v).1 != k') = true := by simp [ha]
      rw [h1, if_pos rfl, List.lookup_cons, List.lookup_cons, ih]

theorem lookup_delete_self (om : OrderedMap) (k : String) : (om.delete k).lookup k = none := by
  induction om with
  | nil => rfl
  | cons e rest ih =>
    obtain ⟨a, v⟩ := e
    unfold OrderedMap.delete at ih ⊢
    rw [List.filter_cons]
    by_cases ha : a = k
    · have h1 : ((a, v).1 != k) = false := by simp [ha]
      rw [h1]
      simpa using ih
    · have h1 : ((a, v).1 != k) = true := by simp [ha]
      have hka : (k == a) = false := by simpa using fun h => ha h.symm
      rw [h1, if_pos rfl, List.lookup_cons, hka]
      exact ih

theorem Get_delete_ne (om : OrderedMap) (k k' : String) (h : k ≠ k') :
    (om.delete k').Get k = om.Get k := by
  unfold OrderedMap.Get
  rw [lookup_delete_ne om k k' h]

theorem Get_delete_self (om : OrderedMap) (k : String) : (om.delete k).Get k = Value.null := by
  unfold OrderedMap.Get
  rw [lookup_delete_self]
  rfl

theorem agreeBefore_refl (k : String) (l : List Visit) : AgreeBefore k l l :=
  ⟨(List.takeWhile_prefix _), fun _ => rfl⟩

theorem agreeBefore_nil_left (k : String) (l' : List Visit) (h : l' = []) :
    AgreeBefore k [] l' := by
  subst h; exact agreeBefore_refl k []

theorem agreeBefore_of_head (k : String) (v : Visit) (l l' : List Visit) (hv : v.key = k) :
    AgreeBefore k (v :: l) l' := by
  constructor
  · simp [List.takeWhile, hv]
  · intro h
    exact absurd hv (h v (by simp))

theorem takeWhile_append_of_mem (p : Visit → Bool) (a b : List Visit) (v : Visit)
    (hv : v ∈ a) (hp : p v = false) : (a ++ b).takeWhile p = a.takeWhile p := by
  induction a with
  | nil => simp at hv
  | cons x xs ih =>
    rw [List.cons_append, List.takeWhile_cons, List.takeWhile_cons]
    by_cases hx : p x = true
    · rcases List.mem_cons.1 hv with h | h
      · subst h; rw [hp] at hx; exact absurd hx (by simp)
      · rw [if_pos hx, if_pos hx, ih h]
    · rw [if_neg hx, if_neg hx]

theorem agreeBefore_append {k : String} {a a' b b' : List Visit}
    (ha : AgreeBefore k a a') (hb : AgreeBefore k b b') :
    AgreeBefore k (a ++ b) (a' ++ b') := by
  by_cases hall : ∀ v ∈ a, v.key ≠ k
  · have haa := ha.2 hall
    subst haa
    constructor
    · rw [List.takeWhile_append_of_pos (by simpa using hall)]
      exact (List.prefix_append_right_inj _).2 hb.1
    · intro h
      rw [hb.2 (fun v hv => h v (by simp [hv]))]
  · constructor
    · have : (a ++ b).takeWhile (fun v => v.key != k)
          = a.takeWhile (fun v => v.key != k) := by
        push_neg at hall
        obtain ⟨v, hv, hk⟩ := hall
        exact takeWhile_append_of_mem _ a b v hv (by simp [hk])
      rw [this]
      exact ha.1.trans (List.prefix_append _ _)
    · intro h
      exact absurd (fun v hv => h v (by simp [hv])) hall

theorem visitOf_delete (conditions : OrderedMap) (mType name k : String) :
    AgreeBefore k (visitOf conditions mType name) (visitOf (conditions.delete k) mType name) := by
  by_cases hn : name = k
  · subst hn
    have : visitOf (conditions.delete name) mType name = [] := by
      simp [visitOf, Get_delete_self, Value.isNil]
    rw [this]
    unfold visitOf
    split
    · exact agreeBefore_refl _ _
    · exact agreeBefore_of_head _ _ _ _ rfl
  · have : visitOf (conditions.delete k) mType name = visitOf conditions mType name := by
      simp [visitOf, Get_delete_ne _ _ _ hn]
    rw [this]
    exact agreeBefore_refl _ _

theorem visitsUser_delete (conditions : OrderedMap) (mType k : String) (names : List String) :
    AgreeBefore k (names.flatMap (visitOf conditions mType))
      (names.flatMap (visitOf (conditions.delete k) mType)) := by
  induction names with
  | nil => exact agreeBefore_refl _ _
  | cons n ns ih =>
    simp only [List.flatMap_cons]
    exact agreeBefore_append (visitOf_delete conditions mType n k) ih

theorem visitsRuntime_delete (ctx : BuildContext) (conditions : OrderedMap) (mType k : String) :
    AgreeBefore k (visitsRuntime ctx conditions mType)
      (visitsRuntime ctx (conditions.delete k) mType) := by
  unfold visitsRuntime
  by_cases hb : ctx.isBrowserTarget = true
  · simp only [hb, if_true]
    exact visitOf_delete _ _ _ _
  · simp only [hb, if_false, Bool.false_eq_true]
    by_cases hdn : ctx.isDenoTarget = true
    · simp only [hdn, if_true]
      by_cases hk : k = "deno"
      · subst hk
        have hdel : ((conditions.delete "deno").Get "deno").isNil = true := by
          rw [Get_delete_self]; rfl
        rw [if_pos hdel]
        by_cases h1 : (conditions.Get "deno").isNil = true
        · rw [if_pos h1]
          exact visitOf_delete _ _ _ _
        · rw [if_neg h1]
          unfold visitOf
          rw [if_neg h1]
          exact agreeBefore_of_head _ _ _ _ rfl
      · have hne : ("deno" : String) ≠ k := fun h => hk h.symm
        rw [Get_delete_ne _ _ _ hne]
        by_cases h1 : (conditions.Get "deno").isNil = true
        · rw [if_pos h1, if_pos h1]
          exact visitOf_delete _ _ _ _
        · rw [if_neg h1, if_neg h1]
          exact visitOf_delete _ _ _ _
    · simp only [hdn, if_false, Bool.false_eq_true]
      by_cases hn : ctx.target = "node"
      · simp only [hn, if_true]
        exact visitOf_delete _ _ _ _
      · simp only [hn, if_false]
        exact agreeBefore_refl _ _

theorem visitKey_key (conditions : OrderedMap) (mType name : String) :
    visitKey conditions mType name = [] ∨
      ∃ v, visitKey conditions mType name = [v] ∧ v.key = name := by
  unfold visitKey
  split
  · exact Or.inr ⟨_, rfl, rfl⟩
  · split
    · exact Or.inr ⟨_, rfl, rfl⟩
    · split
      · exact Or.inr ⟨_, rfl, rfl⟩
      · split
        · exact Or.inr ⟨_, rfl, rfl⟩
        · exact Or.inl rfl

theorem visitKey_delete_ne (conditions : OrderedMap) (mType name k : String) (h : name ≠ k) :
    visitKey (conditions.delete k) mType name = visitKey conditions mType name := by
  simp [visitKey, Get_delete_ne _ _ _ h]

theorem visitsKeys_delete (conditions : OrderedMap) (mType k : String) (names : List String) :
    AgreeBefore k (names.flatMap (visitKey conditions mType))
      ((names.filter (fun n => n != k)).flatMap
        (visitKey (conditions.delete k) mType)) := by
  induction names with
  | nil => exact agreeBefore_refl _ _
  | cons n ns ih =>
    rw [List.filter_cons, List.flatMap_cons]
    by_cases hn : n = k
    · have h1 : (n != k) = false := by simp [hn]
      rw [h1, if_neg (by simp)]
      rcases visitKey_key conditions mType n with h | ⟨v, h, hv⟩
      · rw [h]; exact ih
      · rw [h]; exact agreeBefore_of_head _ _ _ _ (hv.trans hn)
    · have h1 : (n != k) = true := by simp [hn]
      rw [h1, if_pos rfl, List.flatMap_cons, visitKey_delete_ne _ _ _ _ hn]
      exact agreeBefore_append (agreeBefore_refl _ _) ih

theorem keys_delete (conditions : OrderedMap) (k : String) :
    (conditions.delete k).keys = conditions.keys.filter (fun n => n != k) := by
  unfold OrderedMap.delete OrderedMap.keys
  induction conditions with
  | nil => rfl
  | cons e rest ih =>
    rw [List.filter_cons, List.map_cons, List.filter_cons]
    by_cases h : (e.1 != k) = true
    · rw [if_pos h, if_pos h, List.map_cons, ih]
    · rw [if_neg h, if_neg h, ih]

theorem visits_delete (ctx : BuildContext) (conditions : OrderedMap) (mType k : String) :
    AgreeBefore k (visits ctx conditions mType) (visits ctx (conditions.delete k) mType) := by
  unfold visits
  refine agreeBefore_append (agreeBefore_append
    (agreeBefore_append (visitsUser_delete _ _ _ _) ?_) (visitsRuntime_delete _ _ _ _)) ?_
  · by_cases hd : ctx.dev = true
    · simp only [hd, if_true]; exact visitOf_delete _ _ _ _
    · simp only [hd, if_false, Bool.false_eq_true]; exact agreeBefore_refl _ _
  · rw [keys_delete]
    exact visitsKeys_delete _ _ _ _

theorem prefix_of_not_visited (k : String) (pre post l' : List Visit)
    (h : AgreeBefore k (pre ++ post) l') (hpre : ∀ v ∈ pre, v.key ≠ k) : pre <+: l' := by
  have h1 : pre <+: (pre ++ post).takeWhile (fun v => v.key != k) := by
    rw [List.takeWhile_append_of_pos (by simpa using hpre)]
    exact List.prefix_append _ _
  exact h1.trans h.1

/-- C9: `BuildEntry.resolve` never overwrites a non-empty slot: each of esm,
cjs, dts that is non-empty before the call has the same value after it, for
every entry, condition value, module-type hint and target slot; so a slot of
the running entry inside `resolveConditionExportEntry` that is filled after
some visits keeps its value until the evaluator returns. -/
theorem resolve_never_overwrites (ctx : BuildContext) :
    (∀ (entry : BuildEntry) (mType : String) (condition : Value) (entryType : String),
      (entry.esm ≠ "" → (entry.resolve ctx mType condition entryType).esm = entry.esm) ∧
      (entry.cjs ≠ "" → (entry.resolve ctx mType condition entryType).cjs = entry.cjs) ∧
      (entry.dts ≠ "" → (entry.resolve ctx mType condition entryType).dts = entry.dts)) ∧
    (∀ (conditions : OrderedMap) (mType : String) (pre post : List Visit),
      visits ctx conditions mType = pre ++ post →
      ((runVisits ctx {} pre).esm ≠ "" →
        (ctx.resolveConditionExportEntry conditions mType).esm = (runVisits ctx {} pre).esm) ∧
      ((runVisits ctx {} pre).cjs ≠ "" →
        (ctx.resolveConditionExportEntry conditions mType).cjs = (runVisits ctx {} pre).cjs) ∧
      ((runVisits ctx {} pre).dts ≠ "" →
        (ctx.resolveConditionExportEntry conditions mType).dts
          = (runVisits ctx {} pre).dts)) := by
  constructor
  · intro entry mType condition entryType
    exact resolveWith_keeps _ entry mType condition entryType
  · intro conditions mType pre post hsplit
    rw [resolveConditionExportEntry_visits, hsplit, runVisits_append]
    exact runVisits_keeps ctx post _

/-- Witness of C9: an entry whose esm slot is filled keeps it when a nested
mapping that offers another esm value is resolved for the cjs slot, and the
esm slot filled at the `browser` visit is the one returned. -/
theorem resolve_never_overwrites_witness :
    (({ esm := "./a.js" } : BuildEntry).resolve ctxBrowser ""
        (Value.omap [("import", Value.str "./b.js"), ("require", Value.str "./c.js")])
        "cjs").esm = "./a.js" ∧
    (ctxBrowser.resolveConditionExportEntry condsBrowserImportDefault "module").esm
      = "./b.js" :=
  ⟨((resolve_never_overwrites ctxBrowser).1 { esm := "./a.js" } ""
      (Value.omap [("import", Value.str "./b.js"), ("require", Value.str "./c.js")])
      "cjs").1 (by decide),
   (((resolve_never_overwrites ctxBrowser).2 condsBrowserImportDefault "module"
      [⟨"browser", "module", Value.str "./b.js", "esm"⟩]
      [⟨"import", "module", Value.str "./i.js", "esm"⟩,
       ⟨"default", "module", Value.str "./d.js", "esm"⟩] rfl).1 (by decide)).trans
     (by decide)⟩

/-- C10: monotone precedence of `resolveConditionExportEntry`: when a slot is
filled after the visits `pre` of the visit order (user conditions,
development, runtime condition, then source order) and the key `key` is not
visited in `pre`, that is, it is visited only later or not at all, then
deleting `key` from the conditions leaves that slot of the result unchanged. -/
theorem resolveConditionExportEntry_monotone (ctx : BuildContext) (conditions : OrderedMap)
    (mType key : String) (pre post : List Visit)
    (hvisits : visits ctx conditions mType = pre ++ post)
    (hlater : ∀ v ∈ pre, v.key ≠ key) :
    ((runVisits ctx {} pre).esm ≠ "" →
      (ctx.resolveConditionExportEntry (conditions.delete key) mType).esm
        = (ctx.resolveConditionExportEntry conditions mType).esm) ∧
    ((runVisits ctx {} pre).cjs ≠ "" →
      (ctx.resolveConditionExportEntry (conditions.delete key) mType).cjs
        = (ctx.resolveConditionExportEntry conditions mType).cjs) ∧
    ((runVisits ctx {} pre).dts ≠ "" →
      (ctx.resolveConditionExportEntry (conditions.delete key) mType).dts
        = (ctx.resolveConditionExportEntry conditions mType).dts) := by
  have hagree := visits_delete ctx conditions mType key
  rw [hvisits] at hagree
  obtain ⟨post', hpost'⟩ := prefix_of_not_visited key pre post _ hagree hlater
  have h1 := runVisits_keeps ctx post (runVisits ctx {} pre)
  have h2 := runVisits_keeps ctx post' (runVisits ctx {} pre)
  rw [resolveConditionExportEntry_visits, resolveConditionExportEntry_visits, hvisits,
    ← hpost', runVisits_append, runVisits_append]
  exact ⟨fun h => (h2.1 h).trans (h1.1 h).symm, fun h => (h2.2.1 h).trans (h1.2.1 h).symm,
    fun h => (h2.2.2 h).trans (h1.2.2 h).symm⟩

/-- Witness of C10: with `browser`, `import`, `default` for a browser target
the esm slot is filled at `browser`, and deleting the later `default` leaves
it `./b.js`. -/
theorem resolveConditionExportEntry_monotone_witness :
    (ctxBrowser.resolveConditionExportEntry
        (condsBrowserImportDefault.delete "default") "module").esm = "./b.js" :=
  ((resolveConditionExportEntry_monotone ctxBrowser condsBrowserImportDefault "module"
      "default"
      [⟨"browser", "module", Value.str "./b.js", "esm"⟩]
      [⟨"import", "module", Value.str "./i.js", "esm"⟩,
       ⟨"default", "module", Value.str "./d.js", "esm"⟩] rfl
      (by intro v hv; simp at hv; subst hv; decide)).1 (by decide)).trans (by decide)

/-- Counterexample to C10: with the user condition `import` and a browser
target, the conditions `require`, `browser`, `import` of type `module` are
visited in the order `import`, `browser`, `require`, `import`; the cjs slot is
filled with `./r.cjs` at `require`, and `import`, which follows `require` in
source order, is visited again after it. Deleting `import` leaves the esm slot
empty at `browser`, whose nested `require` then fills the cjs slot with
`./nested.cjs`. -/
theorem resolveConditionExportEntry_later_user_condition :
    (visits ctxUserImport condsRequireBrowserImport "module").map (fun v => (v.key, v.slot))
      = [("import", "esm"), ("browser", "esm"), ("require", "cjs"), ("import", "esm")] ∧
    runVisits ctxUserImport {}
        ((visits ctxUserImport condsRequireBrowserImport "module").take 2)
      = { esm := "./i.js" } ∧
    runVisits ctxUserImport {}
        ((visits ctxUserImport condsRequireBrowserImport "module").take 3)
      = { esm := "./i.js", cjs := "./r.cjs" } ∧
    ctxUserImport.resolveConditionExportEntry condsRequireBrowserImport "module"
      = { esm := "./i.js", cjs := "./r.cjs" } ∧
    ctxUserImport.resolveConditionExportEntry
        (condsRequireBrowserImport.delete "import") "module"
      = { cjs := "./nested.cjs" } := by
  decide

/-! ### `path.Join` of equivalent spellings -/

theorem splitChars_append (sep : Char) (a b : List Char) :
    splitChars sep (a ++ sep :: b) = splitChars sep a ++ splitChars sep b := by
  induction a with
  | nil => simp [splitChars]
  | cons c cs ih =>
    by_cases hc : c = sep
    · simp [splitChars, hc, ← ih]
    · simp only [List.cons_append, splitChars, hc, if_false]
      have ih' : splitChars sep (cs.append (sep :: b))
          = splitChars sep cs ++ splitChars sep b := ih
      rw [ih']
      cases h : splitChars sep cs with
      | nil => exact absurd h (splitChars_ne_nil sep cs)
      | cons x xs => rfl

theorem split_append_slash (a b : String) :
    split (a ++ "/" ++ b) '/' = split a '/' ++ split b '/' := by
  unfold split
  have : (a ++ "/" ++ b).data = a.data ++ '/' :: b.data := by
    simp [String.data_append]
  rw [this, splitChars_append, List.map_append]

theorem split_empty : split "" '/' = [""] := rfl

theorem split_dot : split "." '/' = ["."] := rfl

theorem hasPrefix_append_left (d x p : String) (hd : d ≠ "") (hp : p.data.length = 1) :
    hasPrefix (d ++ x) p = hasPrefix d p := by
  unfold hasPrefix
  have hd' : d.data ≠ [] := by
    intro h; apply hd; cases d; simp_all
  cases hdd : d.data with
  | nil => exact absurd hdd hd'
  | cons c cs =>
    cases hpp : p.data with
    | nil => simp [hpp] at hp
    | cons q qs =>
      have : qs = [] := by
        rw [hpp] at hp; simpa using hp
      subst this
      simp [String.data_append, hdd, List.isPrefixOf]

theorem append_ne_empty_left (d x : String) (hd : d ≠ "") : d ++ x ≠ "" := by
  intro h
  apply hd
  have := congrArg String.data h
  simp [String.data_append] at this
  cases d
  simp_all

/-- An empty or `.` element after the first element does not change the
cleaned path. -/
theorem pathClean_skip (d c x : String) (hd : d ≠ "") (hc : c = "" ∨ c = ".") :
    pathClean (d ++ "/" ++ c ++ "/" ++ x) = pathClean (d ++ "/" ++ x) := by
  unfold pathClean
  have e1 : d ++ "/" ++ c ++ "/" ++ x = d ++ ("/" ++ c ++ "/" ++ x) := by
    simp [String.append_assoc]
  have e2 : d ++ "/" ++ x = d ++ ("/" ++ x) := by simp [String.append_assoc]
  have n1 : d ++ "/" ++ c ++ "/" ++ x ≠ "" := by
    rw [e1]; exact append_ne_empty_left _ _ hd
  have n2 : d ++ "/" ++ x ≠ "" := by
    rw [e2]; exact append_ne_empty_left _ _ hd
  have r1 : hasPrefix (d ++ "/" ++ c ++ "/" ++ x) "/" = hasPrefix d "/" := by
    rw [e1]; exact hasPrefix_append_left _ _ _ hd rfl
  have r2 : hasPrefix (d ++ "/" ++ x) "/" = hasPrefix d "/" := by
    rw [e2]; exact hasPrefix_append_left _ _ _ hd rfl
  have s1 : (split (d ++ "/" ++ c ++ "/" ++ x) '/').filter (fun c => c ≠ "" ∧ c ≠ ".")
      = (split (d ++ "/" ++ x) '/').filter (fun c => c ≠ "" ∧ c ≠ ".") := by
    rw [split_append_slash, split_append_slash, split_append_slash]
    rcases hc with rfl | rfl
    · simp [split_empty]
    · simp [split_dot]
  simp only [n1, n2, if_false, r1, r2, s1]

theorem pathJoin_two (d x : String) (hd : d ≠ "") (hx : x ≠ "") :
    pathJoin [d, x] = pathClean (d ++ "/" ++ x) := by
  have hj : join [d, x] "/" = d ++ "/" ++ x := by
    simp [join, joinChars, String.ext_iff, String.data_append]
  unfold pathJoin
  simp only [List.filter, hd, hx, ne_eq, not_false_eq_true, decide_True]
  rw [hj]
  simp

theorem pathJoin_three (d a b : String) (hd : d ≠ "") (ha : a ≠ "") (hb : b ≠ "") :
    pathJoin [d, a, b] = pathClean (d ++ "/" ++ a ++ "/" ++ b) := by
  have hj : join [d, a, b] "/" = d ++ "/" ++ a ++ "/" ++ b := by
    simp [join, joinChars, String.ext_iff, String.data_append]
  unfold pathJoin
  simp only [List.filter, hd, ha, hb, ne_eq, not_false_eq_true, decide_True]
  rw [hj]
  simp

theorem pathJoin_skip_empty (d b : String) : pathJoin [d, "", b] = pathJoin [d, b] := by
  unfold pathJoin
  simp [List.filter]

theorem dotSlash_ne (x : String) : "./" ++ x ≠ "" := append_ne_empty_left _ _ (by decide)

/-- `existsPkgFile("./" + x)` is `existsPkgFile(x)`. -/
theorem pathJoin_dotSlash (d x : String) (hd : d ≠ "") (hx : x ≠ "") :
    pathJoin [d, "./" ++ x] = pathJoin [d, x] := by
  rw [pathJoin_two d _ hd (dotSlash_ne x), pathJoin_two d x hd hx]
  have : d ++ "/" ++ ("./" ++ x) = d ++ "/" ++ "." ++ "/" ++ x := by
    simp [String.ext_iff, String.data_append]
  rw [this]
  exact pathClean_skip d "." x hd (Or.inr rfl)

/-- `existsPkgFile(a, b)` is `existsPkgFile(a + "/" + b)`. -/
theorem pathJoin_dir (d a b : String) (hd : d ≠ "") (hb : b ≠ "") :
    pathJoin [d, a ++ "/" ++ b] = pathJoin [d, a, b] := by
  have hab : a ++ "/" ++ b ≠ "" := by
    intro h
    have := congrArg String.data h
    simp [String.data_append] at this
  by_cases ha : a = ""
  · subst ha
    rw [pathJoin_skip_empty, pathJoin_two d _ hd hab, pathJoin_two d b hd hb]
    have : d ++ "/" ++ ("" ++ "/" ++ b) = d ++ "/" ++ "" ++ "/" ++ b := by
      simp [String.ext_iff, String.data_append]
    rw [this]
    exact pathClean_skip d "" b hd (Or.inl rfl)
  · rw [pathJoin_two d _ hd hab, pathJoin_three d a b hd ha hb]
    congr 1
    simp [String.ext_iff, String.data_append]

/-! ### Where `resolveEntry` checks existence -/

theorem exists_dotSlash (env : Env) (ctx : BuildContext) (x : String) (hd : ctx.pkgDir ≠ "")
    (hx : x ≠ "") : ctx.existsPkgFile env ["./" ++ x] = ctx.existsPkgFile env [x] := by
  unfold BuildContext.existsPkgFile
  rw [pathJoin_dotSlash _ _ hd hx]

theorem exists_dir (env : Env) (ctx : BuildContext) (a b : String) (hd : ctx.pkgDir ≠ "")
    (hb : b ≠ "") : ctx.existsPkgFile env [a ++ "/" ++ b] = ctx.existsPkgFile env [a, b] := by
  unfold BuildContext.existsPkgFile
  rw [pathJoin_dir _ _ _ hd hb]

theorem append_ne_empty_right (a b : String) (hb : b ≠ "") : a ++ b ≠ "" := by
  intro h
  apply hb
  have := congrArg String.data h
  simp [String.data_append] at this
  cases b
  simp_all

/-- A probed file `sub + ext` exists under the spelling `./sub + ext`. -/
theorem exists_probe_file (env : Env) (ctx : BuildContext) (sub ext : String)
    (hd : ctx.pkgDir ≠ "") (hext : ext ≠ "")
    (h : ctx.existsPkgFile env [sub ++ ext] = true) :
    ctx.existsPkgFile env ["./" ++ sub ++ ext] = true := by
  rw [String.append_assoc, exists_dotSlash env ctx _ hd (append_ne_empty_right _ _ hext)]
  exact h

/-- A probed file `sub/index` exists under the spelling `./sub/index`. -/
theorem exists_probe_index (env : Env) (ctx : BuildContext) (sub file : String)
    (hd : ctx.pkgDir ≠ "") (hfile : file ≠ "")
    (h : ctx.existsPkgFile env [sub, file] = true) :
    ctx.existsPkgFile env ["./" ++ sub ++ ("/" ++ file)] = true := by
  have e : "./" ++ sub ++ ("/" ++ file) = "./" ++ (sub ++ "/" ++ file) := by
    simp [String.append_assoc]
  have hne : sub ++ "/" ++ file ≠ "" := append_ne_empty_right _ _ hfile
  rw [e, exists_dotSlash env ctx _ hd hne, exists_dir env ctx _ _ hd hfile]
  exact h

theorem applyExportEntry_exists (env : Env) (ctx : BuildContext) (entry exportEntry : BuildEntry)
    (h : SlotsExist env ctx entry) : SlotsExist env ctx (applyExportEntry env ctx entry exportEntry) := by
  unfold applyExportEntry
  generalize normalizeBuildEntry env ctx exportEntry = e
  obtain ⟨h1, h2, h3⟩ := h
  simp only [SlotsExist]
  by_cases c1 : (decide (e.esm ≠ "") && ctx.existsPkgFile env [e.esm]) = true <;>
  by_cases c2 : (decide (e.cjs ≠ "") && ctx.existsPkgFile env [e.cjs]) = true <;>
  by_cases c3 : (decide (e.dts ≠ "") && ctx.existsPkgFile env [e.dts]) = true <;>
  simp only [c1, c2, c3, if_true, if_false, Bool.false_eq_true] <;>
  simp only [Bool.and_eq_true, decide_eq_true_eq] at c1 c2 c3 <;>
  refine ⟨?_, ?_, ?_⟩ <;> intro hne <;>
  first
  | exact c1.2
  | exact c2.2
  | exact c3.2
  | exact h1 hne
  | exact h2 hne
  | exact h3 hne

theorem probeSubModuleEsm_exists (env : Env) (ctx : BuildContext) (sub : String)
    (entry : BuildEntry) (hd : ctx.pkgDir ≠ "") (h : SlotsExist env ctx entry) :
    SlotsExist env ctx (probeSubModuleEsm env ctx sub entry) := by
  unfold probeSubModuleEsm
  obtain ⟨h1, h2, h3⟩ := h
  split
  · split
    · rename_i he
      exact ⟨fun _ => exists_probe_file env ctx sub ".mjs" hd (by decide) he, h2, h3⟩
    · split
      · rename_i he
        exact ⟨fun _ => exists_probe_index env ctx sub "index.mjs" hd (by decide) he, h2, h3⟩
      · split
        · split
          · rename_i he
            exact ⟨fun _ => exists_probe_file env ctx sub ".js" hd (by decide) he, h2, h3⟩
          · split
            · rename_i he
              exact ⟨fun _ => exists_probe_index env ctx sub "index.js" hd (by decide) he,
                h2, h3⟩
            · exact ⟨h1, h2, h3⟩
        · exact ⟨h1, h2, h3⟩
  · exact ⟨h1, h2, h3⟩

theorem probeSubModuleCjs_exists (env : Env) (ctx : BuildContext) (sub : String)
    (entry : BuildEntry) (hd : ctx.pkgDir ≠ "") (h : SlotsExist env ctx entry) :
    SlotsExist env ctx (probeSubModuleCjs env ctx sub entry) := by
  unfold probeSubModuleCjs
  obtain ⟨h1, h2, h3⟩ := h
  split
  · split
    · rename_i he
      exact ⟨h1, fun _ => exists_probe_file env ctx sub ".cjs" hd (by decide) he, h3⟩
    · split
      · rename_i he
        exact ⟨h1, fun _ => exists_probe_index env ctx sub "index.cjs" hd (by decide) he, h3⟩
      · split
        · split
          · rename_i he
            exact ⟨h1, fun _ => exists_probe_file env ctx sub ".js" hd (by decide) he, h3⟩
          · split
            · rename_i he
              exact ⟨h1, fun _ => exists_probe_index env ctx sub "index.js" hd (by decide) he,
                h3⟩
            · exact ⟨h1, h2, h3⟩
        · exact ⟨h1, h2, h3⟩
  · exact ⟨h1, h2, h3⟩

theorem probeSubModuleDts_exists (env : Env) (ctx : BuildContext) (sub : String)
    (entry : BuildEntry) (hd : ctx.pkgDir ≠ "") (h : SlotsExist env ctx entry) :
    SlotsExist env ctx (probeSubModuleDts env ctx sub entry) := by
  unfold probeSubModuleDts
  obtain ⟨h1, h2, h3⟩ := h
  split
  · split
    · rename_i he
      exact ⟨h1, h2, fun _ => he.2⟩
    · split
      · rename_i he
        exact ⟨h1, h2, fun _ => he.2⟩
      · split
        · rename_i he
          exact ⟨h1, h2, fun _ => exists_probe_file env ctx sub ".d.mts" hd (by decide) he⟩
        · split
          · rename_i he
            exact ⟨h1, h2, fun _ => exists_probe_file env ctx sub ".d.ts" hd (by decide) he⟩
          · split
            · rename_i he
              exact ⟨h1, h2,
                fun _ => exists_probe_index env ctx sub "index.d.mts" hd (by decide) he⟩
            · split
              · rename_i he
                exact ⟨h1, h2,
                  fun _ => exists_probe_index env ctx sub "index.d.ts" hd (by decide) he⟩
              · exact ⟨h1, h2, h3⟩
  · exact ⟨h1, h2, h3⟩

theorem exists_root_file (env : Env) (ctx : BuildContext) (file : String)
    (hd : ctx.pkgDir ≠ "") (hfile : file ≠ "") (h : ctx.existsPkgFile env [file] = true) :
    ctx.existsPkgFile env ["./" ++ file] = true := by
  rw [exists_dotSlash env ctx _ hd hfile]
  exact h

theorem exists_sibling_index (env : Env) (ctx : BuildContext) (dir file : String)
    (hd : ctx.pkgDir ≠ "") (hfile : file ≠ "")
    (h : ctx.existsPkgFile env [dir, file] = true) :
    ctx.existsPkgFile env [dir ++ ("/" ++ file)] = true := by
  rw [← String.append_assoc, exists_dir env ctx _ _ hd hfile]
  exact h

theorem probeRootEsm_exists (env : Env) (ctx : BuildContext) (entry : BuildEntry)
    (hd : ctx.pkgDir ≠ "") (h : SlotsExist env ctx entry) :
    SlotsExist env ctx (probeRootEsm env ctx entry) := by
  unfold probeRootEsm
  obtain ⟨h1, h2, h3⟩ := h
  split
  · split
    · rename_i he
      exact ⟨fun _ => exists_root_file env ctx "index.js" hd (by decide) he.2, h2, h3⟩
    · split
      · rename_i he
        exact ⟨fun _ => exists_root_file env ctx "index.mjs" hd (by decide) he, h2, h3⟩
      · exact ⟨h1, h2, h3⟩
  · exact ⟨h1, h2, h3⟩

theorem probeRootCjs_exists (env : Env) (ctx : BuildContext) (entry : BuildEntry)
    (hd : ctx.pkgDir ≠ "") (h : SlotsExist env ctx entry) :
    SlotsExist env ctx (probeRootCjs env ctx entry) := by
  unfold probeRootCjs
  obtain ⟨h1, h2, h3⟩ := h
  split
  · split
    · rename_i he
      exact ⟨h1, fun _ => exists_root_file env ctx "index.js" hd (by decide) he.2, h3⟩
    · split
      · rename_i he
        exact ⟨h1, fun _ => exists_root_file env ctx "index.cjs" hd (by decide) he, h3⟩
      · exact ⟨h1, h2, h3⟩
  · exact ⟨h1, h2, h3⟩

theorem probeRootDts_exists (env : Env) (ctx : BuildContext) (entry : BuildEntry)
    (hd : ctx.pkgDir ≠ "") (h : SlotsExist env ctx entry) :
    SlotsExist env ctx (probeRootDts env ctx entry) := by
  unfold probeRootDts
  obtain ⟨h1, h2, h3⟩ := h
  split
  · split
    · rename_i he
      exact ⟨h1, h2, fun _ => exists_root_file env ctx "index.d.mts" hd (by decide) he⟩
    · split
      · rename_i he
        exact ⟨h1, h2, fun _ => exists_root_file env ctx "index.d.ts" hd (by decide) he⟩
      · exact ⟨h1, h2, h3⟩
  · exact ⟨h1, h2, h3⟩

theorem probeSiblingDts_exists (env : Env) (ctx : BuildContext) (file : String)
    (entry : BuildEntry) (hd : ctx.pkgDir ≠ "") (h : SlotsExist env ctx entry) :
    SlotsExist env ctx (probeSiblingDts env ctx file entry) := by
  unfold probeSiblingDts
  obtain ⟨h1, h2, h3⟩ := h
  split
  · split
    · rename_i he
      exact ⟨h1, h2, fun _ => he⟩
    · split
      · rename_i he
        exact ⟨h1, h2, fun _ => he⟩
      · split
        · simp only []
          split
          · rename_i he
            exact ⟨h1, h2, fun _ => exists_sibling_index env ctx _ "index.d.mts" hd
              (by decide) he⟩
          · split
            · rename_i he
              exact ⟨h1, h2, fun _ => exists_sibling_index env ctx _ "index.d.ts" hd
                (by decide) he⟩
            · exact ⟨h1, h2, h3⟩
        · exact ⟨h1, h2, h3⟩
  · exact ⟨h1, h2, h3⟩

theorem slotsExist_empty (env : Env) (ctx : BuildContext) : SlotsExist env ctx {} :=
  ⟨fun h => absurd rfl h, fun h => absurd rfl h, fun h => absurd rfl h⟩

theorem resolveSubModule_exists (env : Env) (ctx : BuildContext) (esm : ESMPath)
    (hd : ctx.pkgDir ≠ "")
    (hnested : env.parseJSONFile (pathJoin [ctx.pkgDir, esm.SubBareName, "package.json"]) = none) :
    SlotsExist env ctx (resolveSubModule env ctx esm) := by
  unfold resolveSubModule probeSubModule applyNestedManifest
  simp only [hnested]
  apply probeSubModuleDts_exists _ _ _ _ hd
  apply probeSubModuleCjs_exists _ _ _ _ hd
  apply probeSubModuleEsm_exists _ _ _ _ hd
  split
  · exact applyExportEntry_exists _ _ _ _ (slotsExist_empty env ctx)
  · exact slotsExist_empty env ctx

theorem resolveRootModule_exists (env : Env) (ctx : BuildContext) (hd : ctx.pkgDir ≠ "")
    (hmodule : ctx.packageJson.Module = "") (hmain : ctx.packageJson.Main = "")
    (htypes : ctx.packageJson.Types = "") (htypings : ctx.packageJson.Typings = "") :
    SlotsExist env ctx (resolveRootModule env ctx) := by
  unfold resolveRootModule probeRootModule
  simp only [hmodule, hmain, htypes, htypings, ne_eq, not_true_eq_false, and_false, if_false]
  apply probeSiblingDts_exists _ _ _ _ hd
  apply probeSiblingDts_exists _ _ _ _ hd
  apply probeRootDts_exists _ _ _ hd
  apply probeRootCjs_exists _ _ _ hd
  apply probeRootEsm_exists _ _ _ hd
  split
  · exact applyExportEntry_exists _ _ _ _ (slotsExist_empty env ctx)
  · exact slotsExist_empty env ctx

theorem normalizeEsmEntry_exists (env : Env) (ctx : BuildContext) (entry : BuildEntry)
    (hd : ctx.pkgDir ≠ "")
    (hN : ∀ p, ctx.existsPkgFile env [p] = true →
      ctx.existsPkgFile env [normalizeEntryPath env p] = true)
    (h : SlotsExist env ctx entry) : SlotsExist env ctx (normalizeEsmEntry env ctx entry) := by
  unfold normalizeEsmEntry
  obtain ⟨h1, h2, h3⟩ := h
  split
  · rename_i hne
    simp only []
    split
    · split
      · rename_i he
        exact ⟨fun _ => he, h2, h3⟩
      · split
        · rename_i he
          exact ⟨fun _ => he, h2, h3⟩
        · split
          · rename_i he
            exact ⟨fun _ => exists_sibling_index env ctx _ "index.mjs" hd (by decide) he,
              h2, h3⟩
          · split
            · rename_i he
              exact ⟨fun _ => exists_sibling_index env ctx _ "index.js" hd (by decide) he,
                h2, h3⟩
            · exact ⟨fun _ => hN _ (h1 hne), h2, h3⟩
    · exact ⟨fun _ => hN _ (h1 hne), h2, h3⟩
  · exact ⟨h1, h2, h3⟩

theorem completeCjsEntry_exists (env : Env) (ctx : BuildContext) (entry : BuildEntry)
    (hd : ctx.pkgDir ≠ "")
    (hN : ∀ p, ctx.existsPkgFile env [p] = true →
      ctx.existsPkgFile env [normalizeEntryPath env p] = true)
    (hne : entry.cjs ≠ "")
    (h : SlotsExist env ctx entry) : SlotsExist env ctx (completeCjsEntry env ctx entry) := by
  unfold completeCjsEntry
  obtain ⟨h1, h2, h3⟩ := h
  simp only []
  split
  · split
    · rename_i he
      exact ⟨h1, fun _ => he, h3⟩
    · split
      · rename_i he
        exact ⟨h1, fun _ => he, h3⟩
      · split
        · rename_i he
          exact ⟨h1, fun _ => exists_sibling_index env ctx _ "index.cjs" hd (by decide) he,
            h3⟩
        · split
          · rename_i he
            exact ⟨h1, fun _ => exists_sibling_index env ctx _ "index.js" hd (by decide) he,
              h3⟩
          · exact ⟨h1, fun _ => hN _ (h2 hne), h3⟩
  · exact ⟨h1, fun _ => hN _ (h2 hne), h3⟩

theorem promoteEsmEntry_exists (env : Env) (ctx : BuildContext) (entry : BuildEntry)
    (h : SlotsExist env ctx entry) : SlotsExist env ctx (promoteEsmEntry env ctx entry) := by
  unfold promoteEsmEntry
  obtain ⟨h1, h2, h3⟩ := h
  split
  · rename_i hc
    simp only [Bool.and_eq_true, decide_eq_true_eq] at hc
    split
    · split
      · exact ⟨fun _ => h2 hc.1, fun hx => absurd rfl hx, h3⟩
      · exact ⟨h1, fun hx => absurd rfl hx, h3⟩
    · exact ⟨h1, h2, h3⟩
  · exact ⟨h1, h2, h3⟩

theorem normalizeEntryPaths_exists (env : Env) (ctx : BuildContext) (entry : BuildEntry)
    (hN : ∀ p, ctx.existsPkgFile env [p] = true →
      ctx.existsPkgFile env [normalizeEntryPath env p] = true)
    (h : SlotsExist env ctx entry) : SlotsExist env ctx (normalizeEntryPaths env entry) := by
  unfold normalizeEntryPaths
  obtain ⟨h1, h2, h3⟩ := h
  by_cases c1 : entry.esm = "" <;> by_cases c2 : entry.cjs = "" <;>
    by_cases c3 : entry.dts = "" <;>
    simp only [c1, c2, c3, ne_eq, not_true_eq_false, not_false_eq_true, if_true, if_false] <;>
    refine ⟨?_, ?_, ?_⟩ <;> intro hx <;>
    first
    | exact absurd rfl hx
    | exact absurd c1 hx
    | exact absurd c2 hx
    | exact absurd c3 hx
    | exact hN _ (h1 c1)
    | exact hN _ (h2 c2)
    | exact hN _ (h3 c3)

theorem normalizeBuildEntry_exists (env : Env) (ctx : BuildContext) (entry : BuildEntry)
    (hd : ctx.pkgDir ≠ "")
    (hN : ∀ p, ctx.existsPkgFile env [p] = true →
      ctx.existsPkgFile env [normalizeEntryPath env p] = true)
    (h : SlotsExist env ctx entry) : SlotsExist env ctx (normalizeBuildEntry env ctx entry) := by
  unfold normalizeBuildEntry
  apply normalizeEntryPaths_exists env ctx _ hN
  have he := normalizeEsmEntry_exists env ctx entry hd hN h
  unfold normalizeCjsEntry
  split
  · rename_i hne
    exact promoteEsmEntry_exists env ctx _ (completeCjsEntry_exists env ctx _ hd hN hne he)
  · exact he

/-- Counterexample to C1: a slot is returned without an existence check when
it comes from a manifest seed (the `main` seed `./index.js` of `left-pad`
with no such file), from an early-return sub-path (the declaration file
`types.d.ts`, the source file `App.vue`), from a field of a nested
`package.json` (`main` of `sub/package.json`), from a `typesVersions`
remapping (`index.d.ts` to `ts4.0/index.d.ts`), from a value of the `browser`
field (`./browser.js`), or from the final normalization of a seed that leaves
the package directory (`../pkg/index.js`, an existing file, becomes
`./pkg/index.js`). -/
theorem resolveEntry_slot_not_checked :
    (ctxLeftPad.resolveEntry (sampleEnv ["/pkg/package.json"] []) ctxLeftPad.esmPath).cjs
      = "./index.js" ∧
    ctxLeftPad.existsPkgFile (sampleEnv ["/pkg/package.json"] []) ["./index.js"] = false ∧
    (ctxLeftPad.resolveEntry (sampleEnv ["/pkg/package.json"] [])
        { PkgName := "left-pad", PkgVersion := "1.3.0", SubPath := "types.d.ts",
          SubBareName := "types.d.ts" }).dts = "./types.d.ts" ∧
    ctxLeftPad.existsPkgFile (sampleEnv ["/pkg/package.json"] []) ["./types.d.ts"] = false ∧
    (ctxLeftPad.resolveEntry (sampleEnv ["/pkg/package.json"] [])
        { PkgName := "left-pad", PkgVersion := "1.3.0", SubPath := "App.vue",
          SubBareName := "App.vue" }).esm = "./App.vue" ∧
    ctxLeftPad.existsPkgFile (sampleEnv ["/pkg/package.json"] []) ["./App.vue"] = false ∧
    (ctxLeftPad.resolveEntry
        (sampleEnvNested ["/pkg/index.js", "/pkg/sub/package.json"] [] "/pkg/sub/package.json"
          { Main := "./lib.js" })
        { PkgName := "left-pad", PkgVersion := "1.3.0", SubPath := "sub",
          SubBareName := "sub" }).cjs = "./sub/lib.js" ∧
    ctxLeftPad.existsPkgFile
        (sampleEnvNested ["/pkg/index.js", "/pkg/sub/package.json"] [] "/pkg/sub/package.json"
          { Main := "./lib.js" })
        ["./sub/lib.js"] = false ∧
    (ctxTypesNode.resolveEntry (sampleEnv ["/pkg/index.d.ts"] []) ctxTypesNode.esmPath).dts
      = "./ts4.0/index.d.ts" ∧
    ctxTypesNode.existsPkgFile (sampleEnv ["/pkg/index.d.ts"] []) ["index.d.ts"] = true ∧
    ctxTypesNode.existsPkgFile (sampleEnv ["/pkg/index.d.ts"] []) ["./ts4.0/index.d.ts"]
      = false ∧
    ((ctxBrowserRoot "" "./browser.js" "es2022").resolveEntry
        (sampleEnv ["/pkg/lib/index.js"] []) { PkgName := "pkg", PkgVersion := "1.0.0" }).cjs
      = "./browser.js" ∧
    (ctxBrowserRoot "" "./browser.js" "es2022").existsPkgFile
        (sampleEnv ["/pkg/lib/index.js"] []) ["lib/index.js"] = true ∧
    (ctxBrowserRoot "" "./browser.js" "es2022").existsPkgFile
        (sampleEnv ["/pkg/lib/index.js"] []) ["./browser.js"] = false ∧
    (ctxLeftPadDotDot.resolveEntry (sampleEnv ["/pkg/index.js"] [])
        ctxLeftPadDotDot.esmPath).cjs = "./pkg/index.js" ∧
    ctxLeftPadDotDot.existsPkgFile (sampleEnv ["/pkg/index.js"] []) ["../pkg/index.js"]
      = true ∧
    ctxLeftPadDotDot.existsPkgFile (sampleEnv ["/pkg/index.js"] []) ["./pkg/index.js"]
      = false := by
  decide

theorem applyTypesVersions_none (env : Env) (ctx : BuildContext) (entry : BuildEntry)
    (h : ctx.packageJson.TypesVersions = []) : applyTypesVersions env ctx entry = entry := by
  unfold applyTypesVersions
  simp [h]

theorem applyBrowserField_none (env : Env) (ctx : BuildContext) (esm : ESMPath)
    (entry : BuildEntry)
    (h : ctx.packageJson.Browser = [] ∨ ctx.isBrowserTarget = false) :
    applyBrowserField env ctx esm entry = entry := by
  unfold applyBrowserField
  rcases h with h | h <;> simp [h]

theorem applyBrowserField_paths (env : Env) (ctx : BuildContext) (esm : ESMPath)
    (entry : BuildEntry)
    (h : ctx.packageJson.Browser.length > 0 ∧ ctx.isBrowserTarget = true) :
    applyBrowserField env ctx esm entry
      = if esm.SubBareName = "" then
          match ctx.packageJson.Browser.lookup "." with
          | some m =>
            if env.isRelPathSpecifier m then
              if hasSuffix m ".mjs" then { applyBrowserPaths env ctx entry with esm := m }
              else if (applyBrowserPaths env ctx entry).esm = "" then
                { applyBrowserPaths env ctx entry with cjs := m }
              else applyBrowserPaths env ctx entry
            else applyBrowserPaths env ctx entry
          | none => applyBrowserPaths env ctx entry
        else applyBrowserPaths env ctx entry := by
  unfold applyBrowserField
  exact (if_pos h).trans rfl

theorem applyNestedManifest_exists (env : Env) (ctx : BuildContext) (sub : String)
    (entry : BuildEntry)
    (hnested : ∀ p, env.parseJSONFile (pathJoin [ctx.pkgDir, sub, "package.json"]) = some p →
      (p.Module ≠ "" → ctx.existsPkgFile env ["./" ++ pathJoin [sub, p.Module]] = true) ∧
      (p.Main ≠ "" → ctx.existsPkgFile env ["./" ++ pathJoin [sub, p.Main]] = true) ∧
      (p.Types ≠ "" → ctx.existsPkgFile env ["./" ++ pathJoin [sub, p.Types]] = true) ∧
      (p.Types = "" → p.Typings ≠ "" →
        ctx.existsPkgFile env ["./" ++ pathJoin [sub, p.Typings]] = true))
    (h : SlotsExist env ctx entry) :
    SlotsExist env ctx (applyNestedManifest env ctx sub entry) := by
  unfold applyNestedManifest
  cases hp : env.parseJSONFile (pathJoin [ctx.pkgDir, sub, "package.json"]) with
  | none => exact h
  | some p =>
    obtain ⟨n1, n2, n3, n4⟩ := hnested p hp
    obtain ⟨h1, h2, h3⟩ := h
    simp only []
    have he : SlotsExist env ctx
        (if entry.esm = "" ∧ p.Module ≠ "" then
          { entry with esm := "./" ++ pathJoin [sub, p.Module] }
         else entry) := by
      split
      · rename_i hc
        exact ⟨fun _ => n1 hc.2, h2, h3⟩
      · exact ⟨h1, h2, h3⟩
    generalize (if entry.esm = "" ∧ p.Module ≠ "" then
          ({ entry with esm := "./" ++ pathJoin [sub, p.Module] } : BuildEntry)
         else entry) = e1 at he ⊢
    obtain ⟨a1, a2, a3⟩ := he
    have hc : SlotsExist env ctx
        (if e1.cjs = "" ∧ p.Main ≠ "" then
          { e1 with cjs := "./" ++ pathJoin [sub, p.Main] }
         else e1) := by
      split
      · rename_i hc
        exact ⟨a1, fun _ => n2 hc.2, a3⟩
      · exact ⟨a1, a2, a3⟩
    generalize (if e1.cjs = "" ∧ p.Main ≠ "" then
          ({ e1 with cjs := "./" ++ pathJoin [sub, p.Main] } : BuildEntry)
         else e1) = e2 at hc ⊢
    obtain ⟨b1, b2, b3⟩ := hc
    split
    · split
      · rename_i ht
        exact ⟨b1, b2, fun _ => n3 ht⟩
      · rename_i ht
        split
        · rename_i hy
          exact ⟨b1, b2, fun _ => n4 (not_not.mp ht) hy⟩
        · exact ⟨b1, b2, b3⟩
    · exact ⟨b1, b2, b3⟩

theorem resolveSubModule_nested_exists (env : Env) (ctx : BuildContext) (esm : ESMPath)
    (hd : ctx.pkgDir ≠ "")
    (hnested : ∀ p,
      env.parseJSONFile (pathJoin [ctx.pkgDir, esm.SubBareName, "package.json"]) = some p →
      (p.Module ≠ "" →
        ctx.existsPkgFile env ["./" ++ pathJoin [esm.SubBareName, p.Module]] = true) ∧
      (p.Main ≠ "" →
        ctx.existsPkgFile env ["./" ++ pathJoin [esm.SubBareName, p.Main]] = true) ∧
      (p.Types ≠ "" →
        ctx.existsPkgFile env ["./" ++ pathJoin [esm.SubBareName, p.Types]] = true) ∧
      (p.Types = "" → p.Typings ≠ "" →
        ctx.existsPkgFile env ["./" ++ pathJoin [esm.SubBareName, p.Typings]] = true)) :
    SlotsExist env ctx (resolveSubModule env ctx esm) := by
  unfold resolveSubModule probeSubModule
  simp only []
  apply probeSubModuleDts_exists _ _ _ _ hd
  apply probeSubModuleCjs_exists _ _ _ _ hd
  apply probeSubModuleEsm_exists _ _ _ _ hd
  apply applyNestedManifest_exists _ _ _ _ hnested
  split
  · exact applyExportEntry_exists _ _ _ _ (slotsExist_empty env ctx)
  · exact slotsExist_empty env ctx

theorem resolveRootModule_seeded_exists (env : Env) (ctx : BuildContext)
    (hd : ctx.pkgDir ≠ "")
    (hseed : SlotsExist env ctx
      { esm := ctx.packageJson.Module, cjs := ctx.packageJson.Main,
        dts := if ctx.packageJson.Types = "" then ctx.packageJson.Typings
               else ctx.packageJson.Types }) :
    SlotsExist env ctx (resolveRootModule env ctx) := by
  have hs : SlotsExist env ctx
      (if ctx.packageJson.Types = "" ∧ ctx.packageJson.Typings ≠ "" then
        ({ esm := ctx.packageJson.Module, cjs := ctx.packageJson.Main,
           dts := ctx.packageJson.Typings } : BuildEntry)
      else { esm := ctx.packageJson.Module, cjs := ctx.packageJson.Main,
             dts := ctx.packageJson.Types }) := by
    obtain ⟨h1, h2, h3⟩ := hseed
    by_cases ht : ctx.packageJson.Types = ""
    · by_cases hy : ctx.packageJson.Typings = ""
      · rw [if_neg (fun h => h.2 hy)]
        exact ⟨h1, h2, fun hne => absurd ht hne⟩
      · rw [if_pos ⟨ht, hy⟩]
        rw [if_pos ht] at h3
        exact ⟨h1, h2, h3⟩
    · rw [if_neg (fun h => ht h.1)]
      rw [if_neg ht] at h3
      exact ⟨h1, h2, h3⟩
  unfold resolveRootModule probeRootModule
  simp only []
  apply probeSiblingDts_exists _ _ _ _ hd
  apply probeSiblingDts_exists _ _ _ _ hd
  apply probeRootDts_exists _ _ _ hd
  apply probeRootCjs_exists _ _ _ hd
  apply probeRootEsm_exists _ _ _ hd
  split
  · exact applyExportEntry_exists _ _ _ _ hs
  · exact hs

theorem remapDts_slots (env : Env) (entry : BuildEntry) (dts : String) (paths : Value)
    (exact : Bool) (suffix : String) :
    (remapDts env entry dts paths exact suffix).esm = entry.esm ∧
    (remapDts env entry dts paths exact suffix).cjs = entry.cjs := by
  unfold remapDts
  split
  · simp only []
    split
    · exact ⟨rfl, rfl⟩
    · split
      · exact ⟨rfl, rfl⟩
      · split
        · exact ⟨rfl, rfl⟩
        · exact ⟨rfl, rfl⟩
  · exact ⟨rfl, rfl⟩

theorem applyTypesVersions_slots (env : Env) (ctx : BuildContext) (entry : BuildEntry) :
    (applyTypesVersions env ctx entry).esm = entry.esm ∧
    (applyTypesVersions env ctx entry).cjs = entry.cjs := by
  unfold applyTypesVersions
  simp only []
  split
  · split
    · split
      · split
        · exact remapDts_slots env entry _ _ _ _
        · split
          · exact remapDts_slots env entry _ _ _ _
          · split
            · exact remapDts_slots env entry _ _ _ _
            · split
              · exact remapDts_slots env entry _ _ _ _
              · exact ⟨rfl, rfl⟩
      · exact ⟨rfl, rfl⟩
    · exact ⟨rfl, rfl⟩
  · exact ⟨rfl, rfl⟩

theorem applyTypesVersions_exists (env : Env) (ctx : BuildContext) (entry : BuildEntry)
    (htv : (applyTypesVersions env ctx entry).dts ≠ entry.dts →
      ctx.existsPkgFile env [(applyTypesVersions env ctx entry).dts] = true)
    (h : SlotsExist env ctx entry) : SlotsExist env ctx (applyTypesVersions env ctx entry) := by
  obtain ⟨h1, h2, h3⟩ := h
  obtain ⟨e1, e2⟩ := applyTypesVersions_slots env ctx entry
  refine ⟨?_, ?_, ?_⟩
  · rw [e1]; exact h1
  · rw [e2]; exact h2
  · intro hne
    by_cases hc : (applyTypesVersions env ctx entry).dts = entry.dts
    · rw [hc] at hne ⊢
      exact h3 hne
    · exact htv hc

theorem browserEsm_exists (env : Env) (ctx : BuildContext) (e0 : BuildEntry)
    (hvals : ∀ k m, ctx.packageJson.Browser.lookup k = some m →
      env.isRelPathSpecifier m = true → ctx.existsPkgFile env [m] = true)
    (hn : SlotsExist env ctx e0) :
    SlotsExist env ctx
      (if e0.esm ≠ "" then
        match ctx.packageJson.Browser.lookup e0.esm with
        | some m => if env.isRelPathSpecifier m = true then { e0 with esm := m } else e0
        | none => e0
      else e0) := by
  obtain ⟨h1, h2, h3⟩ := hn
  split
  · split
    · rename_i m hl
      split
      · rename_i hr
        exact ⟨fun _ => hvals _ _ hl hr, h2, h3⟩
      · exact ⟨h1, h2, h3⟩
    · exact ⟨h1, h2, h3⟩
  · exact ⟨h1, h2, h3⟩

theorem browserCjs_exists (env : Env) (ctx : BuildContext) (e1 : BuildEntry)
    (hvals : ∀ k m, ctx.packageJson.Browser.lookup k = some m →
      env.isRelPathSpecifier m = true → ctx.existsPkgFile env [m] = true)
    (hn : SlotsExist env ctx e1) :
    SlotsExist env ctx
      (if e1.cjs ≠ "" then
        match ctx.packageJson.Browser.lookup e1.cjs with
        | some m => if env.isRelPathSpecifier m = true then { e1 with cjs := m } else e1
        | none => e1
      else e1) := by
  obtain ⟨h1, h2, h3⟩ := hn
  split
  · split
    · rename_i m hl
      split
      · rename_i hr
        exact ⟨h1, fun _ => hvals _ _ hl hr, h3⟩
      · exact ⟨h1, h2, h3⟩
    · exact ⟨h1, h2, h3⟩
  · exact ⟨h1, h2, h3⟩

theorem applyBrowserPaths_exists (env : Env) (ctx : BuildContext) (entry : BuildEntry)
    (hd : ctx.pkgDir ≠ "")
    (hN : ∀ p, ctx.existsPkgFile env [p] = true →
      ctx.existsPkgFile env [normalizeEntryPath env p] = true)
    (hvals : ∀ k m, ctx.packageJson.Browser.lookup k = some m →
      env.isRelPathSpecifier m = true → ctx.existsPkgFile env [m] = true)
    (h : SlotsExist env ctx entry) :
    SlotsExist env ctx (applyBrowserPaths env ctx entry) := by
  have hn := normalizeBuildEntry_exists env ctx entry hd hN h
  unfold applyBrowserPaths
  generalize normalizeBuildEntry env ctx entry = e0 at hn ⊢
  exact browserCjs_exists env ctx _ hvals (browserEsm_exists env ctx e0 hvals hn)

theorem applyBrowserField_exists (env : Env) (ctx : BuildContext) (esm : ESMPath)
    (entry : BuildEntry) (hd : ctx.pkgDir ≠ "")
    (hN : ∀ p, ctx.existsPkgFile env [p] = true →
      ctx.existsPkgFile env [normalizeEntryPath env p] = true)
    (hvals : ∀ k m, ctx.packageJson.Browser.lookup k = some m →
      env.isRelPathSpecifier m = true → ctx.existsPkgFile env [m] = true)
    (h : SlotsExist env ctx entry) :
    SlotsExist env ctx (applyBrowserField env ctx esm entry) := by
  by_cases hb : ctx.packageJson.Browser.length > 0 ∧ ctx.isBrowserTarget = true
  · rw [applyBrowserField_paths env ctx esm entry hb]
    have hp := applyBrowserPaths_exists env ctx entry hd hN hvals h
    generalize applyBrowserPaths env ctx entry = e at hp ⊢
    obtain ⟨h1, h2, h3⟩ := hp
    split
    · split
      · rename_i m hl
        split
        · rename_i hr
          split
          · exact ⟨fun _ => hvals _ _ hl hr, h2, h3⟩
          · split
            · exact ⟨h1, fun _ => hvals _ _ hl hr, h3⟩
            · exact ⟨h1, h2, h3⟩
        · exact ⟨h1, h2, h3⟩
      · exact ⟨h1, h2, h3⟩
    · exact ⟨h1, h2, h3⟩
  · unfold applyBrowserField
    rw [if_neg hb]
    exact h

/-- C1 (amended): `resolveEntry` checks existence where it takes a slot from
the `exports` evaluation or from probing conventional files, and nowhere
else. For a package directory that is not empty and a request that does not
return early, when every value that is taken without a check names an
existing file, namely the manifest seeds of the root module, the fields of a
readable nested manifest of a sub-module, the dts that `typesVersions` remaps
to and the relative values of an applying `browser` field, and when the
normalization leaves the entry as it is or keeps the path of every existing
file the path of an existing file, every non-empty slot of the returned entry
names a file for which `existsPkgFile` is true. -/
theorem resolveEntry_checked_slots_exist (env : Env) (ctx : BuildContext) (esm : ESMPath)
    (hdir : ctx.pkgDir ≠ "")
    (hdecl : endsWith esm.SubPath [".d.ts", ".d.mts", ".d.cts"] = false)
    (hsource : endsWith esm.SubPath [".jsx", ".ts", ".tsx", ".mts", ".svelte", ".vue"] = false)
    (hseed : esm.SubBareName = "" →
      (ctx.packageJson.Module ≠ "" →
        ctx.existsPkgFile env [ctx.packageJson.Module] = true) ∧
      (ctx.packageJson.Main ≠ "" → ctx.existsPkgFile env [ctx.packageJson.Main] = true) ∧
      (ctx.packageJson.Types ≠ "" → ctx.existsPkgFile env [ctx.packageJson.Types] = true) ∧
      (ctx.packageJson.Types = "" → ctx.packageJson.Typings ≠ "" →
        ctx.existsPkgFile env [ctx.packageJson.Typings] = true))
    (hnested : esm.SubBareName ≠ "" → ∀ p,
      env.parseJSONFile (pathJoin [ctx.pkgDir, esm.SubBareName, "package.json"]) = some p →
      (p.Module ≠ "" →
        ctx.existsPkgFile env ["./" ++ pathJoin [esm.SubBareName, p.Module]] = true) ∧
      (p.Main ≠ "" →
        ctx.existsPkgFile env ["./" ++ pathJoin [esm.SubBareName, p.Main]] = true) ∧
      (p.Types ≠ "" →
        ctx.existsPkgFile env ["./" ++ pathJoin [esm.SubBareName, p.Types]] = true) ∧
      (p.Types = "" → p.Typings ≠ "" →
        ctx.existsPkgFile env ["./" ++ pathJoin [esm.SubBareName, p.Typings]] = true))
    (htv : (applyTypesVersions env ctx (resolveModuleFiles env ctx esm)).dts
        ≠ (resolveModuleFiles env ctx esm).dts →
      ctx.existsPkgFile env
        [(applyTypesVersions env ctx (resolveModuleFiles env ctx esm)).dts] = true)
    (hbrowser : ctx.packageJson.Browser = [] ∨ ctx.isBrowserTarget = false ∨
      ((∀ p, ctx.existsPkgFile env [p] = true →
          ctx.existsPkgFile env [normalizeEntryPath env p] = true) ∧
        ∀ k m, ctx.packageJson.Browser.lookup k = some m →
          env.isRelPathSpecifier m = true → ctx.existsPkgFile env [m] = true))
    (hnorm : normalizeBuildEntry env ctx
          (applyBrowserField env ctx esm
            (applyTypesVersions env ctx (resolveModuleFiles env ctx esm)))
        = applyBrowserField env ctx esm
            (applyTypesVersions env ctx (resolveModuleFiles env ctx esm)) ∨
      ∀ p, ctx.existsPkgFile env [p] = true →
        ctx.existsPkgFile env [normalizeEntryPath env p] = true) :
    ((ctx.resolveEntry env esm).esm ≠ "" →
      ctx.existsPkgFile env [(ctx.resolveEntry env esm).esm] = true) ∧
    ((ctx.resolveEntry env esm).cjs ≠ "" →
      ctx.existsPkgFile env [(ctx.resolveEntry env esm).cjs] = true) ∧
    ((ctx.resolveEntry env esm).dts ≠ "" →
      ctx.existsPkgFile env [(ctx.resolveEntry env esm).dts] = true) := by
  have hr : ctx.resolveEntry env esm
      = normalizeBuildEntry env ctx
          (applyBrowserField env ctx esm
            (applyTypesVersions env ctx (resolveModuleFiles env ctx esm))) := by
    unfold BuildContext.resolveEntry
    simp only [hdecl, hsource, Bool.false_eq_true, and_false, if_false]
  have hfiles : SlotsExist env ctx (resolveModuleFiles env ctx esm) := by
    unfold resolveModuleFiles
    by_cases hsub : esm.SubBareName = ""
    · simp only [hsub, ne_eq, not_true_eq_false, if_false]
      obtain ⟨h1, h2, h3, h4⟩ := hseed hsub
      refine resolveRootModule_seeded_exists env ctx hdir ⟨h1, h2, ?_⟩
      by_cases ht : ctx.packageJson.Types = ""
      · simp only [ht, if_true]
        exact h4 ht
      · simp only [ht, if_false]
        exact h3
    · simp only [hsub, ne_eq, not_false_eq_true, if_true]
      exact resolveSubModule_nested_exists env ctx esm hdir (hnested hsub)
  have htypes : SlotsExist env ctx
      (applyTypesVersions env ctx (resolveModuleFiles env ctx esm)) :=
    applyTypesVersions_exists env ctx _ htv hfiles
  have hbr : SlotsExist env ctx
      (applyBrowserField env ctx esm
        (applyTypesVersions env ctx (resolveModuleFiles env ctx esm))) := by
    rcases hbrowser with hb | hb | ⟨hN, hvals⟩
    · rw [applyBrowserField_none env ctx esm _ (Or.inl hb)]
      exact htypes
    · rw [applyBrowserField_none env ctx esm _ (Or.inr hb)]
      exact htypes
    · exact applyBrowserField_exists env ctx esm _ hdir hN hvals htypes
  rw [hr]
  rcases hnorm with hfix | hN
  · rw [hfix]
    exact hbr
  · exact normalizeBuildEntry_exists env ctx _ hdir hN hbr

/-- Witness of C1: the root module of `left-pad@1.3.0` with the file
`index.js` of its `main` seed in the package, and the sub-module `lib/x` of
`bar`, resolved through the wildcard export to the existing file `src/x.js`. -/
theorem resolveEntry_checked_slots_exist_witness :
    (ctxLeftPad.resolveEntry (sampleEnv ["/pkg/index.js"] []) ctxLeftPad.esmPath).cjs
      = "./index.js" ∧
    ctxLeftPad.existsPkgFile (sampleEnv ["/pkg/index.js"] [])
      [(ctxLeftPad.resolveEntry (sampleEnv ["/pkg/index.js"] []) ctxLeftPad.esmPath).cjs]
      = true ∧
    (ctxBar.resolveEntry (sampleEnv ["/pkg/src/x.js"] []) ctxBar.esmPath).esm = "./src/x.js" ∧
    ctxBar.existsPkgFile (sampleEnv ["/pkg/src/x.js"] [])
      [(ctxBar.resolveEntry (sampleEnv ["/pkg/src/x.js"] []) ctxBar.esmPath).esm] = true :=
  ⟨by decide,
   (resolveEntry_checked_slots_exist (sampleEnv ["/pkg/index.js"] []) ctxLeftPad
      ctxLeftPad.esmPath (by decide) (by decide) (by decide)
      (fun _ => ⟨fun h => absurd rfl h, fun _ => by decide, fun h => absurd rfl h,
        fun _ h => absurd rfl h⟩)
      (fun h => absurd rfl h) (fun h => absurd (by decide) h) (Or.inl rfl)
      (Or.inl (by decide))).2.1 (by decide),
   by decide,
   (resolveEntry_checked_slots_exist (sampleEnv ["/pkg/src/x.js"] []) ctxBar ctxBar.esmPath
      (by decide) (by decide) (by decide) (fun h => absurd h (by decide))
      (fun _ p hp => Option.noConfusion hp) (fun h => absurd (by decide) h) (Or.inl rfl)
      (Or.inl (by decide))).1 (by decide)⟩

/-- C2 (code defect): the result depends on the iteration order of two Go
maps.  With two `typesVersions` keys ending in `/*` that both match, the
mapping iterated in one order and in the reverse order gives two different
entries; and two orders of the same two `alias` entries give two different
URLs for a dependency without a fixed version. -/
theorem iteration_order_changes_result :
    (ctxTypesVersions wildcardMapping).resolveEntry (sampleEnv [] [])
        { PkgName := "pkg", PkgVersion := "1.0.0" }
      = { dts := "./x/sub/a.d.ts" } ∧
    (ctxTypesVersions wildcardMapping.reverse).resolveEntry (sampleEnv [] [])
        { PkgName := "pkg", PkgVersion := "1.0.0" }
      = { dts := "./y/a.d.ts" } ∧
    resolveExternalModuleQuery (sampleEnv [] []) ctxBrowser
        { PkgName := "dep", PkgVersion := "^1.0.0" } { alias' := [("a", "x"), ("b", "y")] }
      = "/dep@^1.0.0?alias=a:x,b:y" ∧
    resolveExternalModuleQuery (sampleEnv [] []) ctxBrowser
        { PkgName := "dep", PkgVersion := "^1.0.0" } { alias' := [("b", "y"), ("a", "x")] }
      = "/dep@^1.0.0?alias=b:y,a:x" := by
  decide

/-! ### Precedence of the user conditions -/

theorem entryKeyOf_cases (mType : String) :
    entryKeyOf mType = "esm" ∨ entryKeyOf mType = "cjs" ∨ entryKeyOf mType = "dts" := by
  unfold entryKeyOf
  split
  · exact Or.inr (Or.inl rfl)
  · split
    · exact Or.inl rfl
    · split
      · exact Or.inr (Or.inr rfl)
      · exact Or.inl rfl

theorem keeps_slot {a b : BuildEntry} (h : Keeps a b) (k : String) (hk : a.slot k ≠ "") :
    b.slot k = a.slot k := by
  unfold BuildEntry.slot at hk ⊢
  by_cases h1 : k = "esm"
  · simp only [h1, if_true] at hk ⊢
    exact h.1 hk
  · by_cases h2 : k = "cjs"
    · simp only [h1, h2, if_true, if_false] at hk ⊢
      exact h.2.1 hk
    · by_cases h3 : k = "dts"
      · simp only [h1, h2, h3, if_true, if_false] at hk ⊢
        exact h.2.2 hk
      · simp [h1, h2, h3] at hk

theorem resolveWith_empty_str (eval : OrderedMap → String → BuildEntry) (mType s : String) :
    (({} : BuildEntry).resolveWith eval mType (Value.str s) (entryKeyOf mType)).slot
      (entryKeyOf mType) = s := by
  rcases entryKeyOf_cases mType with h | h | h <;>
    rw [h] <;>
    simp [BuildEntry.resolveWith, BuildEntry.hasEntry, BuildEntry.updateEntry, BuildEntry.slot]

theorem flatMap_visitOf_absent (conditions : OrderedMap) (mType : String) (names : List String)
    (h : ∀ n ∈ names, (conditions.Get n).isNil = true) :
    names.flatMap (visitOf conditions mType) = [] := by
  induction names with
  | nil => rfl
  | cons n ns ih =>
    rw [List.flatMap_cons, ih (fun m hm => h m (by simp [hm]))]
    simp [visitOf, h n (by simp)]

/-- C11: the user conditions are visited first and in the order supplied: when
the first user condition that is present in the mapping has a non-empty string
value `s`, the slot implied by the module-type hint is `s` in the result,
whatever the other conditions hold. -/
theorem user_condition_first (ctx : BuildContext) (conditions : OrderedMap)
    (mType : String) (pre post : List String) (name s : String)
    (horder : ctx.args.conditions = pre ++ name :: post)
    (habsent : ∀ n ∈ pre, (conditions.Get n).isNil = true)
    (hvalue : conditions.Get name = Value.str s) (hs : s ≠ "") :
    (ctx.resolveConditionExportEntry conditions mType).slot (entryKeyOf mType) = s := by
  have hv : visitOf conditions mType name
      = [⟨name, mType, Value.str s, entryKeyOf mType⟩] := by
    simp [visitOf, hvalue, Value.isNil]
  have hvisits : ∃ tail, visits ctx conditions mType
      = (⟨name, mType, Value.str s, entryKeyOf mType⟩ : Visit) :: tail := by
    unfold visits
    rw [horder, List.flatMap_append, flatMap_visitOf_absent conditions mType pre habsent,
      List.flatMap_cons, hv]
    exact ⟨post.flatMap (visitOf conditions mType)
      ++ (if ctx.dev then visitOf conditions mType "development" else [])
      ++ visitsRuntime ctx conditions mType
      ++ conditions.keys.flatMap (visitKey conditions mType), by simp⟩
  obtain ⟨tail, htail⟩ := hvisits
  rw [resolveConditionExportEntry_visits, htail]
  have hfirst := resolveWith_empty_str ctx.resolveConditionExportEntry mType s
  have hkeep := runVisits_keeps ctx tail
    (({} : BuildEntry).resolve ctx mType (Value.str s) (entryKeyOf mType))
  have := keeps_slot hkeep (entryKeyOf mType) (by
    show (({} : BuildEntry).resolveWith ctx.resolveConditionExportEntry mType (Value.str s)
      (entryKeyOf mType)).slot (entryKeyOf mType) ≠ ""
    rw [hfirst]; exact hs)
  show (runVisits ctx (({} : BuildEntry).resolve ctx mType (Value.str s) (entryKeyOf mType))
    tail).slot (entryKeyOf mType) = s
  rw [this]
  exact hfirst

/-- Witness of C11: with the user conditions `worker`, `custom` and a mapping
without `worker`, the value of `custom` fills the esm slot of a module
package although `import`, `node`, `development` and `default` are present. -/
theorem user_condition_first_witness :
    (ctxUserConditions.resolveConditionExportEntry condsCustom "module").esm = "./c.js" :=
  user_condition_first ctxUserConditions condsCustom "module" ["worker"] [] "custom" "./c.js"
    rfl (by decide) rfl (by decide)

/-! ### The runtime condition -/

/-- C12: the runtime condition that `resolveConditionExportEntry` consults
after the user conditions and `development` and before the keys in source
order is `browser` for a target beginning with `es`, the first present of
`deno` then `node` for the targets `deno` and `denonext`, `node` for the
target `node`, and none for any other target; the mapping with `browser`
`./b.js` and `default` `./d.js` evaluates, for module type `module` with no
user conditions and dev off, to esm `./b.js` for target `es2022` and to esm
`./d.js` for target `node`. -/
theorem runtime_condition (ctx : BuildContext) (conditions : OrderedMap) (mType : String)
    (entry : BuildEntry) :
    ctx.resolveConditionExportEntry conditions mType
      = resolveSourceOrder ctx.resolveConditionExportEntry conditions mType
          (resolveRuntime ctx ctx.resolveConditionExportEntry conditions mType
            (resolveDevelopment ctx ctx.resolveConditionExportEntry conditions mType
              (resolveUserConditions ctx ctx.resolveConditionExportEntry conditions mType {}))) ∧
    (hasPrefix ctx.target "es" = true →
      resolveRuntime ctx ctx.resolveConditionExportEntry conditions mType entry
        = if (conditions.Get "browser").isNil = true then entry
          else entry.resolve ctx mType (conditions.Get "browser") (entryKeyOf mType)) ∧
    (ctx.target = "deno" ∨ ctx.target = "denonext" →
      resolveRuntime ctx ctx.resolveConditionExportEntry conditions mType entry
        = if (conditions.Get "deno").isNil = false then
            entry.resolve ctx mType (conditions.Get "deno") (entryKeyOf mType)
          else if (conditions.Get "node").isNil = false then
            entry.resolve ctx mType (conditions.Get "node") (entryKeyOf mType)
          else entry) ∧
    (ctx.target = "node" →
      resolveRuntime ctx ctx.resolveConditionExportEntry conditions mType entry
        = if (conditions.Get "node").isNil = true then entry
          else entry.resolve ctx mType (conditions.Get "node") (entryKeyOf mType)) ∧
    (hasPrefix ctx.target "es" = false → ctx.target ≠ "deno" → ctx.target ≠ "denonext" →
      ctx.target ≠ "node" →
      resolveRuntime ctx ctx.resolveConditionExportEntry conditions mType entry = entry) ∧
    ctxBrowser.resolveConditionExportEntry condsBrowserDefault "module" = { esm := "./b.js" } ∧
    ctxNode.resolveConditionExportEntry condsBrowserDefault "module" = { esm := "./d.js" } := by
  refine ⟨resolveConditionExportEntry_unfold ctx conditions mType, ?_, ?_, ?_, ?_,
    by decide, by decide⟩
  · intro hes
    unfold resolveRuntime BuildContext.isBrowserTarget BuildEntry.resolve
    simp only [hes, if_true]
    by_cases h : (conditions.Get "browser").isNil = true <;> simp [h]
  · intro hdeno
    have hes : hasPrefix ctx.target "es" = false := by
      rcases hdeno with h | h <;> rw [h] <;> decide
    have hd : ctx.isDenoTarget = true := by
      unfold BuildContext.isDenoTarget
      rcases hdeno with h | h <;> simp [h]
    unfold resolveRuntime BuildContext.isBrowserTarget BuildEntry.resolve
    simp only [hes, hd, if_true, if_false, Bool.false_eq_true]
    by_cases h1 : (conditions.Get "deno").isNil = true
    · by_cases h2 : (conditions.Get "node").isNil = true
      · simp [List.find?, h1, h2]
      · simp [List.find?, h1, h2]
    · simp [List.find?, h1]
  · intro hnode
    have hes : hasPrefix ctx.target "es" = false := by rw [hnode]; decide
    have hd : ctx.isDenoTarget = false := by
      unfold BuildContext.isDenoTarget; rw [hnode]; decide
    unfold resolveRuntime BuildContext.isBrowserTarget BuildEntry.resolve
    simp only [hes, hd, if_false, Bool.false_eq_true]
    simp only [hnode, if_true]
    by_cases h : (conditions.Get "node").isNil = true <;> simp [h]
  · intro hes h1 h2 h3
    have hd : ctx.isDenoTarget = false := by
      unfold BuildContext.isDenoTarget; simp [h1, h2]
    unfold resolveRuntime BuildContext.isBrowserTarget
    simp [hes, hd, h3]

/-- Witness of C12: for the target `denonext` and a mapping without `deno`
the `node` condition is the one resolved. -/
theorem runtime_condition_witness :
    resolveRuntime { target := "denonext" }
        (BuildContext.resolveConditionExportEntry { target := "denonext" })
        [("node", Value.str "./n.js")] "module" {}
      = { esm := "./n.js" } :=
  ((runtime_condition { target := "denonext" } [("node", Value.str "./n.js")] "module"
    {}).2.2.1 (Or.inr rfl)).trans (by decide)

/-! ### The source-order loop on a flat mapping -/

theorem slot_valid (slot : String) (h : slot = "esm" ∨ slot = "cjs" ∨ slot = "dts")
    (e : BuildEntry) : e.hasEntry slot = decide (e.slot slot ≠ "") := by
  rcases h with h | h | h <;> subst h <;> simp [BuildEntry.hasEntry, BuildEntry.slot]

theorem slot_update (t slot s : String) (ht : t = "esm" ∨ t = "cjs" ∨ t = "dts")
    (hslot : slot = "esm" ∨ slot = "cjs" ∨ slot = "dts") (e : BuildEntry) :
    (e.updateEntry t s).slot slot = if t = slot then s else e.slot slot := by
  rcases ht with h | h | h <;> rcases hslot with h' | h' | h' <;> subst h <;> subst h' <;>
    simp [BuildEntry.updateEntry, BuildEntry.slot]

/-- Resolving a string fills the target slot when it is empty and changes no
other slot. -/
theorem resolveWith_str_slot (eval : OrderedMap → String → BuildEntry) (e : BuildEntry)
    (m t slot s : String) (ht : t = "esm" ∨ t = "cjs" ∨ t = "dts")
    (hslot : slot = "esm" ∨ slot = "cjs" ∨ slot = "dts") :
    (e.resolveWith eval m (Value.str s) t).slot slot
      = if t = slot ∧ e.slot slot = "" then s else e.slot slot := by
  unfold BuildEntry.resolveWith
  rw [slot_valid t ht]
  by_cases hf : e.slot t = ""
  · have hd : decide (e.slot t ≠ "") = false := by simp [hf]
    rw [hd, if_neg (by simp)]
    simp only []
    rw [slot_update t slot s ht hslot]
    by_cases hts : t = slot
    · subst hts; simp [hf]
    · simp [hts]
  · have hd : decide (e.slot t ≠ "") = true := by simp [hf]
    rw [hd, if_pos rfl]
    by_cases hts : t = slot
    · subst hts; simp [hf]
    · simp [hts]

theorem keyTarget_valid (mType key t : String) (h : keyTarget mType key = some t) :
    t = "esm" ∨ t = "cjs" ∨ t = "dts" := by
  unfold keyTarget at h
  split at h
  · cases h; exact Or.inl rfl
  · split at h
    · cases h; exact Or.inr (Or.inl rfl)
    · split at h
      · cases h; exact Or.inr (Or.inr rfl)
      · split at h
        · cases h; exact entryKeyOf_cases mType
        · cases h

theorem mem_slotKeys (mType key slot : String)
    (hslot : slot = "esm" ∨ slot = "cjs" ∨ slot = "dts") :
    key ∈ slotKeys mType slot ↔ keyTarget mType key = some slot := by
  unfold slotKeys keyTarget
  have hk := entryKeyOf_cases mType
  by_cases h1 : key = "module" ∨ key = "import" ∨ key = "es2015"
  · rcases h1 with h | h | h <;> subst h <;> rcases hslot with h' | h' | h' <;> subst h' <;>
      rcases hk with hk | hk | hk <;> simp [hk]
  · by_cases h2 : key = "require"
    · subst h2
      rcases hslot with h' | h' | h' <;> subst h' <;> rcases hk with hk | hk | hk <;> simp [hk]
    · by_cases h3 : key = "types" ∨ key = "typings"
      · rcases h3 with h | h <;> subst h <;> rcases hslot with h' | h' | h' <;> subst h' <;>
          rcases hk with hk | hk | hk <;> simp [hk]
      · by_cases h4 : key = "default"
        · subst h4
          rcases hslot with h' | h' | h' <;> subst h' <;> rcases hk with hk | hk | hk <;>
            simp [hk]
        · push_neg at h1 h3
          rcases hslot with h' | h' | h' <;> subst h' <;> rcases hk with hk | hk | hk <;>
            simp [hk, h1, h2, h3, h4]

/-- One step of the source-order loop at a key with a string value. -/
theorem visitKey_str_slot (ctx : BuildContext) (conditions : OrderedMap) (mType key s slot : String)
    (hget : conditions.Get key = Value.str s)
    (hslot : slot = "esm" ∨ slot = "cjs" ∨ slot = "dts") (e : BuildEntry) :
    (runVisits ctx e (visitKey conditions mType key)).slot slot
      = if keyTarget mType key = some slot ∧ e.slot slot = "" then s else e.slot slot := by
  unfold visitKey keyTarget
  rw [hget]
  by_cases h1 : key = "module" ∨ key = "import" ∨ key = "es2015"
  · simp only [if_pos h1, runVisits, BuildEntry.resolve, List.foldl_cons, List.foldl_nil]
    rw [resolveWith_str_slot _ _ _ _ _ _ (Or.inl rfl) hslot]
    simp
  · simp only [if_neg h1]
    by_cases h2 : key = "require"
    · simp only [if_pos h2, runVisits, BuildEntry.resolve, List.foldl_cons, List.foldl_nil]
      rw [resolveWith_str_slot _ _ _ _ _ _ (Or.inr (Or.inl rfl)) hslot]
      simp
    · simp only [if_neg h2]
      by_cases h3 : key = "types" ∨ key = "typings"
      · simp only [if_pos h3, runVisits, BuildEntry.resolve, List.foldl_cons, List.foldl_nil]
        rw [resolveWith_str_slot _ _ _ _ _ _ (Or.inr (Or.inr rfl)) hslot]
        simp
      · simp only [if_neg h3]
        by_cases h4 : key = "default"
        · simp only [if_pos h4, runVisits, BuildEntry.resolve, List.foldl_cons, List.foldl_nil]
          rw [resolveWith_str_slot _ _ _ _ _ _ (entryKeyOf_cases mType) hslot]
          simp
        · simp [if_neg h4, runVisits]

theorem sourceOrder_flat_slot (ctx : BuildContext) (conditions : OrderedMap) (mType slot : String)
    (hslot : slot = "esm" ∨ slot = "cjs" ∨ slot = "dts") (l : OrderedMap)
    (hget : ∀ p ∈ l, conditions.Get p.1 = p.2) (hflat : ∀ p ∈ l, ∃ s, p.2 = Value.str s)
    (e : BuildEntry) :
    (runVisits ctx e (l.keys.flatMap (visitKey conditions mType))).slot slot
      = if e.slot slot ≠ "" then e.slot slot else firstValue (slotKeys mType slot) l := by
  induction l generalizing e with
  | nil =>
    by_cases he : e.slot slot = "" <;> simp [OrderedMap.keys, runVisits, firstValue, he]
  | cons p rest ih =>
    obtain ⟨s, hs⟩ := hflat p (by simp)
    have hg : conditions.Get p.1 = Value.str s := by rw [hget p (by simp), hs]
    have ih' := ih (fun q hq => hget q (by simp [hq])) (fun q hq => hflat q (by simp [hq]))
    have hkeys : OrderedMap.keys (p :: rest) = p.1 :: OrderedMap.keys rest := rfl
    rw [hkeys, List.flatMap_cons, runVisits_append, ih',
      visitKey_str_slot ctx conditions mType p.1 s slot hg hslot e]
    have hfv : firstValue (slotKeys mType slot) (p :: rest)
        = if p.1 ∈ slotKeys mType slot ∧ s ≠ "" then s
          else firstValue (slotKeys mType slot) rest := by
      simp [firstValue, hs]
    rw [hfv]
    have hmem := mem_slotKeys mType p.1 slot hslot
    by_cases he : e.slot slot = ""
    · by_cases hk : keyTarget mType p.1 = some slot
      · have hm : p.1 ∈ slotKeys mType slot := hmem.2 hk
        by_cases hse : s = ""
        · simp [he, hk, hm, hse]
        · simp [he, hk, hm, hse]
      · have hm : p.1 ∉ slotKeys mType slot := fun h => hk (hmem.1 h)
        simp [he, hk, hm]
    · simp [he]

theorem Get_of_nodup (l : OrderedMap) (h : l.keys.Nodup) : ∀ p ∈ l, l.Get p.1 = p.2 := by
  induction l with
  | nil => intro p hp; simp at hp
  | cons q rest ih =>
    intro p hp
    have hnd : q.1 ∉ OrderedMap.keys rest ∧ (OrderedMap.keys rest).Nodup := by
      simpa [OrderedMap.keys] using h
    rcases List.mem_cons.1 hp with hpq | hpr
    · subst hpq
      simp [OrderedMap.Get, List.lookup]
    · have hne : p.1 ≠ q.1 := by
        intro heq
        apply hnd.1
        rw [← heq]
        exact List.mem_map_of_mem Prod.fst hpr
      have hb : (p.1 == q.1) = false := by simpa using hne
      have := ih hnd.2 p hpr
      unfold OrderedMap.Get at this ⊢
      obtain ⟨qk, qv⟩ := q
      simp only [List.lookup, hb]
      exact this

theorem flat_mapping_slots (ctx : BuildContext) (conditions : OrderedMap) (mType : String)
    (hflat : ∀ p ∈ conditions, ∃ s, p.2 = Value.str s)
    (hkeys : conditions.keys.Nodup)
    (huser : ∀ n ∈ ctx.args.conditions, (conditions.Get n).isNil = true)
    (hdev : ctx.dev = true → (conditions.Get "development").isNil = true)
    (hruntime : visitsRuntime ctx conditions mType = []) :
    (ctx.resolveConditionExportEntry conditions mType).esm
      = firstValue (["module", "import", "es2015"]
          ++ (if entryKeyOf mType = "esm" then ["default"] else [])) conditions ∧
    (ctx.resolveConditionExportEntry conditions mType).cjs
      = firstValue (["require"]
          ++ (if entryKeyOf mType = "cjs" then ["default"] else [])) conditions ∧
    (ctx.resolveConditionExportEntry conditions mType).dts
      = firstValue (["types", "typings"]
          ++ (if entryKeyOf mType = "dts" then ["default"] else [])) conditions := by
  have hv : visits ctx conditions mType = conditions.keys.flatMap (visitKey conditions mType) := by
    unfold visits
    rw [flatMap_visitOf_absent conditions mType _ huser, hruntime]
    by_cases hd : ctx.dev = true
    · simp [hd, visitOf, hdev hd]
    · simp [hd]
  have hslot := fun slot hs =>
    sourceOrder_flat_slot ctx conditions mType slot hs conditions
      (Get_of_nodup conditions hkeys) hflat {}
  rw [resolveConditionExportEntry_visits, hv]
  refine ⟨?_, ?_, ?_⟩
  · have := hslot "esm" (Or.inl rfl)
    simpa [BuildEntry.slot, slotKeys] using this
  · have := hslot "cjs" (Or.inr (Or.inl rfl))
    simpa [BuildEntry.slot, slotKeys] using this
  · have := hslot "dts" (Or.inr (Or.inr rfl))
    simpa [BuildEntry.slot, slotKeys] using this

/-- C13: for a flat mapping of string values with distinct keys in which no
user, development or runtime condition applies, the result of
`resolveConditionExportEntry` is that of the source-order loop alone: esm is
the first non-empty value in source order among `module`, `import`, `es2015`,
cjs that of `require`, dts the first among `types`, `typings`, where `default`
counts among the keys of the slot implied by the module-type hint (`module`
gives esm, `commonjs` or unspecified gives cjs, `types` gives dts), so that
`default` fills that slot exactly when it is still empty at its visit. -/
theorem source_order_slots (ctx : BuildContext) (conditions : OrderedMap) (mType : String)
    (hflat : ∀ p ∈ conditions, ∃ s, p.2 = Value.str s)
    (hkeys : conditions.keys.Nodup)
    (huser : ∀ n ∈ ctx.args.conditions, (conditions.Get n).isNil = true)
    (hdev : ctx.dev = true → (conditions.Get "development").isNil = true)
    (hruntime : visitsRuntime ctx conditions mType = []) :
    (ctx.resolveConditionExportEntry conditions mType).esm
      = firstValue (["module", "import", "es2015"]
          ++ (if entryKeyOf mType = "esm" then ["default"] else [])) conditions ∧
    (ctx.resolveConditionExportEntry conditions mType).cjs
      = firstValue (["require"]
          ++ (if entryKeyOf mType = "cjs" then ["default"] else [])) conditions ∧
    (ctx.resolveConditionExportEntry conditions mType).dts
      = firstValue (["types", "typings"]
          ++ (if entryKeyOf mType = "dts" then ["default"] else [])) conditions ∧
    entryKeyOf "module" = "esm" ∧ entryKeyOf "commonjs" = "cjs" ∧ entryKeyOf "" = "cjs" ∧
    entryKeyOf "types" = "dts" := by
  obtain ⟨h1, h2, h3⟩ :=
    flat_mapping_slots ctx conditions mType hflat hkeys huser hdev hruntime
  exact ⟨h1, h2, h3, by decide, by decide, by decide, by decide⟩

/-- Witness of C13: in a flat mapping that lists `default` first, for module
type `module`, `default` takes the esm slot, `require` the cjs slot and
`types`, which precedes `typings`, the dts slot. -/
theorem source_order_slots_witness :
    ctxTypesTarget.resolveConditionExportEntry condsFlat "module"
      = { esm := "./d.js", cjs := "./r.cjs", dts := "./t.d.ts" } ∧
    (ctxTypesTarget.resolveConditionExportEntry condsFlat "commonjs").esm = "./i.mjs" := by
  have h := source_order_slots ctxTypesTarget condsFlat "commonjs"
    (by intro p hp; simp [condsFlat] at hp; rcases hp with h | h | h | h | h | h <;>
          exact ⟨_, by rw [h]⟩)
    (by decide) (by decide) (by decide) rfl
  exact ⟨by decide, h.1.trans (by decide)⟩

/-! ### Nested conditions -/

theorem fill_slots (e0 e : BuildEntry) :
    let r1 := if (e.esm ≠ "" && !e0.hasEntry "esm") = true then e0.updateEntry "esm" e.esm else e0
    let r2 := if (e.cjs ≠ "" && !r1.hasEntry "cjs") = true then r1.updateEntry "cjs" e.cjs else r1
    let r3 := if (e.dts ≠ "" && !r2.hasEntry "dts") = true then r2.updateEntry "dts" e.dts else r2
    r3.esm = (if e0.esm ≠ "" then e0.esm else e.esm) ∧
    r3.cjs = (if e0.cjs ≠ "" then e0.cjs else e.cjs) ∧
    r3.dts = (if e0.dts ≠ "" then e0.dts else e.dts) := by
  by_cases h1 : e.esm = "" <;> by_cases h2 : e0.esm = "" <;>
  by_cases h3 : e.cjs = "" <;> by_cases h4 : e0.cjs = "" <;>
  by_cases h5 : e.dts = "" <;> by_cases h6 : e0.dts = "" <;>
  simp [BuildEntry.hasEntry, BuildEntry.updateEntry, h1, h2, h3, h4, h5, h6]

theorem resolve_omap_eq (ctx : BuildContext) (entry : BuildEntry) (mType : String)
    (om : OrderedMap) (entryType : String) (hempty : entry.hasEntry entryType = false) :
    (entry.resolve ctx mType (Value.omap om) entryType).esm
      = (if (assignDefault entry om entryType).esm ≠ "" then
          (assignDefault entry om entryType).esm
        else (ctx.resolveConditionExportEntry om mType).esm) ∧
    (entry.resolve ctx mType (Value.omap om) entryType).cjs
      = (if (assignDefault entry om entryType).cjs ≠ "" then
          (assignDefault entry om entryType).cjs
        else (ctx.resolveConditionExportEntry om mType).cjs) ∧
    (entry.resolve ctx mType (Value.omap om) entryType).dts
      = (if (assignDefault entry om entryType).dts ≠ "" then
          (assignDefault entry om entryType).dts
        else (ctx.resolveConditionExportEntry om mType).dts) := by
  have h := fill_slots (assignDefault entry om entryType)
    (ctx.resolveConditionExportEntry om mType)
  unfold BuildEntry.resolve BuildEntry.resolveWith
  rw [hempty]
  simp only [Bool.false_eq_true, if_false]
  exact h

theorem nested_inner (ctx : BuildContext) (a b mType : String)
    (hb : ctx.isBrowserTarget = true) (hu : ctx.args.conditions = []) :
    ctx.resolveConditionExportEntry [("import", Value.str a), ("require", Value.str b)] mType
      = { esm := a, cjs := b } := by
  have h := flat_mapping_slots ctx [("import", Value.str a), ("require", Value.str b)] mType
    (by intro p hp; simp at hp; rcases hp with h | h <;> exact ⟨_, by rw [h]⟩)
    (by simp [OrderedMap.keys]) (by rw [hu]; intro n hn; simp at hn) (fun _ => rfl)
    (by unfold visitsRuntime; rw [if_pos hb]; rfl)
  obtain ⟨h1, h2, h3⟩ := h
  have e1 : (ctx.resolveConditionExportEntry
      [("import", Value.str a), ("require", Value.str b)] mType).esm = a := by
    rw [h1]
    rcases entryKeyOf_cases mType with hk | hk | hk <;>
      by_cases ha : a = "" <;> simp [firstValue, hk, ha]
  have e2 : (ctx.resolveConditionExportEntry
      [("import", Value.str a), ("require", Value.str b)] mType).cjs = b := by
    rw [h2]
    rcases entryKeyOf_cases mType with hk | hk | hk <;>
      by_cases hb' : b = "" <;> simp [firstValue, hk, hb']
  have e3 : (ctx.resolveConditionExportEntry
      [("import", Value.str a), ("require", Value.str b)] mType).dts = "" := by
    rw [h3]
    rcases entryKeyOf_cases mType with hk | hk | hk <;> simp [firstValue, hk]
  cases hr : ctx.resolveConditionExportEntry
      [("import", Value.str a), ("require", Value.str b)] mType with
  | mk x y z =>
    rw [hr] at e1 e2 e3
    simp only at e1 e2 e3
    rw [e1, e2, e3]

theorem hasEntry_empty (k : String) : ({} : BuildEntry).hasEntry k = false := by
  unfold BuildEntry.hasEntry
  split_ifs <;> simp

/-- C14: nested conditions are honoured: when the value of a condition is a
mapping and the target slot is empty, `resolve` first assigns the non-empty
`default` string of the mapping, if any, to the target slot, and then every
slot that is still empty takes its value from the evaluation of the whole
sub-mapping; so for a browser target without user conditions the mapping
`browser` with `import` `a` and `require` `b` yields esm `a` and cjs `b`. -/
theorem resolve_nested_conditions (ctx : BuildContext) (entry : BuildEntry) (mType : String)
    (om : OrderedMap) (entryType : String) (hempty : entry.hasEntry entryType = false) :
    ((entry.resolve ctx mType (Value.omap om) entryType).esm
      = (if (assignDefault entry om entryType).esm ≠ "" then
          (assignDefault entry om entryType).esm
        else (ctx.resolveConditionExportEntry om mType).esm) ∧
     (entry.resolve ctx mType (Value.omap om) entryType).cjs
      = (if (assignDefault entry om entryType).cjs ≠ "" then
          (assignDefault entry om entryType).cjs
        else (ctx.resolveConditionExportEntry om mType).cjs) ∧
     (entry.resolve ctx mType (Value.omap om) entryType).dts
      = (if (assignDefault entry om entryType).dts ≠ "" then
          (assignDefault entry om entryType).dts
        else (ctx.resolveConditionExportEntry om mType).dts)) ∧
    (∀ s, om.lookup "default" = some (Value.str s) → s ≠ "" →
      assignDefault entry om entryType = entry.updateEntry entryType s) ∧
    ((∀ s, s ≠ "" → om.lookup "default" ≠ some (Value.str s)) →
      assignDefault entry om entryType = entry) ∧
    (∀ a b : String, ctx.isBrowserTarget = true → ctx.args.conditions = [] →
      ctx.resolveConditionExportEntry (condsNested a b) mType = { esm := a, cjs := b }) := by
  refine ⟨resolve_omap_eq ctx entry mType om entryType hempty, ?_, ?_, ?_⟩
  · intro s hs hne
    simp [assignDefault, hs, hne]
  · intro h
    unfold assignDefault
    split
    · rename_i s hs
      by_cases hse : s = ""
      · simp [hse]
      · exact absurd hs (h s hse)
    · rfl
  · intro a b hb hu
    have hv : visits ctx (condsNested a b) mType
        = [⟨"browser", mType,
            Value.omap [("import", Value.str a), ("require", Value.str b)],
            entryKeyOf mType⟩] := by
      unfold visits visitsRuntime
      rw [hu, if_pos hb]
      by_cases hd : ctx.dev = true <;> simp [hd, visitOf, visitKey, condsNested,
        OrderedMap.Get, OrderedMap.keys, List.lookup, Value.isNil]
    rw [resolveConditionExportEntry_visits, hv]
    have h := resolve_omap_eq ctx {} mType
      [("import", Value.str a), ("require", Value.str b)] (entryKeyOf mType)
      (hasEntry_empty _)
    have hd : assignDefault {} [("import", Value.str a), ("require", Value.str b)]
        (entryKeyOf mType) = {} := rfl
    rw [hd, nested_inner ctx a b mType hb hu] at h
    simp only [runVisits, List.foldl_cons, List.foldl_nil]
    obtain ⟨h1, h2, h3⟩ := h
    cases hr : ({} : BuildEntry).resolve ctx mType
        (Value.omap [("import", Value.str a), ("require", Value.str b)]) (entryKeyOf mType) with
    | mk x y z =>
      rw [hr] at h1 h2 h3
      simp at h1 h2 h3
      rw [h1, h2, h3]

/-- Witness of C14: an entry whose cjs slot is empty takes the `default` of a
nested mapping for the cjs slot and the `import` of the mapping for esm. -/
theorem resolve_nested_conditions_witness :
    ({} : BuildEntry).resolve ctxBrowser "commonjs"
        (Value.omap [("import", Value.str "./i.mjs"), ("default", Value.str "./d.js")]) "cjs"
      = { esm := "./i.mjs", cjs := "./d.js" } ∧
    ctxBrowser.resolveConditionExportEntry (condsNested "./a.mjs" "./b.cjs") "commonjs"
      = { esm := "./a.mjs", cjs := "./b.cjs" } :=
  ⟨by decide,
   (resolve_nested_conditions ctxBrowser {} "commonjs" [] "cjs" rfl).2.2.2
     "./a.mjs" "./b.cjs" rfl rfl⟩

/-! ### Wildcard keys -/

theorem takeWhile_append_stop (p : Char → Bool) (a : List Char) (c : Char) (rest : List Char)
    (ha : ∀ x ∈ a, p x = true) (hc : p c = false) :
    (a ++ c :: rest).takeWhile p = a := by
  induction a with
  | nil => simp [List.takeWhile, hc]
  | cons x xs ih =>
    have hx : p x = true := ha x (by simp)
    have hrest := ih (fun y hy => ha y (by simp [hy]))
    simp [List.takeWhile_cons, hx, hrest]

theorem splitByLastByte_append (pre post : String) (c : Char) (hpost : c ∉ post.data) :
    splitByLastByte (pre ++ ⟨[c]⟩ ++ post) c = (pre, post) := by
  have hdata : (pre ++ ⟨[c]⟩ ++ post).data = pre.data ++ c :: post.data := by
    simp [String.data_append]
  have hmem : c ∈ (pre ++ ⟨[c]⟩ ++ post).data := by rw [hdata]; simp
  have hafter : ((pre.data ++ c :: post.data).reverse.takeWhile (fun x => x != c)).reverse
      = post.data := by
    have : (pre.data ++ c :: post.data).reverse = post.data.reverse ++ c :: pre.data.reverse := by
      simp
    rw [this, takeWhile_append_stop _ _ _ _ (by
      intro x hx
      have hx' : x ∈ post.data := List.mem_reverse.1 hx
      have : x ≠ c := fun h => hpost (h ▸ hx')
      simpa using this) (by simp)]
    simp
  unfold splitByLastByte
  rw [if_pos hmem]
  simp only [hdata, hafter]
  have hlen : (pre.data ++ c :: post.data).length - post.data.length - 1 = pre.data.length := by
    simp; omega
  rw [hlen]
  simp

theorem hasPrefix_split (s p : String) (h : hasPrefix s p = true) :
    p ++ ⟨s.data.drop p.data.length⟩ = s := by
  unfold hasPrefix at h
  obtain ⟨t, ht⟩ := List.isPrefixOf_iff_prefix.1 h
  apply String.ext
  simp [String.data_append, ← ht]

/-- C15 (amended): `matchAsteriskExports` reports a match iff the key contains
`*` and `./` followed by the sub-bare-name starts with the part of the key
before its last `*`; the diff is the remainder of that name after the prefix.
For a key with a single `*` this is the part before its first `*`. -/
theorem matchAsteriskExports_last_asterisk (pre post : String) (pkg : ESMPath)
    (hpost : '*' ∉ post.data) :
    matchAsteriskExports (pre ++ "*" ++ post) pkg
      = (if hasPrefix ("./" ++ pkg.SubBareName) pre = true then
          some ⟨("./" ++ pkg.SubBareName).data.drop pre.data.length⟩
        else none) ∧
    (hasPrefix ("./" ++ pkg.SubBareName) pre = true →
      pre ++ ⟨("./" ++ pkg.SubBareName).data.drop pre.data.length⟩
        = "./" ++ pkg.SubBareName) ∧
    (∀ key : String, '*' ∉ key.data → matchAsteriskExports key pkg = none) ∧
    ('*' ∉ pre.data → beforeFirst (pre ++ "*" ++ post) '*' = pre) := by
  refine ⟨?_, hasPrefix_split _ _, ?_, ?_⟩
  · have hsplit := splitByLastByte_append pre post '*' hpost
    have hmem : '*' ∈ (pre ++ "*" ++ post).data := by simp [String.data_append]
    unfold matchAsteriskExports
    rw [if_pos hmem]
    simp only []
    have hs : splitByLastByte (pre ++ "*" ++ post) '*' = (pre, post) := hsplit
    rw [hs]
    by_cases hp : hasPrefix ("./" ++ pkg.SubBareName) pre = true
    · simp [hp, trimPrefix]
    · simp [hp]
  · intro key hkey
    unfold matchAsteriskExports
    rw [if_neg hkey]
  · intro hpre
    unfold beforeFirst
    have hdata : (pre ++ "*" ++ post).data = pre.data ++ '*' :: post.data := by
      simp [String.data_append]
    rw [hdata, takeWhile_append_stop _ _ _ _ (by
      intro x hx
      have : x ≠ '*' := fun h => hpre (h ▸ hx)
      simpa using this) (by simp)]

/-- Witness of C15: the key `./lib/*.js` matches the sub-module `lib/x` with
the diff `x`. -/
theorem matchAsteriskExports_last_asterisk_witness :
    matchAsteriskExports "./lib/*.js" { SubBareName := "lib/x" } = some "x" :=
  ((matchAsteriskExports_last_asterisk "./lib/" ".js" { SubBareName := "lib/x" }
    (by decide)).1).trans (by decide)

/-- Counterexample to C15: for the key `./a/*/b/*` and the sub-module `a/x`
the name `./a/x` starts with the part of the key before its first `*`, yet no
match is reported; and for the sub-module `a/*/b/y` the diff is `y`, not the
remainder `*/b/y` after that part. -/
theorem matchAsteriskExports_not_first_asterisk :
    hasPrefix ("./" ++ "a/x") (beforeFirst "./a/*/b/*" '*') = true ∧
    matchAsteriskExports "./a/*/b/*" { SubBareName := "a/x" } = none ∧
    matchAsteriskExports "./a/*/b/*" { SubBareName := "a/*/b/y" } = some "y" ∧
    trimPrefix ("./" ++ "a/*/b/y") (beforeFirst "./a/*/b/*" '*') = "*/b/y" := by
  decide

/-! ### Wildcard values -/

theorem replaceAllAux_star (new cs : List Char) :
    replaceAllAux ['*'] new 0 cs = cs.flatMap (fun c => if c = '*' then new else [c]) := by
  induction cs with
  | nil => rfl
  | cons c cs ih =>
    by_cases hc : c = '*'
    · subst hc
      simp [replaceAllAux, List.isPrefixOf, ih]
    · have : (['*'].isPrefixOf (c :: cs)) = false := by
        simp [List.isPrefixOf, hc]
        exact fun h => hc h.symm
      simp [replaceAllAux, this, ih, hc]

theorem resloveAsteriskEntries_cons (diff : String) (e : String × Value)
    (rest : List (String × Value)) :
    resloveAsteriskEntries diff (e :: rest)
      = (match resloveAsteriskValue diff e.2 with
        | some v => (e.1, v) :: resloveAsteriskEntries diff rest
        | none => resloveAsteriskEntries diff rest) := by
  rw [resloveAsteriskEntries]

theorem resloveAsteriskValue_none (diff : String) (v : Value) (h : v.isPathValue = false) :
    resloveAsteriskValue diff v = none := by
  cases v <;> simp_all [Value.isPathValue, resloveAsteriskValue]

theorem resloveAsteriskValue_some (diff : String) (v : Value) (h : v.isPathValue = true) :
    ∃ w, resloveAsteriskValue diff v = some w ∧
      ((∃ s, v = Value.str s ∧ w = Value.str (replaceAll s "*" diff)) ∨
       (∃ m, v = Value.omap m ∧ w = Value.omap (resloveAsteriskPathMapping m diff))) := by
  cases v with
  | str s => exact ⟨_, by rw [resloveAsteriskValue], Or.inl ⟨s, rfl, rfl⟩⟩
  | omap m => exact ⟨_, by rw [resloveAsteriskValue]; rfl, Or.inr ⟨m, rfl, rfl⟩⟩
  | null => simp [Value.isPathValue] at h
  | obj o => simp [Value.isPathValue] at h
  | arr a => simp [Value.isPathValue] at h
  | other => simp [Value.isPathValue] at h

theorem resloveAsterisk_keys (diff : String) (om : List (String × Value)) :
    (resloveAsteriskEntries diff om).map Prod.fst
      = (om.filter (fun e => e.2.isPathValue)).map Prod.fst := by
  induction om with
  | nil => simp [resloveAsteriskEntries]
  | cons e rest ih =>
    rw [resloveAsteriskEntries_cons]
    cases hv : e.2.isPathValue
    · rw [resloveAsteriskValue_none diff e.2 hv]
      simp [List.filter_cons, hv, ih]
    · obtain ⟨w, hw, _⟩ := resloveAsteriskValue_some diff e.2 hv
      rw [hw]
      simp [List.filter_cons, hv, ih]

theorem resloveAsterisk_mem (diff : String) (om : List (String × Value)) (k : String)
    (w : Value) :
    (k, w) ∈ resloveAsteriskEntries diff om ↔
      ((∃ s, (k, Value.str s) ∈ om ∧ w = Value.str (replaceAll s "*" diff)) ∨
       (∃ m, (k, Value.omap m) ∈ om ∧ w = Value.omap (resloveAsteriskPathMapping m diff))) := by
  induction om with
  | nil => simp [resloveAsteriskEntries]
  | cons e rest ih =>
    rw [resloveAsteriskEntries_cons]
    obtain ⟨ek, ev⟩ := e
    cases hv : ev.isPathValue
    · rw [resloveAsteriskValue_none diff ev hv]
      simp only [ih, List.mem_cons, Prod.mk.injEq]
      constructor
      · rintro (⟨s, h, rfl⟩ | ⟨m, h, rfl⟩)
        · exact Or.inl ⟨s, Or.inr h, rfl⟩
        · exact Or.inr ⟨m, Or.inr h, rfl⟩
      · rintro (⟨s, (⟨_, h⟩ | h), rfl⟩ | ⟨m, (⟨_, h⟩ | h), rfl⟩)
        · rw [← h] at hv; simp [Value.isPathValue] at hv
        · exact Or.inl ⟨s, h, rfl⟩
        · rw [← h] at hv; simp [Value.isPathValue] at hv
        · exact Or.inr ⟨m, h, rfl⟩
    · obtain ⟨w', hw, hshape⟩ := resloveAsteriskValue_some diff ev hv
      rw [hw]
      simp only [ih, List.mem_cons, Prod.mk.injEq]
      constructor
      · rintro (⟨rfl, rfl⟩ | ⟨s, h, rfl⟩ | ⟨m, h, rfl⟩)
        · rcases hshape with ⟨s, rfl, rfl⟩ | ⟨m, rfl, rfl⟩
          · exact Or.inl ⟨s, Or.inl ⟨rfl, rfl⟩, rfl⟩
          · exact Or.inr ⟨m, Or.inl ⟨rfl, rfl⟩, rfl⟩
        · exact Or.inl ⟨s, Or.inr h, rfl⟩
        · exact Or.inr ⟨m, Or.inr h, rfl⟩
      · rintro (⟨s, (⟨rfl, h⟩ | h), rfl⟩ | ⟨m, (⟨rfl, h⟩ | h), rfl⟩)
        · subst h
          rw [resloveAsteriskValue] at hw
          exact Or.inl ⟨rfl, Option.some.inj hw⟩
        · exact Or.inr (Or.inl ⟨s, h, rfl⟩)
        · subst h
          rw [resloveAsteriskValue] at hw
          exact Or.inl ⟨rfl, Option.some.inj hw⟩
        · exact Or.inr (Or.inr ⟨m, h, rfl⟩)

/-- C16 (amended): `resloveAsteriskPathMapping(om, diff)` keeps, in order, the
keys whose value is a string or a mapping and drops every other key; it has
the same keys as `om` when every value is a string or a mapping. A string
value becomes the original with each `*` replaced by `diff`, a mapping value
is rewritten in the same way, and nothing else is in the result. With exports
`{ "./lib/*": "./src/*.js" }` and sub-path `lib/x`, `resolveEntry` yields
esm `./src/x.js`. -/
theorem resloveAsteriskPathMapping_keys_values (om : OrderedMap) (diff : String) :
    OrderedMap.keys (resloveAsteriskPathMapping om diff)
      = OrderedMap.keys (om.filter (fun e => e.2.isPathValue)) ∧
    ((∀ e ∈ om, e.2.isPathValue = true) →
      OrderedMap.keys (resloveAsteriskPathMapping om diff) = OrderedMap.keys om) ∧
    (∀ (k : String) (w : Value), (k, w) ∈ resloveAsteriskPathMapping om diff ↔
      ((∃ s, (k, Value.str s) ∈ om ∧ w = Value.str (replaceAll s "*" diff)) ∨
       (∃ m, (k, Value.omap m) ∈ om ∧
          w = Value.omap (resloveAsteriskPathMapping m diff)))) ∧
    (∀ s : String, (replaceAll s "*" diff).data
      = s.data.flatMap (fun c => if c = '*' then diff.data else [c])) ∧
    BuildContext.resolveEntry (sampleEnv ["/pkg/src/x.js"] []) ctxBar ctxBar.esmPath
      = { esm := "./src/x.js" } := by
  refine ⟨resloveAsterisk_keys diff om, ?_, resloveAsterisk_mem diff om, ?_, by decide⟩
  · intro hall
    have hf : om.filter (fun e => e.2.isPathValue) = om :=
      List.filter_eq_self.2 (fun e he => hall e he)
    have := resloveAsterisk_keys diff om
    rw [hf] at this
    exact this
  · intro s
    exact replaceAllAux_star diff.data s.data

/-- Counterexample to C16: the key `import`, whose value is a fallback array,
is not a key of the rewritten mapping. -/
theorem resloveAsteriskPathMapping_drops_array :
    OrderedMap.keys condsFallbackArray = ["import", "default"] ∧
    OrderedMap.keys (resloveAsteriskPathMapping condsFallbackArray "x") = ["default"] ∧
    OrderedMap.Get (resloveAsteriskPathMapping condsFallbackArray "x") "import"
      = Value.null :=
  ⟨by decide, by decide, rfl⟩

/-! ### Exact and wildcard keys -/

/-- C17 (refuted by the code): with a wildcard key whose value is a conditions
mapping before an exact key whose value is a string, both matching the
sub-module `lib/x`, the export entry keeps the dts slot that the wildcard key
filled, and `resolveEntry` returns it; with the exact key first the entry is
the one of the exact key alone. The two orders of the same keys give different
results. -/
theorem exact_key_keeps_wildcard_slots :
    subModuleExportsLoop (ctxExactWildcard exportsWildcardFirst)
        (ctxExactWildcard exportsWildcardFirst).esmPath exportsWildcardFirst
        (OrderedMap.keys exportsWildcardFirst) {}
      = { esm := "./x.js", dts := "./types/x.d.ts" } ∧
    subModuleExportsLoop (ctxExactWildcard exportsExactFirst)
        (ctxExactWildcard exportsExactFirst).esmPath exportsExactFirst
        (OrderedMap.keys exportsExactFirst) {}
      = { esm := "./x.js" } ∧
    (ctxExactWildcard exportsWildcardFirst).resolveEntry (sampleEnv filesExactWildcard [])
        (ctxExactWildcard exportsWildcardFirst).esmPath
      = { esm := "./x.js", dts := "./types/x.d.ts" } ∧
    (ctxExactWildcard exportsExactFirst).resolveEntry (sampleEnv filesExactWildcard [])
        (ctxExactWildcard exportsExactFirst).esmPath
      = { esm := "./x.js" } ∧
    OrderedMap.keys exportsExactFirst = (OrderedMap.keys exportsWildcardFirst).reverse := by
  decide

/-! ### Relative slots -/

theorem hasPrefix_dot_slash (s : String) (h : hasPrefix s "/" = true) :
    hasPrefix ("." ++ s) "./" = true := by
  unfold hasPrefix at *
  obtain ⟨t, ht⟩ := List.isPrefixOf_iff_prefix.1 h
  apply List.isPrefixOf_iff_prefix.2
  refine ⟨t, ?_⟩
  simp only [String.data_append]
  rw [← ht]
  rfl

theorem normalizeEntryPath_relative (env : Env)
    (hnorm : ∀ p, hasPrefix (env.normalizePathname p) "/" = true) (p : String) :
    hasPrefix (normalizeEntryPath env p) "./" = true :=
  hasPrefix_dot_slash _ (hnorm p)

theorem normalizeEntryPaths_relative (env : Env)
    (hnorm : ∀ p, hasPrefix (env.normalizePathname p) "/" = true) (entry : BuildEntry) :
    SlotsRelative (normalizeEntryPaths env entry) := by
  have hp := normalizeEntryPath_relative env hnorm
  unfold normalizeEntryPaths SlotsRelative
  by_cases h1 : entry.esm = "" <;> by_cases h2 : entry.cjs = "" <;>
    by_cases h3 : entry.dts = "" <;> simp [h1, h2, h3, hp]

theorem pathClean_rooted (p : String) : hasPrefix (pathClean ("/" ++ p)) "/" = true := by
  have hne : "/" ++ p ≠ "" := append_ne_empty_left "/" p (by decide)
  have hroot : hasPrefix ("/" ++ p) "/" = true := by
    unfold hasPrefix
    apply List.isPrefixOf_iff_prefix.2
    exact ⟨p.data, by simp [String.data_append]⟩
  unfold pathClean
  rw [if_neg hne]
  simp only [hroot, if_true]
  unfold hasPrefix
  apply List.isPrefixOf_iff_prefix.2
  exact ⟨_, by simp [String.data_append]; rfl⟩

/-- C18: when the path-name normalization of the environment returns rooted
path names, every non-empty slot of the entry returned by `resolveEntry`
begins with `./`, for every module path, manifest and file-existence oracle,
the early returns and the entries rewritten by `typesVersions` or the
`browser` field included. -/
theorem resolveEntry_slots_relative (env : Env) (ctx : BuildContext) (esm : ESMPath)
    (hnorm : ∀ p, hasPrefix (env.normalizePathname p) "/" = true) :
    SlotsRelative (ctx.resolveEntry env esm) := by
  have hp := normalizeEntryPath_relative env hnorm
  unfold BuildContext.resolveEntry
  by_cases h1 : esm.SubBareName ≠ "" ∧ endsWith esm.SubPath [".d.ts", ".d.mts", ".d.cts"] = true
  · rw [if_pos h1]
    exact ⟨fun h => absurd rfl h, fun h => absurd rfl h, fun _ => hp _⟩
  · rw [if_neg h1]
    by_cases h2 : esm.SubBareName ≠ ""
        ∧ endsWith esm.SubPath [".jsx", ".ts", ".tsx", ".mts", ".svelte", ".vue"] = true
    · rw [if_pos h2]
      exact ⟨fun _ => hp _, fun h => absurd rfl h, fun h => absurd rfl h⟩
    · rw [if_neg h2]
      exact normalizeEntryPaths_relative env hnorm _

/-- Witness of C18: a browser-target request for a package with seeds,
exports, `typesVersions` and a `browser` field. -/
theorem resolveEntry_slots_relative_witness :
    ctxAllFields.resolveEntry
        (sampleEnv ["/pkg/esm/index.mjs", "/pkg/lib/index.js", "/pkg/browser/index.js"] [])
        ctxAllFields.esmPath
      = { esm := "./esm/index.mjs", cjs := "./browser/index.js",
          dts := "./ts4/types/index.d.ts" } ∧
    SlotsRelative (ctxAllFields.resolveEntry
        (sampleEnv ["/pkg/esm/index.mjs", "/pkg/lib/index.js", "/pkg/browser/index.js"] [])
        ctxAllFields.esmPath) :=
  ⟨by decide,
   resolveEntry_slots_relative _ ctxAllFields ctxAllFields.esmPath
     (fun p => pathClean_rooted p)⟩

/-! ### Early returns -/

/-- C19: for a non-empty sub-bare-name, a sub-path ending in `.d.ts`, `.d.mts`
or `.d.cts` gives the entry whose only slot is dts, the normalized sub-path;
otherwise a sub-path ending in `.jsx`, `.ts`, `.tsx`, `.mts`, `.svelte` or
`.vue` gives the entry whose only slot is esm. The declaration check comes
first, and in both cases the result is the same for every build context and
every environment with the same path-name normalization. -/
theorem resolveEntry_early_returns (env : Env) (ctx : BuildContext) (esm : ESMPath)
    (hsub : esm.SubBareName ≠ "") :
    (endsWith esm.SubPath [".d.ts", ".d.mts", ".d.cts"] = true →
      ctx.resolveEntry env esm = { dts := normalizeEntryPath env esm.SubPath }) ∧
    (endsWith esm.SubPath [".d.ts", ".d.mts", ".d.cts"] = false →
      endsWith esm.SubPath [".jsx", ".ts", ".tsx", ".mts", ".svelte", ".vue"] = true →
      ctx.resolveEntry env esm = { esm := normalizeEntryPath env esm.SubPath }) ∧
    ((endsWith esm.SubPath [".d.ts", ".d.mts", ".d.cts"] = true ∨
      endsWith esm.SubPath [".jsx", ".ts", ".tsx", ".mts", ".svelte", ".vue"] = true) →
      ∀ (env2 : Env) (ctx2 : BuildContext),
        env2.normalizePathname = env.normalizePathname →
        ctx2.resolveEntry env2 esm = ctx.resolveEntry env esm) := by
  have hdecl : ∀ (e : Env) (c : BuildContext),
      endsWith esm.SubPath [".d.ts", ".d.mts", ".d.cts"] = true →
      c.resolveEntry e esm = { dts := normalizeEntryPath e esm.SubPath } := by
    intro e c h
    unfold BuildContext.resolveEntry
    rw [if_pos ⟨hsub, h⟩]
  have hsrc : ∀ (e : Env) (c : BuildContext),
      endsWith esm.SubPath [".d.ts", ".d.mts", ".d.cts"] = false →
      endsWith esm.SubPath [".jsx", ".ts", ".tsx", ".mts", ".svelte", ".vue"] = true →
      c.resolveEntry e esm = { esm := normalizeEntryPath e esm.SubPath } := by
    intro e c h1 h2
    unfold BuildContext.resolveEntry
    rw [if_neg (by simp [h1]), if_pos ⟨hsub, h2⟩]
  refine ⟨hdecl env ctx, hsrc env ctx, ?_⟩
  intro h env2 ctx2 henv
  have hn : ∀ p, normalizeEntryPath env2 p = normalizeEntryPath env p := by
    intro p; unfold normalizeEntryPath; rw [henv]
  cases hd : endsWith esm.SubPath [".d.ts", ".d.mts", ".d.cts"]
  · have hs : endsWith esm.SubPath [".jsx", ".ts", ".tsx", ".mts", ".svelte", ".vue"] = true := by
      rcases h with h | h
      · rw [hd] at h; cases h
      · exact h
    rw [hsrc env2 ctx2 hd hs, hsrc env ctx hd hs, hn]
  · rw [hdecl env2 ctx2 hd, hdecl env ctx hd, hn]

/-- Witness of C19: the sub-path `x.d.ts` also ends in `.ts`, and the entry
has only the dts slot, whatever the manifest and the files. -/
theorem resolveEntry_early_returns_witness :
    endsWith "x.d.ts" [".jsx", ".ts", ".tsx", ".mts", ".svelte", ".vue"] = true ∧
    ctxAllFields.resolveEntry (sampleEnv ["/pkg/x.d.ts", "/pkg/lib/index.js"] [])
        (subPathOf "x.d.ts") = { dts := "./x.d.ts" } ∧
    ctxAllFields.resolveEntry (sampleEnv [] []) (subPathOf "src/App.vue")
      = { esm := "./src/App.vue" } :=
  ⟨by decide,
   ((resolveEntry_early_returns (sampleEnv ["/pkg/x.d.ts", "/pkg/lib/index.js"] [])
      ctxAllFields (subPathOf "x.d.ts") (by decide)).1 (by decide)).trans (by decide),
   ((resolveEntry_early_returns (sampleEnv [] []) ctxAllFields (subPathOf "src/App.vue")
      (by decide)).2.1 (by decide) (by decide)).trans (by decide)⟩

/-! ### The root module -/

theorem applyExportEntry_slots (env : Env) (ctx : BuildContext) (entry exportEntry : BuildEntry) :
    (applyExportEntry env ctx entry exportEntry).esm
      = (if (normalizeBuildEntry env ctx exportEntry).esm ≠ ""
            ∧ ctx.existsPkgFile env [(normalizeBuildEntry env ctx exportEntry).esm] = true
         then (normalizeBuildEntry env ctx exportEntry).esm else entry.esm) ∧
    (applyExportEntry env ctx entry exportEntry).cjs
      = (if (normalizeBuildEntry env ctx exportEntry).cjs ≠ ""
            ∧ ctx.existsPkgFile env [(normalizeBuildEntry env ctx exportEntry).cjs] = true
         then (normalizeBuildEntry env ctx exportEntry).cjs else entry.cjs) ∧
    (applyExportEntry env ctx entry exportEntry).dts
      = (if (normalizeBuildEntry env ctx exportEntry).dts ≠ ""
            ∧ ctx.existsPkgFile env [(normalizeBuildEntry env ctx exportEntry).dts] = true
         then (normalizeBuildEntry env ctx exportEntry).dts else entry.dts) := by
  unfold applyExportEntry
  generalize normalizeBuildEntry env ctx exportEntry = n
  by_cases h1 : n.esm = "" <;> by_cases h2 : n.cjs = "" <;> by_cases h3 : n.dts = "" <;>
    cases e1 : ctx.existsPkgFile env [n.esm] <;>
    cases e2 : ctx.existsPkgFile env [n.cjs] <;>
    cases e3 : ctx.existsPkgFile env [n.dts] <;>
    simp [h1, h2, h3, e1, e2, e3]

theorem rootExportEntry_str (ctx : BuildContext) (s : String)
    (h : ctx.packageJson.Exports = Value.str s) :
    rootExportEntry ctx
      = if ctx.packageJson.Type' = "module" then { esm := s } else { cjs := s } := by
  unfold rootExportEntry
  rw [h]

theorem rootExportEntry_dot_str (ctx : BuildContext) (om : OrderedMap) (s : String)
    (h : ctx.packageJson.Exports = Value.omap om) (hdot : om.lookup "." = some (Value.str s)) :
    rootExportEntry ctx
      = if ctx.packageJson.Type' = "module" then { esm := s } else { cjs := s } := by
  unfold rootExportEntry
  rw [h]
  simp only [hdot]

theorem rootExportEntry_dot_omap (ctx : BuildContext) (om om' : OrderedMap)
    (h : ctx.packageJson.Exports = Value.omap om)
    (hdot : om.lookup "." = some (Value.omap om')) :
    rootExportEntry ctx = ctx.resolveConditionExportEntry om' ctx.packageJson.Type' := by
  unfold rootExportEntry
  rw [h]
  simp only [hdot]

theorem rootExportEntry_conditions (ctx : BuildContext) (om : OrderedMap)
    (h : ctx.packageJson.Exports = Value.omap om) (hdot : om.lookup "." = none) :
    rootExportEntry ctx = ctx.resolveConditionExportEntry om ctx.packageJson.Type' := by
  unfold rootExportEntry
  rw [h]
  simp only [hdot]

/-- C20: for the root module the entry is seeded with esm from `module`, cjs
from `main` and dts from `types` (`typings` when `types` is empty); a slot of
the normalized export entry replaces the seed exactly when it is non-empty and
names an existing file; probing, `typesVersions`, the `browser` field and the
final normalization follow. The export entry is the string of `exports` or of
`exports["."]` in the slot of the package type, or the evaluation of the
conditions `exports["."]`, or of `exports` itself when it has no key `.`. With
the seeds `./seed.mjs`, `./seed.cjs`, `./seed.d.ts` and the three conditions
for `import`, `require` and `types`, every slot whose export file exists is
replaced and every other slot keeps its seed. For `left-pad@1.3.0` with only
main `./index.js`, an existing file that is not an ES module and target
`es2022`, the entry is cjs `./index.js` alone and `Path` is
`/left-pad@1.3.0/es2022/left-pad.mjs`. -/
theorem resolveEntry_root_seeds (env : Env) (ctx : BuildContext) (esm : ESMPath)
    (hroot : esm.SubBareName = "") :
    ctx.resolveEntry env esm
      = normalizeBuildEntry env ctx (applyBrowserField env ctx esm (applyTypesVersions env ctx
          (probeRootModule env ctx
            (if ctx.packageJson.Exports.isNil = true then
              { esm := ctx.packageJson.Module, cjs := ctx.packageJson.Main,
                dts := if ctx.packageJson.Types = "" then ctx.packageJson.Typings
                       else ctx.packageJson.Types }
             else
              applyExportEntry env ctx
                { esm := ctx.packageJson.Module, cjs := ctx.packageJson.Main,
                  dts := if ctx.packageJson.Types = "" then ctx.packageJson.Typings
                         else ctx.packageJson.Types }
                (rootExportEntry ctx))))) ∧
    (∀ entry exportEntry : BuildEntry,
      (applyExportEntry env ctx entry exportEntry).esm
        = (if (normalizeBuildEntry env ctx exportEntry).esm ≠ ""
              ∧ ctx.existsPkgFile env [(normalizeBuildEntry env ctx exportEntry).esm] = true
           then (normalizeBuildEntry env ctx exportEntry).esm else entry.esm) ∧
      (applyExportEntry env ctx entry exportEntry).cjs
        = (if (normalizeBuildEntry env ctx exportEntry).cjs ≠ ""
              ∧ ctx.existsPkgFile env [(normalizeBuildEntry env ctx exportEntry).cjs] = true
           then (normalizeBuildEntry env ctx exportEntry).cjs else entry.cjs) ∧
      (applyExportEntry env ctx entry exportEntry).dts
        = (if (normalizeBuildEntry env ctx exportEntry).dts ≠ ""
              ∧ ctx.existsPkgFile env [(normalizeBuildEntry env ctx exportEntry).dts] = true
           then (normalizeBuildEntry env ctx exportEntry).dts else entry.dts)) ∧
    ctxLeftPad.resolveEntry (sampleEnv ["/pkg/index.js"] []) ctxLeftPad.esmPath
      = { cjs := "./index.js" } ∧
    (ctxLeftPad.Path (sampleEnv ["/pkg/index.js"] [])).1
      = "/left-pad@1.3.0/es2022/left-pad.mjs" ∧
    (∀ s, ctx.packageJson.Exports = Value.str s →
      rootExportEntry ctx
        = if ctx.packageJson.Type' = "module" then { esm := s } else { cjs := s }) ∧
    (∀ (om : OrderedMap) (s : String), ctx.packageJson.Exports = Value.omap om →
      om.lookup "." = some (Value.str s) →
      rootExportEntry ctx
        = if ctx.packageJson.Type' = "module" then { esm := s } else { cjs := s }) ∧
    (∀ om om' : OrderedMap, ctx.packageJson.Exports = Value.omap om →
      om.lookup "." = some (Value.omap om') →
      rootExportEntry ctx = ctx.resolveConditionExportEntry om' ctx.packageJson.Type') ∧
    (∀ om : OrderedMap, ctx.packageJson.Exports = Value.omap om → om.lookup "." = none →
      rootExportEntry ctx = ctx.resolveConditionExportEntry om ctx.packageJson.Type') ∧
    (ctxRootExports (Value.omap [(".", Value.omap condsImportRequireTypes)]) "").resolveEntry
        (sampleEnv ["/pkg/seed.mjs", "/pkg/seed.cjs", "/pkg/seed.d.ts", "/pkg/esm/index.mjs",
          "/pkg/cjs/index.cjs", "/pkg/types/index.d.ts"] ["/pkg/esm/index.mjs", "/pkg/seed.mjs"])
        { PkgName := "pkg", PkgVersion := "1.0.0" }
      = { esm := "./esm/index.mjs", cjs := "./cjs/index.cjs", dts := "./types/index.d.ts" } ∧
    (ctxRootExports (Value.omap [(".", Value.omap condsImportRequireTypes)]) "").resolveEntry
        (sampleEnv ["/pkg/seed.mjs", "/pkg/seed.cjs", "/pkg/seed.d.ts"] ["/pkg/seed.mjs"])
        { PkgName := "pkg", PkgVersion := "1.0.0" }
      = { esm := "./seed.mjs", cjs := "./seed.cjs", dts := "./seed.d.ts" } ∧
    (ctxRootExports (Value.omap [(".", Value.omap condsImportRequireTypes)]) "").resolveEntry
        (sampleEnv ["/pkg/seed.mjs", "/pkg/seed.cjs", "/pkg/seed.d.ts", "/pkg/esm/index.mjs"]
          ["/pkg/seed.mjs", "/pkg/esm/index.mjs"])
        { PkgName := "pkg", PkgVersion := "1.0.0" }
      = { esm := "./esm/index.mjs", cjs := "./seed.cjs", dts := "./seed.d.ts" } ∧
    (ctxRootExports (Value.omap condsImportRequireTypes) "").resolveEntry
        (sampleEnv ["/pkg/seed.mjs", "/pkg/seed.cjs", "/pkg/seed.d.ts", "/pkg/cjs/index.cjs"] [])
        { PkgName := "pkg", PkgVersion := "1.0.0" }
      = { esm := "./seed.mjs", cjs := "./cjs/index.cjs", dts := "./seed.d.ts" } ∧
    (ctxRootExports (Value.str "./main.mjs") "module").resolveEntry
        (sampleEnv ["/pkg/seed.mjs", "/pkg/seed.cjs", "/pkg/main.mjs"] [])
        { PkgName := "pkg", PkgVersion := "1.0.0" }
      = { esm := "./main.mjs", cjs := "./seed.cjs", dts := "./seed.d.ts" } ∧
    (ctxRootExports (Value.omap [(".", Value.str "./main.cjs")]) "").resolveEntry
        (sampleEnv ["/pkg/seed.mjs", "/pkg/seed.cjs", "/pkg/main.cjs"] [])
        { PkgName := "pkg", PkgVersion := "1.0.0" }
      = { esm := "./seed.mjs", cjs := "./main.cjs", dts := "./seed.d.ts" } := by
  refine ⟨?_, applyExportEntry_slots env ctx, by decide, by decide,
    rootExportEntry_str ctx, rootExportEntry_dot_str ctx, rootExportEntry_dot_omap ctx,
    rootExportEntry_conditions ctx, by decide, by decide, by decide, by decide, by decide,
    by decide⟩
  have hseed : (if ctx.packageJson.Types = "" ∧ ctx.packageJson.Typings ≠ "" then
        ({ esm := ctx.packageJson.Module, cjs := ctx.packageJson.Main,
           dts := ctx.packageJson.Typings } : BuildEntry)
      else { esm := ctx.packageJson.Module, cjs := ctx.packageJson.Main,
             dts := ctx.packageJson.Types })
      = { esm := ctx.packageJson.Module, cjs := ctx.packageJson.Main,
          dts := if ctx.packageJson.Types = "" then ctx.packageJson.Typings
                 else ctx.packageJson.Types } := by
    by_cases ht : ctx.packageJson.Types = ""
    · by_cases hy : ctx.packageJson.Typings = ""
      · simp [ht, hy]
      · simp [ht, hy]
    · simp [ht]
  unfold BuildContext.resolveEntry
  rw [if_neg (fun h => h.1 hroot), if_neg (fun h => h.1 hroot)]
  simp only []
  unfold resolveModuleFiles
  rw [if_neg (fun h => h hroot)]
  unfold resolveRootModule
  simp only []
  rw [hseed]
  cases hnil : ctx.packageJson.Exports.isNil <;> simp

/-- Witness of C20: the root module of `left-pad@1.3.0`, whose `main` names a
file that does not exist, keeps the seed; with conditional exports where the
files of `import` and `types` exist and the file of `require` does not, the
esm and dts slots come from `exports` and the cjs slot keeps the seed. -/
theorem resolveEntry_root_seeds_witness :
    ctxLeftPad.esmPath.SubBareName = "" ∧
    ctxLeftPad.resolveEntry (sampleEnv [] []) ctxLeftPad.esmPath = { cjs := "./index.js" } ∧
    (ctxRootExports (Value.omap [(".", Value.omap condsImportRequireTypes)]) "").resolveEntry
        (sampleEnv ["/pkg/seed.cjs", "/pkg/esm/index.mjs", "/pkg/types/index.d.ts"] [])
        { PkgName := "pkg", PkgVersion := "1.0.0" }
      = { esm := "./esm/index.mjs", cjs := "./seed.cjs", dts := "./types/index.d.ts" } :=
  ⟨rfl,
   ((resolveEntry_root_seeds (sampleEnv [] []) ctxLeftPad ctxLeftPad.esmPath rfl).1).trans
     (by decide),
   ((resolveEntry_root_seeds
      (sampleEnv ["/pkg/seed.cjs", "/pkg/esm/index.mjs", "/pkg/types/index.d.ts"] [])
      (ctxRootExports (Value.omap [(".", Value.omap condsImportRequireTypes)]) "")
      { PkgName := "pkg", PkgVersion := "1.0.0" } rfl).1).trans (by decide)⟩

/-! ### The range of `typesVersions` -/

theorem charsLe_refl (a : List Char) : charsLe a a = true := by
  induction a with
  | nil => rfl
  | cons x xs ih => simp [charsLe, ih]

theorem charsLe_total (a b : List Char) : charsLe a b = true ∨ charsLe b a = true := by
  induction a generalizing b with
  | nil => left; cases b <;> rfl
  | cons x xs ih =>
    cases b with
    | nil => right; rfl
    | cons y ys =>
      by_cases h1 : x.toNat < y.toNat
      · left; simp [charsLe, h1]
      · by_cases h2 : y.toNat < x.toNat
        · right; simp [charsLe, h2]
        · rcases ih ys with h | h
          · left; simp [charsLe, h1, h2, h]
          · right; simp [charsLe, h1, h2, h]

theorem charsLe_trans (a b c : List Char) (hab : charsLe a b = true) (hbc : charsLe b c = true) :
    charsLe a c = true := by
  induction a generalizing b c with
  | nil => cases c <;> rfl
  | cons x xs ih =>
    cases b with
    | nil => simp [charsLe] at hab
    | cons y ys =>
      cases c with
      | nil => simp [charsLe] at hbc
      | cons z zs =>
        simp only [charsLe] at hab hbc ⊢
        by_cases h1 : x.toNat < y.toNat
        · by_cases h2 : y.toNat < z.toNat
          · have : x.toNat < z.toNat := by omega
            simp [this]
          · by_cases h3 : z.toNat < y.toNat
            · simp [h2, h3] at hbc
            · have : x.toNat < z.toNat := by omega
              simp [this]
        · by_cases h1b : y.toNat < x.toNat
          · simp [h1, h1b] at hab
          · simp only [h1, h1b, if_false] at hab
            by_cases h2 : y.toNat < z.toNat
            · have : x.toNat < z.toNat := by omega
              simp [this]
            · by_cases h3 : z.toNat < y.toNat
              · simp [h2, h3] at hbc
              · simp only [h2, h3, if_false] at hbc
                have e1 : ¬ x.toNat < z.toNat := by omega
                have e2 : ¬ z.toNat < x.toNat := by omega
                simp only [e1, e2, if_false]
                exact ih ys zs hab hbc

theorem mem_insertSorted (s x : String) (t : List String) :
    x ∈ insertSorted s t ↔ x = s ∨ x ∈ t := by
  induction t with
  | nil => simp [insertSorted]
  | cons y ys ih =>
    unfold insertSorted
    by_cases h : charsLe s.data y.data = true
    · simp [h]
    · rw [if_neg h, List.mem_cons, ih, List.mem_cons]
      tauto

theorem mem_sortStrings (x : String) (l : List String) : x ∈ sortStrings l ↔ x ∈ l := by
  induction l with
  | nil => simp [sortStrings]
  | cons y ys ih =>
    have : sortStrings (y :: ys) = insertSorted y (sortStrings ys) := rfl
    rw [this, mem_insertSorted, ih]
    simp

theorem insertSorted_pairwise (s : String) (t : List String)
    (ht : t.Pairwise (fun a b => charsLe a.data b.data = true)) :
    (insertSorted s t).Pairwise (fun a b => charsLe a.data b.data = true) := by
  induction t with
  | nil => simp [insertSorted]
  | cons y ys ih =>
    have hy := List.pairwise_cons.1 ht
    unfold insertSorted
    by_cases h : charsLe s.data y.data = true
    · rw [if_pos h]
      refine List.pairwise_cons.2 ⟨?_, ht⟩
      intro b hb
      rcases List.mem_cons.1 hb with rfl | hb
      · exact h
      · exact charsLe_trans _ _ _ h (hy.1 b hb)
    · rw [if_neg h]
      refine List.pairwise_cons.2 ⟨?_, ih hy.2⟩
      intro b hb
      rcases (mem_insertSorted s b ys).1 hb with rfl | hb
      · rcases charsLe_total b.data y.data with h2 | h2
        · exact absurd h2 h
        · exact h2
      · exact hy.1 b hb

theorem sortStrings_pairwise (l : List String) :
    (sortStrings l).Pairwise (fun a b => charsLe a.data b.data = true) := by
  induction l with
  | nil => simp [sortStrings]
  | cons y ys ih => exact insertSorted_pairwise y _ ih

theorem getLast_of_pairwise (t : List String) (m : String)
    (ht : t.Pairwise (fun a b => charsLe a.data b.data = true))
    (hm : t.getLast? = some m) : m ∈ t ∧ ∀ k ∈ t, charsLe k.data m.data = true := by
  induction t with
  | nil => simp at hm
  | cons y ys ih =>
    have hy := List.pairwise_cons.1 ht
    cases ys with
    | nil =>
      simp at hm
      subst hm
      simp [charsLe_refl]
    | cons z zs =>
      have hm2 : (z :: zs).getLast? = some m := by
        simpa [List.getLast?_cons_cons] using hm
      obtain ⟨hmem, hall⟩ := ih hy.2 hm2
      refine ⟨List.mem_cons_of_mem _ hmem, ?_⟩
      intro k hk
      rcases List.mem_cons.1 hk with rfl | hk
      · exact hy.1 m hmem
      · exact hall k hk

theorem sortStrings_last (l : List String) (hl : l ≠ []) :
    ∃ m, (sortStrings l).getLast? = some m ∧ m ∈ l ∧ ∀ k ∈ l, charsLe k.data m.data = true := by
  have hne : sortStrings l ≠ [] := by
    intro h
    cases l with
    | nil => exact hl rfl
    | cons y ys =>
      have : y ∈ sortStrings (y :: ys) := (mem_sortStrings y _).2 (by simp)
      rw [h] at this
      simp at this
  obtain ⟨m, hm⟩ : ∃ m, (sortStrings l).getLast? = some m := by
    cases hs : (sortStrings l).getLast? with
    | none => exact absurd (List.getLast?_eq_none_iff.1 hs) hne
    | some m => exact ⟨m, rfl⟩
  obtain ⟨hmem, hall⟩ := getLast_of_pairwise _ m (sortStrings_pairwise l) hm
  exact ⟨m, hm, (mem_sortStrings m l).1 hmem,
    fun k hk => hall k ((mem_sortStrings k l).2 hk)⟩

theorem lookup_of_mem_keys (tv : List (String × Value)) (k : String)
    (hk : k ∈ tv.map Prod.fst) : ∃ v, tv.lookup k = some v := by
  induction tv with
  | nil => simp at hk
  | cons e rest ih =>
    obtain ⟨ek, ev⟩ := e
    by_cases h : k = ek
    · subst h
      exact ⟨ev, by simp [List.lookup]⟩
    · have hk2 : k ∈ rest.map Prod.fst := by
        simp only [List.map_cons, List.mem_cons] at hk
        rcases hk with hk | hk
        · exact absurd hk h
        · exact hk
      obtain ⟨v, hv⟩ := ih hk2
      refine ⟨v, ?_⟩
      have hne : (k == ek) = false := by simpa using h
      simp [List.lookup, hne, hv]

theorem applyTypesVersions_range (env : Env) (ctx : BuildContext) (entry : BuildEntry)
    (m : String) (v : Value) (hm : hasPrefix m ">" = true)
    (hlast : (sortStrings ((ctx.packageJson.TypesVersions.map Prod.fst).filter
      (fun c => hasPrefix c ">"))).getLast? = some m)
    (hv : ctx.packageJson.TypesVersions.lookup m = some v) :
    applyTypesVersions env ctx entry
      = applyTypesVersions env (withTypesVersions ctx [(m, v)]) entry := by
  have hlen : ctx.packageJson.TypesVersions.length > 0 := by
    cases htv : ctx.packageJson.TypesVersions with
    | nil => rw [htv] at hv; simp [List.lookup] at hv
    | cons e rest => simp
  have hsingle : sortStrings (([(m, v)].map Prod.fst).filter (fun c => hasPrefix c ">"))
      = [m] := by
    simp [List.filter_cons, hm, sortStrings, insertSorted]
  unfold applyTypesVersions withTypesVersions
  simp only [hsingle, hlast, hv, List.getLast?_singleton]
  by_cases hd : entry.dts = ""
  · simp [hd]
  · have h1 : ctx.packageJson.TypesVersions.length > 0 ∧ entry.dts ≠ "" := ⟨hlen, hd⟩
    have h2 : ([(m, v)] : List (String × Value)).length > 0 ∧ entry.dts ≠ "" :=
      ⟨by simp, hd⟩
    rw [if_pos h1, if_pos h2]
    simp [List.lookup]

theorem applyTypesVersions_no_range (env : Env) (ctx : BuildContext) (entry : BuildEntry)
    (h : ∀ k ∈ ctx.packageJson.TypesVersions.map Prod.fst, hasPrefix k ">" = false) :
    applyTypesVersions env ctx entry = entry := by
  have hf : (ctx.packageJson.TypesVersions.map Prod.fst).filter (fun c => hasPrefix c ">")
      = [] := by
    apply List.filter_eq_nil_iff.2
    intro k hk
    simp [h k hk]
  unfold applyTypesVersions
  simp only [hf]
  by_cases hc : ctx.packageJson.TypesVersions.length > 0 ∧ entry.dts ≠ ""
  · rw [if_pos hc]; rfl
  · rw [if_neg hc]

/-- C21: the `typesVersions` remapping uses the range whose key is the greatest,
in the byte-wise lexicographic order, of the keys that begin with `>` (the
last of the ascending sort, so `>9.0` is chosen over `>10.0`): the result is
the one for a manifest with that range alone. With the single range `>=4.0`
mapping `*` to `ts4.0/*` the dts `./index.d.ts` becomes `./ts4.0/index.d.ts`,
and when no key begins with `>` the entry is unchanged. -/
theorem typesVersions_range_selection (env : Env) (ctx : BuildContext) (entry : BuildEntry) :
    ((∀ k ∈ ctx.packageJson.TypesVersions.map Prod.fst, hasPrefix k ">" = false) →
      applyTypesVersions env ctx entry = entry) ∧
    ((∃ k ∈ ctx.packageJson.TypesVersions.map Prod.fst, hasPrefix k ">" = true) →
      ∃ (latest : String) (v : Value),
        latest ∈ ctx.packageJson.TypesVersions.map Prod.fst ∧
        hasPrefix latest ">" = true ∧
        (∀ k ∈ ctx.packageJson.TypesVersions.map Prod.fst, hasPrefix k ">" = true →
          charsLe k.data latest.data = true) ∧
        (sortStrings ((ctx.packageJson.TypesVersions.map Prod.fst).filter
          (fun c => hasPrefix c ">"))).getLast? = some latest ∧
        ctx.packageJson.TypesVersions.lookup latest = some v ∧
        applyTypesVersions env ctx entry
          = applyTypesVersions env (withTypesVersions ctx [(latest, v)]) entry) ∧
    sortStrings [">9.0", ">10.0"] = [">10.0", ">9.0"] ∧
    applyTypesVersions (sampleEnv [] []) (withTypesVersions ctxTypesNode rangesNineTen)
        { dts := "./index.d.ts" } = { dts := "./ts9/index.d.ts" } ∧
    applyTypesVersions (sampleEnv [] []) (withTypesVersions ctxTypesNode rangesNineTen.reverse)
        { dts := "./index.d.ts" } = { dts := "./ts9/index.d.ts" } ∧
    applyTypesVersions (sampleEnv [] []) ctxTypesNode { dts := "./index.d.ts" }
      = { dts := "./ts4.0/index.d.ts" } ∧
    ctxTypesNode.resolveEntry (sampleEnv ["/pkg/index.d.ts"] []) ctxTypesNode.esmPath
      = { dts := "./ts4.0/index.d.ts" } := by
  refine ⟨applyTypesVersions_no_range env ctx entry, ?_, by decide, by decide, by decide,
    by decide, by decide⟩
  rintro ⟨k0, hk0, hp0⟩
  have hne : (ctx.packageJson.TypesVersions.map Prod.fst).filter (fun c => hasPrefix c ">")
      ≠ [] := by
    intro h
    have : k0 ∈ (ctx.packageJson.TypesVersions.map Prod.fst).filter
        (fun c => hasPrefix c ">") := List.mem_filter.2 ⟨hk0, hp0⟩
    rw [h] at this
    simp at this
  obtain ⟨m, hlast, hmem, hmax⟩ := sortStrings_last _ hne
  obtain ⟨hmk, hmp⟩ := List.mem_filter.1 hmem
  obtain ⟨v, hv⟩ := lookup_of_mem_keys _ m hmk
  exact ⟨m, v, hmk, hmp, fun k hk hp => hmax k (List.mem_filter.2 ⟨hk, hp⟩), hlast, hv,
    applyTypesVersions_range env ctx entry m v hmp hlast hv⟩

/-! ### Matching inside a range -/

/-- C22 (refuted by the code): inside the range the dts is matched exactly,
with and without the leading `./`, then against the keys ending in `/*`, then
against `*`, and an exact match takes the normalized first path as it is. But
a key `lib/*` is tested with the prefix `./lib` and captured with the prefix
`./lib/`: the dts `./library/b.d.ts`, which is not under `./lib/`, matches the
key and the whole dts is appended to the part of the path before its `*`. -/
theorem typesVersions_wildcard_key_prefix :
    applyTypesVersions (sampleEnv [] []) (ctxTypesMapping "" mappingThreeKinds)
        { dts := "./lib/a.d.ts" } = { dts := "./exact/*/a.d.ts" } ∧
    applyTypesVersions (sampleEnv [] []) (ctxTypesMapping "" mappingThreeKinds)
        { dts := "lib/a.d.ts" } = { dts := "./exact/*/a.d.ts" } ∧
    applyTypesVersions (sampleEnv [] []) (ctxTypesMapping "" mappingThreeKinds)
        { dts := "./lib/sub/b.d.ts" } = { dts := "./x/sub/b.d.ts" } ∧
    applyTypesVersions (sampleEnv [] []) (ctxTypesMapping "" mappingThreeKinds)
        { dts := "./other/b.d.ts" } = { dts := "./all/other/b.d.ts" } ∧
    hasPrefix "./library/b.d.ts" "./lib/" = false ∧
    trimPrefix "./library/b.d.ts" "./lib" = "rary/b.d.ts" ∧
    applyTypesVersions (sampleEnv [] []) (ctxTypesMapping "" mappingThreeKinds)
        { dts := "./library/b.d.ts" } = { dts := "./x/./library/b.d.ts" } ∧
    (ctxTypesMapping "library/b.d.ts" mappingThreeKinds).resolveEntry
        (sampleEnv ["/pkg/library/b.d.ts"] []) { PkgName := "pkg", PkgVersion := "1.0.0" }
      = { dts := "./x/library/b.d.ts" } := by
  decide

/-! ### The `browser` field -/

/-- C23 (amended): for a browser target and the root module, when the key `.`
of the `browser` mapping has a relative-path value `m`, the esm slot becomes
`m` if `m` ends in `.mjs`; otherwise `m` becomes the cjs slot only when the
esm slot is empty after the path replacements, and the entry stays as it is
when the esm slot is filled. For a target that is not a browser target the
`browser` field changes no slot. -/
theorem browser_root_key (env : Env) (ctx : BuildContext) (esm : ESMPath) (entry : BuildEntry)
    (m : String) (hroot : esm.SubBareName = "")
    (hm : ctx.packageJson.Browser.lookup "." = some m)
    (hrel : env.isRelPathSpecifier m = true) :
    (ctx.isBrowserTarget = true →
      (hasSuffix m ".mjs" = true →
        applyBrowserField env ctx esm entry = { applyBrowserPaths env ctx entry with esm := m }) ∧
      (hasSuffix m ".mjs" = false → (applyBrowserPaths env ctx entry).esm = "" →
        applyBrowserField env ctx esm entry = { applyBrowserPaths env ctx entry with cjs := m }) ∧
      (hasSuffix m ".mjs" = false → (applyBrowserPaths env ctx entry).esm ≠ "" →
        applyBrowserField env ctx esm entry = applyBrowserPaths env ctx entry)) ∧
    (ctx.isBrowserTarget = false → applyBrowserField env ctx esm entry = entry) := by
  have hlen : ctx.packageJson.Browser.length > 0 := by
    cases hb : ctx.packageJson.Browser with
    | nil => rw [hb] at hm; simp [List.lookup] at hm
    | cons e rest => simp
  refine ⟨fun hbt => ?_, fun hnb => applyBrowserField_none env ctx esm entry (Or.inr hnb)⟩
  have heq := applyBrowserField_paths env ctx esm entry ⟨hlen, hbt⟩
  rw [if_pos hroot, hm] at heq
  simp only [hrel, if_true] at heq
  refine ⟨fun h => ?_, fun h he => ?_, fun h he => ?_⟩
  · rw [heq]; simp [h]
  · rw [heq]; simp [h, he]
  · rw [heq]; simp [h, he]

/-- Witness of C23: with an empty esm slot the value `./browser.js` of the
key `.` becomes the cjs slot. -/
theorem browser_root_key_witness :
    applyBrowserField (sampleEnv [] []) (ctxBrowserRoot "" "./browser.js" "es2022")
        { PkgName := "pkg", PkgVersion := "1.0.0" } { cjs := "./lib/index.js" }
      = { cjs := "./browser.js" } :=
  (((browser_root_key (sampleEnv [] []) (ctxBrowserRoot "" "./browser.js" "es2022")
      { PkgName := "pkg", PkgVersion := "1.0.0" } { cjs := "./lib/index.js" } "./browser.js"
      rfl rfl (by decide)).1 (by decide)).2.1 (by decide) (by decide)).trans (by decide)

/-- Counterexample to C23: with a filled esm slot the value `./browser.js` of
the key `.` does not supersede the cjs entry. -/
theorem browser_root_key_esm_filled :
    applyBrowserField (sampleEnv [] []) (ctxBrowserRoot "esm/index.mjs" "./browser.js" "es2022")
        { PkgName := "pkg", PkgVersion := "1.0.0" }
        { esm := "./esm/index.mjs", cjs := "./lib/index.js" }
      = { esm := "./esm/index.mjs", cjs := "./lib/index.js" } ∧
    (ctxBrowserRoot "esm/index.mjs" "./browser.js" "es2022").resolveEntry
        (sampleEnv ["/pkg/lib/index.js", "/pkg/esm/index.mjs", "/pkg/browser.js"] [])
        { PkgName := "pkg", PkgVersion := "1.0.0" }
      = { esm := "./esm/index.mjs", cjs := "./lib/index.js" } := by
  decide

/-! ### Completion of entries without a module extension -/

theorem pathJoin_dir_any (d a b : String) (ha : a ≠ "") (hb : b ≠ "") :
    pathJoin [d, a ++ "/" ++ b] = pathJoin [d, a, b] := by
  by_cases hd : d = ""
  · subst hd
    have hab : a ++ "/" ++ b ≠ "" := append_ne_empty_right _ _ hb
    have hj : join [a, b] "/" = a ++ "/" ++ b := by
      simp [join, joinChars, String.ext_iff, String.data_append]
    have hj1 : join [a ++ "/" ++ b] "/" = a ++ "/" ++ b := by
      simp [join, joinChars, String.ext_iff]
    unfold pathJoin
    simp [List.filter, ha, hb, hab, hj, hj1]
  · exact pathJoin_dir d a b hd hb

theorem exists_index (env : Env) (ctx : BuildContext) (p name sfx : String) (hp : p ≠ "")
    (hn : name ≠ "") (hs : sfx = "/" ++ name) :
    ctx.existsPkgFile env [p, name] = ctx.existsPkgFile env [p ++ sfx] := by
  have : p ++ sfx = p ++ "/" ++ name := by
    subst hs
    simp [String.ext_iff, String.data_append]
  unfold BuildContext.existsPkgFile
  rw [this, pathJoin_dir_any _ _ _ hp hn]

theorem normalizeEntryPath_ne (env : Env) (p : String) : normalizeEntryPath env p ≠ "" :=
  append_ne_empty_left _ _ (by decide)

theorem normalizeEsmEntry_completed (env : Env) (ctx : BuildContext) (entry : BuildEntry) :
    normalizeEsmEntry env ctx entry = { entry with esm := completedEsm env ctx entry } := by
  have hp := normalizeEntryPath_ne env entry.esm
  have e1 := exists_index env ctx (normalizeEntryPath env entry.esm) "index.mjs" "/index.mjs"
    hp (by decide) (by decide)
  have e2 := exists_index env ctx (normalizeEntryPath env entry.esm) "index.js" "/index.js"
    hp (by decide) (by decide)
  unfold normalizeEsmEntry completedEsm
  by_cases h0 : entry.esm = ""
  · cases entry
    simp_all
  · simp only [h0, ne_eq, not_false_eq_true, if_true, if_false, firstExisting, e1, e2]
    cases hE : endsWith (normalizeEntryPath env entry.esm) [".mjs", ".js"] <;>
      cases hA : ctx.existsPkgFile env [normalizeEntryPath env entry.esm ++ ".mjs"] <;>
      cases hB : ctx.existsPkgFile env [normalizeEntryPath env entry.esm ++ ".js"] <;>
      cases hC : ctx.existsPkgFile env [normalizeEntryPath env entry.esm ++ "/index.mjs"] <;>
      cases hD : ctx.existsPkgFile env [normalizeEntryPath env entry.esm ++ "/index.js"] <;>
      simp

theorem completeCjsEntry_completed (env : Env) (ctx : BuildContext) (entry : BuildEntry)
    (h0 : entry.cjs ≠ "") :
    completeCjsEntry env ctx entry = { entry with cjs := completedCjs env ctx entry } := by
  have hp := normalizeEntryPath_ne env entry.cjs
  have e1 := exists_index env ctx (normalizeEntryPath env entry.cjs) "index.cjs" "/index.cjs"
    hp (by decide) (by decide)
  have e2 := exists_index env ctx (normalizeEntryPath env entry.cjs) "index.js" "/index.js"
    hp (by decide) (by decide)
  unfold completeCjsEntry completedCjs
  simp only [h0, if_false, firstExisting, e1, e2]
  cases hE : endsWith (normalizeEntryPath env entry.cjs) [".cjs", ".js"] <;>
    cases hA : ctx.existsPkgFile env [normalizeEntryPath env entry.cjs ++ ".cjs"] <;>
    cases hB : ctx.existsPkgFile env [normalizeEntryPath env entry.cjs ++ ".js"] <;>
    cases hC : ctx.existsPkgFile env [normalizeEntryPath env entry.cjs ++ "/index.cjs"] <;>
    cases hD : ctx.existsPkgFile env [normalizeEntryPath env entry.cjs ++ "/index.js"] <;>
    simp

theorem normalizeBuildEntry_completed (env : Env) (ctx : BuildContext) (entry : BuildEntry) :
    normalizeBuildEntry env ctx entry
      = normalizeEntryPaths env
          (if cjsIsEsm env ctx entry = true then
            { esm := if completedEsm env ctx entry = "" then completedCjs env ctx entry
                     else completedEsm env ctx entry,
              cjs := "", dts := entry.dts }
           else
            { esm := completedEsm env ctx entry, cjs := completedCjs env ctx entry,
              dts := entry.dts }) := by
  have hdef : normalizeBuildEntry env ctx entry
      = normalizeEntryPaths env (normalizeCjsEntry env ctx (normalizeEsmEntry env ctx entry)) :=
    rfl
  rw [hdef, normalizeEsmEntry_completed]
  congr 1
  by_cases h0 : entry.cjs = ""
  · have hc : completedCjs env ctx entry = "" := by simp [completedCjs, h0]
    simp [normalizeCjsEntry, h0, cjsIsEsm, hc]
  · have h0b : ({ entry with esm := completedEsm env ctx entry } : BuildEntry).cjs ≠ "" := h0
    have hstep : normalizeCjsEntry env ctx { entry with esm := completedEsm env ctx entry }
        = promoteEsmEntry env ctx
            (completeCjsEntry env ctx { entry with esm := completedEsm env ctx entry }) := by
      unfold normalizeCjsEntry
      exact if_pos h0b
    rw [hstep, completeCjsEntry_completed _ _ _ h0b]
    have hcc : completedCjs env ctx { entry with esm := completedEsm env ctx entry }
        = completedCjs env ctx entry := rfl
    rw [hcc]
    unfold promoteEsmEntry cjsIsEsm
    cases hn : (completedCjs env ctx entry != "") <;>
      cases hs : hasSuffix (completedCjs env ctx entry) ".js" <;>
      cases hv : env.validateModuleFile (pathJoin [ctx.pkgDir, completedCjs env ctx entry]) <;>
      by_cases he : completedEsm env ctx entry = "" <;>
      simp_all

/-- C24: `normalizeBuildEntry` sets a non-empty esm slot with normalized path
`p` not ending in `.mjs` or `.js` to the first existing of `p.mjs`, `p.js`,
`p/index.mjs`, `p/index.js`, and leaves `p` when none exists; likewise a cjs
slot with `.cjs` in place of `.mjs`. When the completed cjs entry ends in
`.js` and the validator reports an ES module, the esm slot receives it only if
it is empty and the cjs slot is cleared in either case. Every non-empty slot
is normalized once more at the end. -/
theorem normalizeBuildEntry_probes (env : Env) (ctx : BuildContext) (entry : BuildEntry) :
    normalizeBuildEntry env ctx entry
      = normalizeEntryPaths env
          (if cjsIsEsm env ctx entry = true then
            { esm := if completedEsm env ctx entry = "" then completedCjs env ctx entry
                     else completedEsm env ctx entry,
              cjs := "", dts := entry.dts }
           else
            { esm := completedEsm env ctx entry, cjs := completedCjs env ctx entry,
              dts := entry.dts }) ∧
    normalizeBuildEntry (sampleEnv ["/pkg/lib/a/index.mjs", "/pkg/lib/a.js"] []) ctxLeftPad
        { esm := "lib/a" } = { esm := "./lib/a.js" } ∧
    normalizeBuildEntry (sampleEnv ["/pkg/lib/a.js", "/pkg/lib/a.mjs"] []) ctxLeftPad
        { esm := "lib/a" } = { esm := "./lib/a.mjs" } ∧
    normalizeBuildEntry (sampleEnv ["/pkg/lib/b/index.js", "/pkg/lib/b/index.cjs"] []) ctxLeftPad
        { esm := "lib/a", cjs := "lib/b" } = { esm := "./lib/a", cjs := "./lib/b/index.cjs" } ∧
    normalizeBuildEntry (sampleEnv ["/pkg/index.js"] ["/pkg/index.js"]) ctxLeftPad
        { cjs := "index" } = { esm := "./index.js" } ∧
    normalizeBuildEntry (sampleEnv ["/pkg/index.js"] ["/pkg/index.js"]) ctxLeftPad
        { esm := "./m.mjs", cjs := "index" } = { esm := "./m.mjs" } ∧
    normalizeBuildEntry (sampleEnv [] ["/pkg/index.cjs"]) ctxLeftPad
        { cjs := "index.cjs" } = { cjs := "./index.cjs" } :=
  ⟨normalizeBuildEntry_completed env ctx entry, by decide, by decide, by decide, by decide,
    by decide, by decide⟩

/-! ### Node built-in modules -/

theorem dropBytes_short (cs : List Char) (n : Nat) (h : (cs.flatMap utf8Bytes).length < n) :
    dropBytes cs n = none := by
  induction cs generalizing n with
  | nil =>
    cases n with
    | zero => simp at h
    | succ m => rfl
  | cons c cs ih =>
    cases n with
    | zero => simp at h
    | succ m =>
      rw [dropBytes]
      apply ih
      simp only [List.flatMap_cons, List.length_append] at h
      omega

theorem sliceFrom_short (s : String) (n : Nat) (h : len s < n) : sliceFrom s n = none := by
  unfold sliceFrom
  rw [dropBytes_short s.data n h]
  rfl

theorem sliceFrom_node (name : String) : sliceFrom ("node:" ++ name) 5 = some name := by
  have hd : ("node:" ++ name).data = 'n' :: 'o' :: 'd' :: 'e' :: ':' :: name.data := by
    simp [String.data_append]
  unfold sliceFrom
  rw [hd]
  have : dropBytes ('n' :: 'o' :: 'd' :: 'e' :: ':' :: name.data) 5 = some name.data := by
    simp [dropBytes, utf8Bytes]
  rw [this]
  rfl

theorem resolveNodeBuiltin_verbatim (ctx : BuildContext) (specifier : String)
    (h : ctx.args.externalAll = true ∨ ctx.target = "node" ∨ ctx.target = "denonext"
      ∨ specifier ∈ ctx.args.external) :
    resolveNodeBuiltin ctx specifier = Outcome.ok specifier := by
  unfold resolveNodeBuiltin
  have : (ctx.args.externalAll || ctx.target == "node" || ctx.target == "denonext"
      || decide (specifier ∈ ctx.args.external)) = true := by
    rcases h with h | h | h | h <;> simp [h]
  rw [if_pos this]

theorem resolveNodeBuiltin_rewritten (ctx : BuildContext) (specifier : String)
    (h : ¬ (ctx.args.externalAll = true ∨ ctx.target = "node" ∨ ctx.target = "denonext"
      ∨ specifier ∈ ctx.args.external)) :
    resolveNodeBuiltin ctx specifier
      = match sliceFrom specifier 5 with
        | some name =>
          Outcome.ok (if ctx.target = "deno" then
            "https://deno.land/std@0.177.1/node/" ++ name ++ ".ts"
          else "/node/" ++ name ++ ".mjs")
        | none => Outcome.panic := by
  unfold resolveNodeBuiltin
  have : ¬ ((ctx.args.externalAll || ctx.target == "node" || ctx.target == "denonext"
      || decide (specifier ∈ ctx.args.external)) = true) := by
    intro hc
    apply h
    simp only [Bool.or_eq_true, beq_iff_eq, decide_eq_true_eq] at hc
    tauto
  rw [if_neg this]
  by_cases hd : ctx.target = "deno"
  · rw [if_pos hd]
    cases sliceFrom specifier 5 <;> simp [hd]
  · rw [if_neg hd]
    cases sliceFrom specifier 5 <;> simp [hd]

theorem body_node_builtin (env : DepEnv) (ctx : BuildContext) (specifier : String)
    (hself : isGhSelf ctx specifier = false)
    (hb : env.isNodeBuiltInModule specifier = true) :
    resolveExternalModuleBody env ctx specifier = resolveNodeBuiltin ctx specifier := by
  unfold resolveExternalModuleBody
  simp [hself, hb]

theorem resolveExternalModule_value (env : DepEnv) (ctx : BuildContext) (specifier p : String)
    (kind : ResolveKind) (hbody : resolveExternalModuleBody env ctx specifier = Outcome.ok p)
    (hkind : kind ≠ ResolveKind.ResolveJSRequireCall)
    (hsub : hasPrefix specifier (ctx.packageJson.Name ++ "/") = false) :
    (ctx.resolveExternalModule env specifier kind).1 = Outcome.ok p := by
  unfold BuildContext.resolveExternalModule
  rw [hbody]
  unfold recordResolved
  simp [hkind, hsub]

/-- C25 (amended): for a specifier that the environment reports as a Node
built-in and that is not the GitHub entry of the current package, the emitted
URL is the specifier verbatim when the target is `node` or `denonext`, or
`externalAll` is set, or `external` contains it. Otherwise, for a specifier
`node:<name>`, it is `https://deno.land/std@0.177.1/node/<name>.ts` for the
target `deno` and `/node/<name>.mjs` for any other target; `<name>` is the
specifier without its first five bytes, and a specifier shorter than five
bytes ends in a slice out of range. The emitted URL is the value returned for
every kind but a require call, when the specifier is not a sub-module of the
current package. -/
theorem node_builtin_resolution (env : DepEnv) (ctx : BuildContext) (specifier : String)
    (hself : isGhSelf ctx specifier = false)
    (hb : env.isNodeBuiltInModule specifier = true) :
    ((ctx.args.externalAll = true ∨ ctx.target = "node" ∨ ctx.target = "denonext"
        ∨ specifier ∈ ctx.args.external) →
      resolveExternalModuleBody env ctx specifier = Outcome.ok specifier) ∧
    (¬ (ctx.args.externalAll = true ∨ ctx.target = "node" ∨ ctx.target = "denonext"
        ∨ specifier ∈ ctx.args.external) →
      (∀ name : String, specifier = "node:" ++ name →
        resolveExternalModuleBody env ctx specifier
          = Outcome.ok (if ctx.target = "deno" then
              "https://deno.land/std@0.177.1/node/" ++ name ++ ".ts"
            else "/node/" ++ name ++ ".mjs")) ∧
      (len specifier < 5 → resolveExternalModuleBody env ctx specifier = Outcome.panic)) ∧
    (∀ (kind : ResolveKind) (p : String),
      resolveExternalModuleBody env ctx specifier = Outcome.ok p →
      kind ≠ ResolveKind.ResolveJSRequireCall →
      hasPrefix specifier (ctx.packageJson.Name ++ "/") = false →
      (ctx.resolveExternalModule env specifier kind).1 = Outcome.ok p) := by
  have hbody := body_node_builtin env ctx specifier hself hb
  refine ⟨fun h => ?_, fun h => ⟨fun name hname => ?_, fun hlen => ?_⟩,
    fun kind p hp hk hs => resolveExternalModule_value env ctx specifier p kind hp hk hs⟩
  · rw [hbody, resolveNodeBuiltin_verbatim ctx specifier h]
  · rw [hbody, resolveNodeBuiltin_rewritten ctx specifier h, hname, sliceFrom_node]
  · rw [hbody, resolveNodeBuiltin_rewritten ctx specifier h, sliceFrom_short specifier 5 hlen]

/-- Witness of C25: the built-in `node:fs` for the targets `deno`, `denonext`
and `es2022`. -/
theorem node_builtin_resolution_witness :
    resolveExternalModuleBody worldBuiltins (ctxTarget "deno") "node:fs"
      = Outcome.ok "https://deno.land/std@0.177.1/node/fs.ts" ∧
    resolveExternalModuleBody worldBuiltins (ctxTarget "denonext") "node:fs"
      = Outcome.ok "node:fs" ∧
    resolveExternalModuleBody worldBuiltins (ctxTarget "es2022") "node:fs"
      = Outcome.ok "/node/fs.mjs" ∧
    ((ctxTarget "es2022").resolveExternalModule worldBuiltins "node:fs"
      ResolveKind.ResolveJSImportStatement).1 = Outcome.ok "/node/fs.mjs" :=
  ⟨((node_builtin_resolution worldBuiltins (ctxTarget "deno") "node:fs" (by decide)
      (by decide)).2.1 (by decide)).1 "fs" (by decide),
   (node_builtin_resolution worldBuiltins (ctxTarget "denonext") "node:fs" (by decide)
      (by decide)).1 (by decide),
   ((node_builtin_resolution worldBuiltins (ctxTarget "es2022") "node:fs" (by decide)
      (by decide)).2.1 (by decide)).1 "fs" (by decide),
   (node_builtin_resolution worldBuiltins (ctxTarget "es2022") "node:fs" (by decide)
      (by decide)).2.2 ResolveKind.ResolveJSImportStatement "/node/fs.mjs" (by decide)
      (by decide) (by decide)⟩

/-- Counterexample to C25: the specifier that gives the `deno` and `es2022`
URLs of `fs` is emitted as `node:fs`, not `fs`, for `denonext`; and where the
bare name `fs` is itself reported as a built-in, the targets `deno` and
`es2022` end in a slice out of range. -/
theorem node_builtin_bare_name :
    resolveExternalModuleBody worldBuiltins (ctxTarget "denonext") "node:fs"
      ≠ Outcome.ok "fs" ∧
    worldBuiltins.isNodeBuiltInModule "fs" = false ∧
    resolveExternalModuleBody worldBareBuiltins (ctxTarget "denonext") "fs"
      = Outcome.ok "fs" ∧
    resolveExternalModuleBody worldBareBuiltins (ctxTarget "deno") "fs" = Outcome.panic ∧
    resolveExternalModuleBody worldBareBuiltins (ctxTarget "es2022") "fs" = Outcome.panic := by
  decide

/-! ### The deferred bookkeeping -/

theorem Path_keeps_collections (env : Env) (ctx : BuildContext) :
    (ctx.Path env).2.importMap = ctx.importMap ∧
    (ctx.Path env).2.cjsRequires = ctx.cjsRequires := by
  unfold BuildContext.Path
  by_cases h1 : ctx.path ≠ ""
  · rw [if_pos h1]; exact ⟨rfl, rfl⟩
  · rw [if_neg h1]
    by_cases h2 : ctx.target = "types"
    · rw [if_pos h2]; exact ⟨rfl, rfl⟩
    · rw [if_neg h2]; exact ⟨rfl, rfl⟩

theorem recordResolved_spec (env : DepEnv) (ctx : BuildContext) (specifier p : String)
    (kind : ResolveKind) :
    (recordResolved env ctx specifier kind p).1
      = (if kind = ResolveKind.ResolveJSRequireCall then specifier
         else emittedPath env ctx specifier p) ∧
    (recordResolved env ctx specifier kind p).2.importMap
      = (if kind ≠ ResolveKind.ResolveJSDynamicImport then
          ctx.importMap ++ [(p, emittedPath env ctx specifier p)]
         else ctx.importMap) ∧
    (recordResolved env ctx specifier kind p).2.cjsRequires
      = (if kind = ResolveKind.ResolveJSRequireCall then
          ctx.cjsRequires ++ [(specifier, p, emittedPath env ctx specifier p)]
         else ctx.cjsRequires) := by
  obtain ⟨hi, hc⟩ := Path_keeps_collections env.toEnv ctx
  unfold recordResolved emittedPath
  by_cases hs : hasPrefix specifier (ctx.packageJson.Name ++ "/") = true
  · cases hr : env.relPath (pathDir (ctx.Path env.toEnv).1) p <;>
      cases kind <;> simp [hs, hr, hi, hc]
  · cases kind <;> simp [hs]

/-- C26: after a call of `resolveExternalModule` whose body resolves the path
`p` without error, the pair of `p` and the emitted URL is appended at the end
of the import map iff the kind is not a dynamic import; iff the kind is a
require call the triple of the specifier, `p` and the emitted URL is appended
to `cjsRequires` and the returned value is the specifier itself; the earlier
elements of both collections are unchanged. On error the context, and so both
collections, is unchanged. -/
theorem resolveExternalModule_bookkeeping (env : DepEnv) (ctx : BuildContext)
    (specifier : String) (kind : ResolveKind) :
    (∀ p : String, resolveExternalModuleBody env ctx specifier = Outcome.ok p →
      (ctx.resolveExternalModule env specifier kind).1
        = Outcome.ok (if kind = ResolveKind.ResolveJSRequireCall then specifier
            else emittedPath env ctx specifier p) ∧
      (ctx.resolveExternalModule env specifier kind).2.importMap
        = (if kind ≠ ResolveKind.ResolveJSDynamicImport then
            ctx.importMap ++ [(p, emittedPath env ctx specifier p)]
           else ctx.importMap) ∧
      (ctx.resolveExternalModule env specifier kind).2.cjsRequires
        = (if kind = ResolveKind.ResolveJSRequireCall then
            ctx.cjsRequires ++ [(specifier, p, emittedPath env ctx specifier p)]
           else ctx.cjsRequires) ∧
      ctx.importMap <+: (ctx.resolveExternalModule env specifier kind).2.importMap ∧
      ctx.cjsRequires <+: (ctx.resolveExternalModule env specifier kind).2.cjsRequires) ∧
    (∀ e : String, resolveExternalModuleBody env ctx specifier = Outcome.err e →
      ctx.resolveExternalModule env specifier kind = (Outcome.err e, ctx)) := by
  constructor
  · intro p hp
    obtain ⟨h1, h2, h3⟩ := recordResolved_spec env ctx specifier p kind
    have hr : ctx.resolveExternalModule env specifier kind
        = (Outcome.ok (recordResolved env ctx specifier kind p).1,
           (recordResolved env ctx specifier kind p).2) := by
      unfold BuildContext.resolveExternalModule
      rw [hp]
    rw [hr]
    refine ⟨by rw [h1], h2, h3, ?_, ?_⟩
    · show ctx.importMap <+: (recordResolved env ctx specifier kind p).2.importMap
      rw [h2]
      by_cases hk : kind ≠ ResolveKind.ResolveJSDynamicImport
      · rw [if_pos hk]; exact List.prefix_append _ _
      · rw [if_neg hk]
    · show ctx.cjsRequires <+: (recordResolved env ctx specifier kind p).2.cjsRequires
      rw [h3]
      by_cases hk : kind = ResolveKind.ResolveJSRequireCall
      · rw [if_pos hk]; exact List.prefix_append _ _
      · rw [if_neg hk]
  · intro e he
    unfold BuildContext.resolveExternalModule
    rw [he]

/-- Witness of C26: a require call of the sub-module `left-pad/lib/a` returns
the specifier and records the full and the relative URL in both collections. -/
theorem resolveExternalModule_bookkeeping_witness :
    ((ctxTarget "es2022").resolveExternalModule worldBuiltins "left-pad/lib/a"
        ResolveKind.ResolveJSRequireCall).1 = Outcome.ok "left-pad/lib/a" ∧
    ((ctxTarget "es2022").resolveExternalModule worldBuiltins "left-pad/lib/a"
        ResolveKind.ResolveJSRequireCall).2.importMap
      = [("/left-pad@1.3.0/es2022/lib/a.mjs", "./lib/a.mjs")] ∧
    ((ctxTarget "es2022").resolveExternalModule worldBuiltins "left-pad/lib/a"
        ResolveKind.ResolveJSRequireCall).2.cjsRequires
      = [("left-pad/lib/a", "/left-pad@1.3.0/es2022/lib/a.mjs", "./lib/a.mjs")] :=
  have h := (resolveExternalModule_bookkeeping worldBuiltins (ctxTarget "es2022")
    "left-pad/lib/a" ResolveKind.ResolveJSRequireCall).1
      "/left-pad@1.3.0/es2022/lib/a.mjs" (by decide)
  ⟨h.1.trans (by decide), h.2.1.trans (by decide), h.2.2.1.trans (by decide)⟩

/-! ### The version of a dependency -/

/-- C27 (amended): for a dependency without an explicit version that is not
the importing package itself, and not `react` imported by `react-dom`, the
version expression is taken from `args.deps` if the package is listed there,
else from the manifest's `dependencies`, else from its `peerDependencies`
(both with surrounding white space removed), else it is `latest`. The
importing package itself gets the importer's version, and `react` imported by
`react-dom` gets the version of `react-dom` even when a version is given. -/
theorem dependency_version_precedence (ctx : BuildContext) (pkgName : String)
    (hreact : ¬ (ctx.esmPath.PkgName = "react-dom" ∧ pkgName = "react")) :
    (pkgName ≠ ctx.esmPath.PkgName →
      (∀ v, ctx.args.deps.lookup pkgName = some v → dependencyVersion ctx pkgName "" = v) ∧
      (ctx.args.deps.lookup pkgName = none →
        (∀ v, ctx.packageJson.Dependencies.lookup pkgName = some v →
          dependencyVersion ctx pkgName "" = trimSpace v) ∧
        (ctx.packageJson.Dependencies.lookup pkgName = none →
          (∀ v, ctx.packageJson.PeerDependencies.lookup pkgName = some v →
            dependencyVersion ctx pkgName "" = trimSpace v) ∧
          (ctx.packageJson.PeerDependencies.lookup pkgName = none →
            dependencyVersion ctx pkgName "" = "latest")))) ∧
    (pkgName = ctx.esmPath.PkgName →
      dependencyVersion ctx pkgName "" = ctx.esmPath.PkgVersion) ∧
    (∀ version, version ≠ "" → dependencyVersion ctx pkgName version = version) ∧
    (∀ (rd : BuildContext) (version : String), rd.esmPath.PkgName = "react-dom" →
      dependencyVersion rd "react" version = rd.esmPath.PkgVersion) := by
  refine ⟨fun hself => ⟨fun v hv => ?_, fun hd => ⟨fun v hv => ?_, fun hm =>
    ⟨fun v hv => ?_, fun hp => ?_⟩⟩⟩, fun hself => ?_, fun version hv => ?_,
    fun rd version hrd => ?_⟩
  · simp [dependencyVersion, hreact, hself, hv]
  · simp [dependencyVersion, hreact, hself, hd, hv]
  · simp [dependencyVersion, hreact, hself, hd, hm, hv]
  · simp [dependencyVersion, hreact, hself, hd, hm, hp]
  · simp [dependencyVersion, hreact, hself]
  · simp [dependencyVersion, hreact, hv]
  · simp [dependencyVersion, hrd]

/-- Witness of C27: `args.deps` goes before `dependencies`, which go before
`peerDependencies`; the version reaches the emitted URL. -/
theorem dependency_version_precedence_witness :
    dependencyVersion
        (ctxImporter "app" "1.0.0" [("a", "1.0.0")] [("a", "^2.0.0"), ("b", " ^3.0.0 ")]
          [("a", "^4.0.0"), ("b", "^5.0.0"), ("c", "^6.0.0")]) "a" "" = "1.0.0" ∧
    dependencyVersion
        (ctxImporter "app" "1.0.0" [("a", "1.0.0")] [("a", "^2.0.0"), ("b", " ^3.0.0 ")]
          [("a", "^4.0.0"), ("b", "^5.0.0"), ("c", "^6.0.0")]) "b" "" = "^3.0.0" ∧
    resolveExternalModuleBody worldBuiltins
        (ctxImporter "app" "1.0.0" [("a", "1.0.0")] [("a", "^2.0.0"), ("b", " ^3.0.0 ")]
          [("a", "^4.0.0"), ("b", "^5.0.0"), ("c", "^6.0.0")]) "c"
      = Outcome.ok "/c@^6.0.0?deps=a@1.0.0" :=
  ⟨((dependency_version_precedence
      (ctxImporter "app" "1.0.0" [("a", "1.0.0")] [("a", "^2.0.0"), ("b", " ^3.0.0 ")]
        [("a", "^4.0.0"), ("b", "^5.0.0"), ("c", "^6.0.0")]) "a" (by decide)).1
      (by decide)).1 "1.0.0" (by decide),
   (((dependency_version_precedence
      (ctxImporter "app" "1.0.0" [("a", "1.0.0")] [("a", "^2.0.0"), ("b", " ^3.0.0 ")]
        [("a", "^4.0.0"), ("b", "^5.0.0"), ("c", "^6.0.0")]) "b" (by decide)).1
      (by decide)).2 (by decide)).1 " ^3.0.0 " (by decide) |>.trans (by decide),
   by decide⟩

/-- Counterexample to C27: `react` imported by `react-dom@18.2.0` gets the
version `18.2.0` although `args.deps` lists `react@17.0.2`, and the importing
package itself gets its own version although `args.deps` lists another. -/
theorem dependency_version_exceptions :
    dependencyVersion (ctxImporter "react-dom" "18.2.0" [("react", "17.0.2")]
        [("react", "^18.0.0")] []) "react" "" = "18.2.0" ∧
    resolveExternalModuleBody worldBuiltins (ctxImporter "react-dom" "18.2.0"
        [("react", "17.0.2")] [("react", "^18.0.0")] []) "react"
      = Outcome.ok "/react@18.2.0/es2022/react.mjs" ∧
    dependencyVersion (ctxImporter "app" "1.0.0" [("app", "2.0.0")] [] []) "app" ""
      = "1.0.0" := by
  decide

/-! ### The query string of a dependency URL -/

theorem query_eq_sortedQuery (env : Env) (ctx : BuildContext) (depPath : ESMPath)
    (args : BuildArgs)
    (h : sortStrings (args.alias'.map (fun kv => kv.1 ++ ":" ++ kv.2))
      = args.alias'.map (fun kv => kv.1 ++ ":" ++ kv.2)) :
    resolveExternalModuleQuery env ctx depPath args = sortedQuery env ctx depPath args := by
  unfold resolveExternalModuleQuery sortedQuery
  rw [h]
  by_cases h1 : args.alias'.length > 0 <;> by_cases h2 : args.deps.length > 0 <;>
    by_cases h3 : args.external.length > 0 <;> by_cases h4 : args.conditions.length > 0 <;>
    cases h5 : ctx.pinedTarget <;> cases h6 : ctx.dev <;>
    cases h7 : hasSuffix (if depPath.PkgName = "es5-ext" then
        replaceAll ("/" ++ env.esmPathString depPath) "/#/" "/%23/"
      else "/" ++ env.esmPathString depPath) ".json" <;>
    simp [h1, h2, h3, h4, h7]

/-- C28 (refuted by the code): the URL of a dependency without a fixed version
is `/<pkg-spec>` followed by the parameters in the stated order, with `deps=`,
`external=` and `conditions=` sorted; it is the URL of the spec whenever the
`alias` entries are iterated in sorted order. But the entries of `alias=` are
joined in the iteration order of the map, not sorted. -/
theorem query_alias_not_sorted :
    (∀ (env : Env) (ctx : BuildContext) (depPath : ESMPath) (args : BuildArgs),
      sortStrings (args.alias'.map (fun kv => kv.1 ++ ":" ++ kv.2))
        = args.alias'.map (fun kv => kv.1 ++ ":" ++ kv.2) →
      resolveExternalModuleQuery env ctx depPath args = sortedQuery env ctx depPath args) ∧
    resolveExternalModuleQuery (sampleEnv [] []) ctxPinnedDev
        { PkgName := "dep", PkgVersion := "^1.0.0", SubPath := "data.json" } argsUnsorted
      = "/dep@^1.0.0/data.json?alias=b:y,a:x&deps=m@1.0.0,n@2.0.0&external=e1,e2"
          ++ "&conditions=c1,c2&target=es2022&dev&module" ∧
    sortedQuery (sampleEnv [] []) ctxPinnedDev
        { PkgName := "dep", PkgVersion := "^1.0.0", SubPath := "data.json" } argsUnsorted
      = "/dep@^1.0.0/data.json?alias=a:x,b:y&deps=m@1.0.0,n@2.0.0&external=e1,e2"
          ++ "&conditions=c1,c2&target=es2022&dev&module" ∧
    resolveExternalModuleQuery (sampleEnv [] []) ctxBrowser
        { PkgName := "dep", PkgVersion := "^1.0.0" } {} = "/dep@^1.0.0" :=
  ⟨query_eq_sortedQuery, by decide, by decide, by decide⟩

/-! ### Fixed versions -/

theorem isFixedVersion_iff (env : DepEnv) (depPath : ESMPath) :
    isFixedVersion env depPath = true ↔
      (depPath.GhPrefix = true ∧
        (env.isCommitish depPath.PkgVersion = true
          ∨ env.regexpVersionStrict (trimPrefix depPath.PkgVersion "v") = true))
      ∨ (depPath.GhPrefix = false ∧ depPath.PrPrefix = true)
      ∨ (depPath.GhPrefix = false ∧ depPath.PrPrefix = false
          ∧ env.regexpVersionStrict depPath.PkgVersion = true) := by
  unfold isFixedVersion
  cases hg : depPath.GhPrefix <;> cases hp : depPath.PrPrefix <;> simp

theorem resolveDependencyURL_fixed (env : DepEnv) (ctx : BuildContext)
    (pkgName version : String) (depPath : ESMPath) (args : BuildArgs)
    (hargs : env.normalizeBuildArgs ctx.wd
      { alias' := ctx.args.alias', deps := ctx.args.deps, external := ctx.args.external,
        conditions := ctx.args.conditions, exports := [] } depPath = Except.ok args)
    (hfixed : isFixedVersion env depPath = true) :
    resolveDependencyURL env ctx pkgName version depPath
      = Outcome.ok ("/" ++ env.packageName depPath ++ "/"
          ++ (if env.encodeBuildArgs args false ≠ "" then
                "X-" ++ env.encodeBuildArgs args false ++ "/" else "")
          ++ ctx.target ++ "/"
          ++ (if ctx.dev then moduleName depPath ++ ".development" else moduleName depPath)
          ++ ".mjs") := by
  unfold resolveDependencyURL
  simp only [hargs, hfixed, if_true]
  rfl

/-- C29: a dependency version is fixed exactly when the origin is GitHub and
the version is a commit-ish or, after removing one leading `v`, a strict
semver; or the origin is pkg.pr.new; or the origin is the registry and the
version is a strict semver. When the build args normalize without error a
fixed version yields `/<spec>/<args-prefix><target>/<name>.mjs`, the name
with `.development` in a dev build. The dependency
`github:facebook/react#v18.2.0` yields `/gh/facebook/react@v18.2.0/...`. -/
theorem fixed_version_url (env : DepEnv) (ctx : BuildContext) (pkgName version : String)
    (depPath : ESMPath) (args : BuildArgs)
    (hargs : env.normalizeBuildArgs ctx.wd
      { alias' := ctx.args.alias', deps := ctx.args.deps, external := ctx.args.external,
        conditions := ctx.args.conditions, exports := [] } depPath = Except.ok args) :
    (isFixedVersion env depPath = true ↔
      (depPath.GhPrefix = true ∧
        (env.isCommitish depPath.PkgVersion = true
          ∨ env.regexpVersionStrict (trimPrefix depPath.PkgVersion "v") = true))
      ∨ (depPath.GhPrefix = false ∧ depPath.PrPrefix = true)
      ∨ (depPath.GhPrefix = false ∧ depPath.PrPrefix = false
          ∧ env.regexpVersionStrict depPath.PkgVersion = true)) ∧
    (isFixedVersion env depPath = true →
      resolveDependencyURL env ctx pkgName version depPath
        = Outcome.ok ("/" ++ env.packageName depPath ++ "/"
            ++ (if env.encodeBuildArgs args false ≠ "" then
                  "X-" ++ env.encodeBuildArgs args false ++ "/" else "")
            ++ ctx.target ++ "/"
            ++ (if ctx.dev then moduleName depPath ++ ".development" else moduleName depPath)
            ++ ".mjs")) ∧
    (isFixedVersion env depPath = false →
      ∃ a, env.normalizeBuildArgs ctx.wd
          { alias' := ctx.args.alias', deps := ctx.args.deps, external := ctx.args.external,
            conditions := ctx.args.conditions, exports := [] } depPath = Except.ok a ∧
        (resolveDependencyURL env ctx pkgName version depPath
            = Outcome.ok (resolveExternalModuleQuery env.toEnv ctx depPath a)
          ∨ '|' ∈ depPath.PkgVersion.data ∨ ' ' ∈ depPath.PkgVersion.data)) ∧
    resolveDependencyAlias worldBuiltins
        (ctxImporter "app" "1.0.0" [] [("react", "github:facebook/react#v18.2.0")] [])
        "react" "github:facebook/react#v18.2.0"
        { PkgName := "react", PkgVersion := "github:facebook/react#v18.2.0" }
      = Step.next { PkgName := "facebook/react", PkgVersion := "v18.2.0", GhPrefix := true } ∧
    isFixedVersion worldBuiltins
        { PkgName := "facebook/react", PkgVersion := "v18.2.0", GhPrefix := true } = true ∧
    resolveExternalModuleBody worldBuiltins
        (ctxImporter "app" "1.0.0" [] [("react", "github:facebook/react#v18.2.0")] [])
        "react"
      = Outcome.ok "/gh/facebook/react@v18.2.0/es2022/react.mjs" := by
  refine ⟨isFixedVersion_iff env depPath,
    resolveDependencyURL_fixed env ctx pkgName version depPath args hargs, ?_,
    by decide, by decide, by decide⟩
  intro hnf
  refine ⟨args, hargs, ?_⟩
  by_cases hr : '|' ∈ depPath.PkgVersion.data ∨ ' ' ∈ depPath.PkgVersion.data
  · rcases hr with hr | hr
    · exact Or.inr (Or.inl hr)
    · exact Or.inr (Or.inr hr)
  · left
    have h1 : ¬ '|' ∈ depPath.PkgVersion.data := fun h => hr (Or.inl h)
    have h2 : ¬ ' ' ∈ depPath.PkgVersion.data := fun h => hr (Or.inr h)
    unfold resolveDependencyURL
    simp [hargs, hnf, h1, h2]

/-- Witness of C29: a registry dependency with the strict semver `18.2.0`. -/
theorem fixed_version_url_witness :
    resolveDependencyURL worldBuiltins
        (ctxImporter "app" "1.0.0" [] [("react", "18.2.0")] []) "react" "18.2.0"
        { PkgName := "react", PkgVersion := "18.2.0" }
      = Outcome.ok "/react@18.2.0/es2022/react.mjs" :=
  ((fixed_version_url worldBuiltins (ctxImporter "app" "1.0.0" [] [("react", "18.2.0")] [])
      "react" "18.2.0" { PkgName := "react", PkgVersion := "18.2.0" } {} rfl).2.1
    (by decide)).trans (by decide)

/-! ### Unsupported and malformed dependency expressions -/

theorem hasPrefix_jsr (v : String) (h : hasPrefix v "jsr:" = true) :
    hasPrefix v "file:" = false ∧ hasPrefix v "npm:" = false := by
  unfold hasPrefix at *
  cases hv : v.data with
  | nil => rw [hv] at h; simp [List.isPrefixOf] at h
  | cons c cs =>
    rw [hv] at h
    have hc : c = 'j' := by
      have : ("jsr:" : String).data = ['j', 's', 'r', ':'] := rfl
      rw [this] at h
      simp [List.isPrefixOf] at h
      exact h.1.symm
    subst hc
    constructor
    · have : ("file:" : String).data = ['f', 'i', 'l', 'e', ':'] := rfl
      rw [this]
      simp [List.isPrefixOf]
    · have : ("npm:" : String).data = ['n', 'p', 'm', ':'] := rfl
      rw [this]
      simp [List.isPrefixOf]

theorem splitByFirstByte_scope (scope name : String) (hs : '/' ∉ scope.data) :
    splitByFirstByte ("@" ++ scope ++ "/" ++ name) '/' = ("@" ++ scope, name) := by
  have hd : ("@" ++ scope ++ "/" ++ name).data = ('@' :: scope.data) ++ '/' :: name.data := by
    simp [String.data_append]
  have hmem : '/' ∈ ("@" ++ scope ++ "/" ++ name).data := by rw [hd]; simp
  have htw : (('@' :: scope.data) ++ '/' :: name.data).takeWhile (fun x => x != '/')
      = '@' :: scope.data := by
    apply takeWhile_append_stop
    · intro x hx
      rcases List.mem_cons.1 hx with rfl | hx
      · decide
      · have : x ≠ '/' := fun h => hs (h ▸ hx)
        simpa using this
    · simp
  unfold splitByFirstByte
  rw [if_pos hmem]
  simp only [hd, htw]
  have hdrop : (('@' :: scope.data) ++ '/' :: name.data).drop (('@' :: scope.data).length + 1)
      = name.data := by
    rw [List.drop_append_eq_append_drop]
    simp
  rw [hdrop]
  apply Prod.ext
  · apply String.ext; simp [String.data_append]
  · rfl

theorem body_dependency (env : DepEnv) (ctx : BuildContext) (specifier : String)
    (hself : isGhSelf ctx specifier = false)
    (hb : env.isNodeBuiltInModule specifier = false)
    (hext : (ctx.args.externalAll
      || decide (env.toPackageName specifier ∈ ctx.args.external)) = false)
    (hsub : hasPrefix specifier (ctx.packageJson.Name ++ "/") = false) :
    resolveExternalModuleBody env ctx specifier
      = match resolveDependencyAlias env ctx (env.splitESMPath specifier).1
          (dependencyVersion ctx (env.splitESMPath specifier).1 (env.splitESMPath specifier).2.1)
          { PkgName := (env.splitESMPath specifier).1
            PkgVersion := dependencyVersion ctx (env.splitESMPath specifier).1
              (env.splitESMPath specifier).2.1
            SubPath := (env.splitESMPath specifier).2.2
            SubBareName := env.toModuleBareName (env.splitESMPath specifier).2.2 true } with
        | Step.done outcome => outcome
        | Step.next depPath =>
          match resolveRepoHead env depPath with
          | Step.done outcome => outcome
          | Step.next depPath =>
            resolveDependencyURL env ctx (env.splitESMPath specifier).1
              (dependencyVersion ctx (env.splitESMPath specifier).1
                (env.splitESMPath specifier).2.1) depPath := by
  unfold resolveExternalModuleBody
  rw [hself, hb, hext, hsub]
  rfl

theorem alias_file (env : DepEnv) (ctx : BuildContext) (pkgName version : String)
    (depPath : ESMPath) (h : hasPrefix version "file:" = true) :
    resolveDependencyAlias env ctx pkgName version depPath
      = Step.done (Outcome.ok (errorURL env ctx "unsupported-file-dependency" pkgName)) := by
  unfold resolveDependencyAlias
  rw [if_pos h]

theorem alias_http_unsupported (env : DepEnv) (ctx : BuildContext) (pkgName version : String)
    (depPath : ESMPath) (hfile : hasPrefix version "file:" = false)
    (hhttp : env.isHttpSepcifier version = true)
    (hhost : ∀ u, env.urlParse version = some u → u.Host ≠ "pkg.pr.new") :
    resolveDependencyAlias env ctx pkgName version depPath
      = Step.done (Outcome.ok (errorURL env ctx "unsupported-http-dependency" pkgName)) := by
  unfold resolveDependencyAlias
  rw [hfile, hhttp]
  simp only [Bool.false_eq_true, if_false, if_true]
  unfold resolveHttpDependency
  cases hu : env.urlParse version with
  | none => rfl
  | some u => simp only [hhost u hu, ne_eq, not_false_eq_true, if_true]

theorem jsr_expression (e : String) :
    hasPrefix ("jsr:" ++ e) "jsr:" = true ∧ (⟨("jsr:" ++ e).data.drop 4⟩ : String) = e := by
  constructor
  · unfold hasPrefix
    apply List.isPrefixOf_iff_prefix.2
    exact ⟨e.data, by simp [String.data_append]⟩
  · apply String.ext
    simp [String.data_append]

theorem alias_jsr (env : DepEnv) (ctx : BuildContext) (pkgName e : String) (depPath : ESMPath)
    (hhttp : env.isHttpSepcifier ("jsr:" ++ e) = false) :
    resolveDependencyAlias env ctx pkgName ("jsr:" ++ e) depPath
      = if (!hasPrefix (env.splitESMPath e).1 "@"
            || !decide ('/' ∈ (env.splitESMPath e).1.data)) = true then
          Step.done (Outcome.ok
            (errorURL env ctx "invalid-jsr-dependency" (env.splitESMPath e).1))
        else
          Step.next
            { depPath with
              PkgName := "@jsr/" ++ ⟨(splitByFirstByte (env.splitESMPath e).1 '/').1.data.drop 1⟩
                ++ "__" ++ (splitByFirstByte (env.splitESMPath e).1 '/').2
              PkgVersion := (env.splitESMPath e).2.1 } := by
  obtain ⟨hj, hd⟩ := jsr_expression e
  obtain ⟨hf, hn⟩ := hasPrefix_jsr _ hj
  unfold resolveDependencyAlias
  rw [hf, hhttp, hn, hj, hd]
  simp only [Bool.false_eq_true, if_false, if_true]

/-- C30: an unsupported or malformed dependency expression is answered with a
synthetic error URL and no error value. A version beginning `file:` gives
`/error.js?type=unsupported-file-dependency&name=<pkg>&importer=<path>`; an
HTTP URL that does not parse or whose host is not `pkg.pr.new` gives the type
`unsupported-http-dependency`; a `jsr:` expression whose name does not begin
with `@` or has no `/` gives the type `invalid-jsr-dependency` with that
name; and `jsr:@scope/name@v` is rewritten to the package `@jsr/scope__name`
with the version `v`. A result of the alias stage is the result of the call
for a specifier that reaches the dependency branch. -/
theorem dependency_error_urls (env : DepEnv) (ctx : BuildContext) (pkgName : String)
    (depPath : ESMPath) :
    (∀ version, hasPrefix version "file:" = true →
      resolveDependencyAlias env ctx pkgName version depPath
        = Step.done (Outcome.ok ("/error.js?type=" ++ "unsupported-file-dependency"
            ++ "&name=" ++ pkgName ++ "&importer=" ++ env.esmPathString ctx.esmPath))) ∧
    (∀ version, hasPrefix version "file:" = false → env.isHttpSepcifier version = true →
      (∀ u, env.urlParse version = some u → u.Host ≠ "pkg.pr.new") →
      resolveDependencyAlias env ctx pkgName version depPath
        = Step.done (Outcome.ok ("/error.js?type=" ++ "unsupported-http-dependency"
            ++ "&name=" ++ pkgName ++ "&importer=" ++ env.esmPathString ctx.esmPath))) ∧
    (∀ e name v sub, env.isHttpSepcifier ("jsr:" ++ e) = false →
      env.splitESMPath e = (name, v, sub) →
      (hasPrefix name "@" = false ∨ '/' ∉ name.data) →
      resolveDependencyAlias env ctx pkgName ("jsr:" ++ e) depPath
        = Step.done (Outcome.ok ("/error.js?type=" ++ "invalid-jsr-dependency"
            ++ "&name=" ++ name ++ "&importer=" ++ env.esmPathString ctx.esmPath))) ∧
    (∀ e scope name v sub, env.isHttpSepcifier ("jsr:" ++ e) = false →
      env.splitESMPath e = ("@" ++ scope ++ "/" ++ name, v, sub) → '/' ∉ scope.data →
      resolveDependencyAlias env ctx pkgName ("jsr:" ++ e) depPath
        = Step.next { depPath with PkgName := "@jsr/" ++ scope ++ "__" ++ name,
                                   PkgVersion := v }) ∧
    (∀ specifier, isGhSelf ctx specifier = false →
      env.isNodeBuiltInModule specifier = false →
      (ctx.args.externalAll
        || decide (env.toPackageName specifier ∈ ctx.args.external)) = false →
      hasPrefix specifier (ctx.packageJson.Name ++ "/") = false →
      ∀ outcome,
        resolveDependencyAlias env ctx (env.splitESMPath specifier).1
          (dependencyVersion ctx (env.splitESMPath specifier).1
            (env.splitESMPath specifier).2.1)
          { PkgName := (env.splitESMPath specifier).1
            PkgVersion := dependencyVersion ctx (env.splitESMPath specifier).1
              (env.splitESMPath specifier).2.1
            SubPath := (env.splitESMPath specifier).2.2
            SubBareName := env.toModuleBareName (env.splitESMPath specifier).2.2 true }
          = Step.done outcome →
        resolveExternalModuleBody env ctx specifier = outcome) := by
  refine ⟨fun version h => alias_file env ctx pkgName version depPath h,
    fun version hf hh hu => alias_http_unsupported env ctx pkgName version depPath hf hh hu,
    fun e name v sub hh hs hbad => ?_, fun e scope name v sub hh hs hsc => ?_,
    fun specifier h1 h2 h3 h4 outcome ho => ?_⟩
  · rw [alias_jsr env ctx pkgName e depPath hh, hs]
    have : (!hasPrefix name "@" || !decide ('/' ∈ name.data)) = true := by
      rcases hbad with h | h
      · simp [h]
      · simp [h]
    rw [if_pos this]
    rfl
  · rw [alias_jsr env ctx pkgName e depPath hh, hs]
    have hp : hasPrefix ("@" ++ scope ++ "/" ++ name) "@" = true := by
      unfold hasPrefix
      apply List.isPrefixOf_iff_prefix.2
      exact ⟨(scope ++ "/" ++ name).data, by simp [String.data_append]⟩
    have hm : '/' ∈ ("@" ++ scope ++ "/" ++ name).data := by simp [String.data_append]
    have : ¬ ((!hasPrefix ("@" ++ scope ++ "/" ++ name) "@"
        || !decide ('/' ∈ ("@" ++ scope ++ "/" ++ name).data)) = true) := by
      simp [hp, hm]
    rw [if_neg this]
    simp only [splitByFirstByte_scope scope name hsc]
    have hdrop : (⟨("@" ++ scope).data.drop 1⟩ : String) = scope := by
      apply String.ext
      simp [String.data_append]
    rw [hdrop]
  · rw [body_dependency env ctx specifier h1 h2 h3 h4, ho]

/-- Witness of C30: dependencies declared as `file:../x`, as a tarball URL, as
`jsr:std/fs@1.0.0` and as `jsr:@std/fs@^1.0.0`. -/
theorem dependency_error_urls_witness :
    resolveExternalModuleBody worldBuiltins
        (ctxImporter "app" "1.0.0" [] [("x", "file:../x")] []) "x"
      = Outcome.ok "/error.js?type=unsupported-file-dependency&name=x&importer=app@1.0.0" ∧
    resolveExternalModuleBody worldBuiltins
        (ctxImporter "app" "1.0.0" [] [("x", "https://example.com/x.tgz")] []) "x"
      = Outcome.ok "/error.js?type=unsupported-http-dependency&name=x&importer=app@1.0.0" ∧
    resolveExternalModuleBody worldBuiltins
        (ctxImporter "app" "1.0.0" [] [("x", "jsr:std/fs@1.0.0")] []) "x"
      = Outcome.ok "/error.js?type=invalid-jsr-dependency&name=std&importer=app@1.0.0" ∧
    resolveExternalModuleBody worldBuiltins
        (ctxImporter "app" "1.0.0" [] [("x", "jsr:@std/fs@^1.0.0")] []) "x"
      = Outcome.ok "/@jsr/std__fs@^1.0.0" :=
  ⟨(dependency_error_urls worldBuiltins
      (ctxImporter "app" "1.0.0" [] [("x", "file:../x")] []) "x"
      { PkgName := "x", PkgVersion := "file:../x" }).2.2.2.2 "x" (by decide) (by decide)
      (by decide) (by decide) _
      (((dependency_error_urls worldBuiltins
        (ctxImporter "app" "1.0.0" [] [("x", "file:../x")] []) "x"
        { PkgName := "x", PkgVersion := "file:../x" }).1 "file:../x" (by decide)).trans
        (by decide)),
   by decide, by decide, by decide⟩

/-- Without dts mode a pass of `lookupDep` never jumps back to its label. -/
theorem lookupDepPass_no_retry (env : DepEnv) (ctx : BuildContext)
    (pkgName version subpath : String) :
    (lookupDepPass env ctx pkgName version subpath false).retry = none := by
  unfold lookupDepPass
  split
  · split <;> rfl
  · simp only []
    split
    · rfl
    · split
      · rfl
      · simp

/-! ### A filled target slot -/

/-- C33: `resolve` changes nothing when the target slot is already filled,
whatever the condition value is, a nested mapping with values for the other,
still empty slots included. -/
theorem resolve_filled_slot_noop (entry : BuildEntry) (ctx : BuildContext) (mType : String)
    (condition : Value) (entryType : String) (h : entry.slot entryType ≠ "") :
    entry.resolve ctx mType condition entryType = entry := by
  have hvalid : entryType = "esm" ∨ entryType = "cjs" ∨ entryType = "dts" := by
    unfold BuildEntry.slot at h
    by_cases h1 : entryType = "esm"
    · exact Or.inl h1
    · by_cases h2 : entryType = "cjs"
      · exact Or.inr (Or.inl h2)
      · by_cases h3 : entryType = "dts"
        · exact Or.inr (Or.inr h3)
        · simp [h1, h2, h3] at h
  have hhas : entry.hasEntry entryType = true := by
    rw [slot_valid entryType hvalid entry]
    simpa using h
  unfold BuildEntry.resolve BuildEntry.resolveWith
  rw [if_pos hhas]

/-- Witness of C33: the esm slot is filled and the nested mapping has values
for the empty cjs and dts slots. -/
theorem resolve_filled_slot_noop_witness :
    ({ esm := "./a.mjs" } : BuildEntry).resolve ctxBrowser "module"
        (Value.omap [("require", Value.str "./b.cjs"), ("types", Value.str "./b.d.ts"),
                     ("default", Value.str "./b.js")]) "esm"
      = { esm := "./a.mjs" } ∧
    ({} : BuildEntry).resolve ctxBrowser "module"
        (Value.omap [("require", Value.str "./b.cjs"), ("types", Value.str "./b.d.ts"),
                     ("default", Value.str "./b.js")]) "esm"
      = { esm := "./b.js", cjs := "./b.cjs", dts := "./b.d.ts" } :=
  ⟨resolve_filled_slot_noop { esm := "./a.mjs" } ctxBrowser "module" _ "esm" (by decide),
   by decide⟩

/-! ### The slots come from the conditions tree -/

theorem stringsEntries_cons (e : String × Value) (rest : List (String × Value)) :
    stringsEntries (e :: rest) = e.2.strings ++ stringsEntries rest := by
  rw [stringsEntries]

theorem strings_lookup (om : OrderedMap) (k : String) (v : Value) (h : om.lookup k = some v) :
    ∀ s ∈ v.strings, s ∈ stringsEntries om := by
  induction om with
  | nil => simp [List.lookup] at h
  | cons e rest ih =>
    obtain ⟨k', v'⟩ := e
    intro s hs
    rw [stringsEntries_cons]
    by_cases hk : (k == k') = true
    · simp only [List.lookup, hk] at h
      cases h
      exact List.mem_append_left _ hs
    · have hk' : (k == k') = false := by simpa using hk
      simp only [List.lookup, hk'] at h
      exact List.mem_append_right _ (ih h s hs)

theorem strings_Get (om : OrderedMap) (k : String) :
    ∀ s ∈ (om.Get k).strings, s ∈ stringsEntries om := by
  unfold OrderedMap.Get
  cases h : om.lookup k with
  | none => intro s hs; simp [Value.strings] at hs
  | some v => simpa using strings_lookup om k v h

theorem fromTree_mono {l l' : List String} (h : ∀ s ∈ l, s ∈ l') {e : BuildEntry}
    (he : FromTree l e) : FromTree l' e :=
  ⟨fun hn => h _ (he.1 hn), fun hn => h _ (he.2.1 hn), fun hn => h _ (he.2.2 hn)⟩

theorem fromTree_update (l : List String) (e : BuildEntry) (t s : String)
    (he : FromTree l e) (hs : s ∈ l) : FromTree l (e.updateEntry t s) := by
  unfold BuildEntry.updateEntry
  by_cases h1 : t = "esm"
  · rw [if_pos h1]; exact ⟨fun _ => hs, he.2.1, he.2.2⟩
  · rw [if_neg h1]
    by_cases h2 : t = "cjs"
    · rw [if_pos h2]; exact ⟨he.1, fun _ => hs, he.2.2⟩
    · rw [if_neg h2]
      by_cases h3 : t = "dts"
      · rw [if_pos h3]; exact ⟨he.1, he.2.1, fun _ => hs⟩
      · rw [if_neg h3]; exact he

theorem fromTree_fill (l : List String) (e : BuildEntry) (t s : String)
    (he : FromTree l e) (hs : s ≠ "" → s ∈ l) :
    FromTree l (if (s ≠ "" && !e.hasEntry t) = true then e.updateEntry t s else e) := by
  by_cases h : (s ≠ "" && !e.hasEntry t) = true
  · rw [if_pos h]
    have : s ≠ "" := by
      simp only [Bool.and_eq_true, decide_eq_true_eq] at h
      exact h.1
    exact fromTree_update l e t s he (hs this)
  · rw [if_neg h]; exact he

theorem resolveWith_fromTree (eval : OrderedMap → String → BuildEntry) (l : List String)
    (entry : BuildEntry) (mType : String) (condition : Value) (entryType : String)
    (he : FromTree l entry) (hc : ∀ s ∈ condition.strings, s ∈ l)
    (hev : ∀ om, condition = Value.omap om → FromTree (stringsEntries om) (eval om mType)) :
    FromTree l (entry.resolveWith eval mType condition entryType) := by
  unfold BuildEntry.resolveWith
  by_cases h : entry.hasEntry entryType = true
  · rw [if_pos h]; exact he
  · rw [if_neg h]
    cases condition with
    | str s => exact fromTree_update l entry entryType s he (hc s (by simp [Value.strings]))
    | omap om =>
      have hsub : ∀ s ∈ stringsEntries om, s ∈ l := by
        intro s hs
        apply hc
        rw [Value.strings]
        exact hs
      have hres := fromTree_mono hsub (hev om rfl)
      have h0 : FromTree l
          (match om.lookup "default" with
            | some (Value.str s) => if s ≠ "" then entry.updateEntry entryType s else entry
            | _ => entry) := by
        split
        · rename_i s hlook
          split
          · apply fromTree_update l entry entryType s he
            exact hsub s (strings_lookup om "default" (Value.str s) hlook s
              (by simp [Value.strings]))
          · exact he
        · exact he
      exact fromTree_fill l _ "dts" _
        (fromTree_fill l _ "cjs" _ (fromTree_fill l _ "esm" _ h0 hres.1) hres.2.1) hres.2.2
    | null => exact he
    | obj es => exact he
    | arr vs => exact he
    | other => exact he

theorem foldl_invariant {α β : Type} (P : β → Prop) (f : β → α → β) (l : List α) (init : β)
    (h : ∀ v ∈ l, ∀ b, P b → P (f b v)) (h0 : P init) : P (l.foldl f init) := by
  induction l generalizing init with
  | nil => exact h0
  | cons a rest ih =>
    simp only [List.foldl]
    apply ih
    · intro v hv b hb
      exact h v (List.mem_cons_of_mem _ hv) b hb
    · exact h a (List.mem_cons_self _ _) init h0

theorem evaluator_fromTree (ctx : BuildContext) (n : Nat) :
    ∀ (conditions : OrderedMap) (mType : String), depthEntries conditions < n →
      FromTree (stringsEntries conditions) (ctx.resolveConditionExportEntry conditions mType) := by
  induction n using Nat.strong_induction_on with
  | _ n ih =>
    intro conditions mType hn
    rw [resolveConditionExportEntry_unfold, body_eq_visits]
    apply foldl_invariant (FromTree (stringsEntries conditions))
    · intro v hv b hb
      have h1 := visits_cond ctx conditions mType v hv
      apply resolveWith_fromTree _ _ _ _ _ _ hb
      · rw [h1]; exact strings_Get conditions v.key
      · intro om hom
        have h2 := depth_Get conditions v.key
        rw [← h1, hom] at h2
        simp only [Value.depth] at h2
        exact ih (depthEntries om + 1) (by omega) om v.mType (by omega)
    · exact ⟨fun h => absurd rfl h, fun h => absurd rfl h, fun h => absurd rfl h⟩

/-- C34: every non-empty slot of the entry returned by
`resolveConditionExportEntry` is a string that occurs as a value in the
conditions tree it was given, at any depth; for an empty mapping the result is
the empty entry; and the evaluator terminates: a recursion bound above the
nesting depth of the tree always gives the result. -/
theorem evaluator_slots_from_tree (ctx : BuildContext) (conditions : OrderedMap)
    (mType : String) :
    FromTree (stringsEntries conditions) (ctx.resolveConditionExportEntry conditions mType) ∧
    ctx.resolveConditionExportEntry [] mType = {} ∧
    (∀ fuel, depthEntries conditions < fuel →
      resolveConditionExportEntryFuel ctx fuel conditions mType
        = ctx.resolveConditionExportEntry conditions mType) ∧
    stringsEntries condsDeep = ["./n.d.mts", "./n.mjs", "./d.js"] ∧
    ({ target := "node" } : BuildContext).resolveConditionExportEntry condsDeep "module"
      = { esm := "./n.mjs", dts := "./n.d.mts" } := by
  refine ⟨evaluator_fromTree ctx _ conditions mType (Nat.lt_succ_self _), ?_,
    fun fuel h => fuel_stable ctx fuel conditions mType h, by decide, by decide⟩
  have h := evaluator_fromTree ctx _ [] mType (Nat.lt_succ_self _)
  have hnil : stringsEntries [] = [] := by rw [stringsEntries]
  rw [hnil] at h
  have h1 : (ctx.resolveConditionExportEntry [] mType).esm = "" := by
    by_contra hc; exact absurd (h.1 hc) (by simp)
  have h2 : (ctx.resolveConditionExportEntry [] mType).cjs = "" := by
    by_contra hc; exact absurd (h.2.1 hc) (by simp)
  have h3 : (ctx.resolveConditionExportEntry [] mType).dts = "" := by
    by_contra hc; exact absurd (h.2.2 hc) (by simp)
  cases hr : ctx.resolveConditionExportEntry [] mType with
  | mk a b c =>
    rw [hr] at h1 h2 h3
    simp only at h1 h2 h3
    subst h1; subst h2; subst h3
    rfl

/-! ### The retry loop of `lookupDep` -/

theorem lookupDepVersion_given (env : DepEnv) (ctx : BuildContext) (pkgName version : String)
    (h : version ≠ "") : lookupDepVersion env ctx pkgName version = (pkgName, version) := by
  unfold lookupDepVersion
  rw [if_neg h]

theorem lookupDepPass_retry (env : DepEnv) (ctx : BuildContext)
    (pkgName version subpath : String) (isDts : Bool) (nv : String × String)
    (h : (lookupDepPass env ctx pkgName version subpath isDts).retry = some nv) :
    isDts = true ∧
    ∃ e, (lookupDepPass env ctx pkgName version subpath isDts).result = Except.error e ∧
      hasSuffix e " not found" = true ∧
      hasPrefix (lookupDepVersion env ctx pkgName version).1 "@types/" = false ∧
      nv = (env.toTypesPackageName (lookupDepVersion env ctx pkgName version).1,
            (lookupDepVersion env ctx pkgName version).2) := by
  unfold lookupDepPass at h ⊢
  split at h
  · split at h <;> simp at h
  · simp only [] at h ⊢
    split at h
    · simp at h
    · split at h
      · simp at h
      · rename_i e hg
        simp only [hg]
        by_cases hc : (hasSuffix e " not found" && isDts
            && !hasPrefix (lookupDepVersion env ctx pkgName version).1 "@types/") = true
        · simp only [hc, if_true, Option.some.injEq] at h
          simp only [Bool.and_eq_true, Bool.not_eq_true'] at hc
          exact ⟨hc.1.2, e, rfl, hc.1.1, hc.2, h.symm⟩
        · simp only [hc, if_false] at h
          cases h

theorem lookupDepPass_types (env : DepEnv) (ctx : BuildContext)
    (pkgName version subpath : String) (isDts : Bool)
    (hp : hasPrefix pkgName "@types/" = true) (hv : version ≠ "") :
    (lookupDepPass env ctx pkgName version subpath isDts).retry = none := by
  cases hr : (lookupDepPass env ctx pkgName version subpath isDts).retry with
  | none => rfl
  | some nv =>
    obtain ⟨_, e, _, _, hnot, _⟩ := lookupDepPass_retry env ctx pkgName version subpath isDts nv hr
    rw [lookupDepVersion_given env ctx pkgName version hv] at hnot
    simp only at hnot
    rw [hp] at hnot
    cases hnot

theorem lookupDepLoop_succ (env : DepEnv) (ctx : BuildContext)
    (pkgName version subpath : String) (isDts : Bool) (fuel : Nat) :
    lookupDepLoop env ctx subpath isDts (fuel + 1) pkgName version
      = match (lookupDepPass env ctx pkgName version subpath isDts).retry with
        | none => some (lookupDepPass env ctx pkgName version subpath isDts).result
        | some nv => lookupDepLoop env ctx subpath isDts fuel nv.1 nv.2 := rfl

theorem lookupDepLoop_two (env : DepEnv) (ctx : BuildContext)
    (pkgName version subpath : String) (isDts : Bool)
    (htypes : ∀ n, hasPrefix (env.toTypesPackageName n) "@types/" = true)
    (hversion : (lookupDepVersion env ctx pkgName version).2 ≠ "") :
    ∃ r, lookupDepLoop env ctx subpath isDts 2 pkgName version = some r := by
  rw [lookupDepLoop_succ]
  cases hr : (lookupDepPass env ctx pkgName version subpath isDts).retry with
  | none => exact ⟨_, rfl⟩
  | some nv =>
    obtain ⟨_, e, _, _, _, hnv⟩ := lookupDepPass_retry env ctx pkgName version subpath isDts nv hr
    have h2 : (lookupDepPass env ctx nv.1 nv.2 subpath isDts).retry = none := by
      apply lookupDepPass_types
      · rw [hnv]; exact htypes _
      · rw [hnv]; exact hversion
    simp only []
    rw [lookupDepLoop_succ, h2]
    exact ⟨_, rfl⟩

theorem aliasCycle_loop (fuel : Nat) :
    lookupDepLoop worldBuiltins ctxAliasCycle "" true fuel "@types/b" "" = none := by
  induction fuel with
  | zero => rfl
  | succ k ih =>
    have h : (lookupDepPass worldBuiltins ctxAliasCycle "@types/b" "" "" true).retry
        = some ("@types/b", "") := by decide
    rw [lookupDepLoop_succ, h]
    exact ih

/-- C35 (refuted by the code): a pass jumps back to the label only for an
error ending in ` not found`, in dts mode, on a name that does not begin with
`@types/`, and the label is entered at most twice when the version looked up
in the first pass is not empty. But with an empty version the second pass
reads the manifest again: where `a` is an alias of `b` without a version and
`@types/b` is an alias of `b`, and `b` is not found, the name goes from
`@types/b` back to `b` in every pass and the loop never returns. -/
theorem lookupDep_alias_cycle :
    (∀ (env : DepEnv) (ctx : BuildContext) (pkgName version subpath : String) (isDts : Bool)
        (nv : String × String),
      (lookupDepPass env ctx pkgName version subpath isDts).retry = some nv →
      isDts = true ∧
      ∃ e, (lookupDepPass env ctx pkgName version subpath isDts).result = Except.error e ∧
        hasSuffix e " not found" = true ∧
        hasPrefix (lookupDepVersion env ctx pkgName version).1 "@types/" = false ∧
        nv = (env.toTypesPackageName (lookupDepVersion env ctx pkgName version).1,
              (lookupDepVersion env ctx pkgName version).2)) ∧
    (∀ (env : DepEnv) (ctx : BuildContext) (pkgName version subpath : String) (isDts : Bool),
      (∀ n, hasPrefix (env.toTypesPackageName n) "@types/" = true) →
      (lookupDepVersion env ctx pkgName version).2 ≠ "" →
      ∃ r, lookupDepLoop env ctx subpath isDts 2 pkgName version = some r) ∧
    (∀ n, hasPrefix (worldBuiltins.toTypesPackageName n) "@types/" = true) ∧
    (lookupDepPass worldBuiltins ctxAliasCycle "a" "" "" true).retry = some ("@types/b", "") ∧
    (lookupDepPass worldBuiltins ctxAliasCycle "@types/b" "" "" true).retry
      = some ("@types/b", "") ∧
    (∀ fuel, ctxAliasCycle.lookupDep worldBuiltins "a" true fuel = none) := by
  refine ⟨lookupDepPass_retry, lookupDepLoop_two, ?_, by decide, by decide, ?_⟩
  · intro n
    show hasPrefix ("@types/" ++ _) "@types/" = true
    unfold hasPrefix
    apply List.isPrefixOf_iff_prefix.2
    exact ⟨_, String.data_append _ _⟩
  · intro fuel
    have hs : ctxAliasCycle.lookupDep worldBuiltins "a" true fuel
        = lookupDepLoop worldBuiltins ctxAliasCycle "" true fuel "a" "" := rfl
    rw [hs]
    cases fuel with
    | zero => rfl
    | succ k =>
      have h : (lookupDepPass worldBuiltins ctxAliasCycle "a" "" "" true).retry
          = some ("@types/b", "") := by decide
      rw [lookupDepLoop_succ, h]
      exact aliasCycle_loop k

/-! ### The URL of a sub-module and the key of its build -/

theorem nobundle_insert (x : String) :
    (splitByLastByte (x ++ ".mjs") '.').1 ++ ".nobundle." ++ (splitByLastByte (x ++ ".mjs") '.').2
      = x ++ ".nobundle" ++ ".mjs" := by
  have hx : x ++ ".mjs" = x ++ ⟨['.']⟩ ++ "mjs" := by
    apply String.ext
    simp [String.data_append]
  rw [hx, splitByLastByte_append x "mjs" '.' (by decide)]
  apply String.ext
  simp [String.data_append]

theorem subModule_url_eq_path (env : DepEnv) (ctx : BuildContext) (specifier : String)
    (htarget : ctx.target ≠ "types") :
    resolveSubModuleImport env ctx specifier
      = ((subBuildContext ctx (subModuleOf env ctx specifier)).Path env.toEnv).1 := by
  have hp := Path_module env.toEnv (subBuildContext ctx (subModuleOf env ctx specifier)) rfl
    htarget
  rw [hp]
  have hargs : (subBuildContext ctx (subModuleOf env ctx specifier)).getBuildArgsPrefix
      env.toEnv false = ctx.getBuildArgsPrefix env.toEnv false := rfl
  rw [hargs]
  unfold resolveSubModuleImport BuildContext.getImportPath
  simp only [subBuildContext, nameSuffix]
  by_cases hb : ctx.bundleMode = BundleMode.BundleFalse
  · simp only [hb, if_true]
    rw [nobundle_insert]
    by_cases hd : ctx.dev = true
    · simp [hd, String.append_assoc]
    · simp [hd, String.append_assoc]
  · simp only [hb, if_false]
    by_cases hd : ctx.dev = true
    · simp [hd, String.append_assoc]
    · simp [hd, String.append_assoc]

/-- C32: for an import of a sub-module of the current package that is not the
GitHub entry, not a Node built-in and not external, and a target other than
`types`, the URL that `resolveExternalModule` resolves, before it is made
relative, is `Path()` of the sub-build context, for every dev flag and every
bundle mode of the parent; it is the first component of the pair appended to
the import map. -/
theorem subModule_url_is_subBuild_path (env : DepEnv) (ctx : BuildContext)
    (specifier : String) (kind : ResolveKind)
    (hself : isGhSelf ctx specifier = false)
    (hb : env.isNodeBuiltInModule specifier = false)
    (hext : (ctx.args.externalAll
      || decide (env.toPackageName specifier ∈ ctx.args.external)) = false)
    (hsub : hasPrefix specifier (ctx.packageJson.Name ++ "/") = true)
    (htarget : ctx.target ≠ "types") :
    resolveExternalModuleBody env ctx specifier
      = Outcome.ok ((subBuildContext ctx (subModuleOf env ctx specifier)).Path env.toEnv).1 ∧
    (kind ≠ ResolveKind.ResolveJSDynamicImport →
      (ctx.resolveExternalModule env specifier kind).2.importMap
        = ctx.importMap ++
            [(((subBuildContext ctx (subModuleOf env ctx specifier)).Path env.toEnv).1,
              emittedPath env ctx specifier
                ((subBuildContext ctx (subModuleOf env ctx specifier)).Path env.toEnv).1)]) := by
  have hbody : resolveExternalModuleBody env ctx specifier
      = Outcome.ok ((subBuildContext ctx (subModuleOf env ctx specifier)).Path env.toEnv).1 := by
    rw [← subModule_url_eq_path env ctx specifier htarget]
    unfold resolveExternalModuleBody
    rw [hself, hb, hext, hsub]
    rfl
  refine ⟨hbody, fun hk => ?_⟩
  have hr := (recordResolved_spec env ctx specifier
    ((subBuildContext ctx (subModuleOf env ctx specifier)).Path env.toEnv).1 kind).2.1
  rw [if_pos hk] at hr
  unfold BuildContext.resolveExternalModule
  rw [hbody]
  exact hr

/-- Witness of C32: the sub-module `left-pad/lib/a` for the three bundle modes
of the parent, in a dev build and in a build that is not one. -/
theorem subModule_url_is_subBuild_path_witness :
    resolveExternalModuleBody worldBuiltins (ctxMode true BundleMode.BundleFalse)
        "left-pad/lib/a"
      = Outcome.ok "/left-pad@1.3.0/es2022/lib/a.development.nobundle.mjs" ∧
    ((subBuildContext (ctxMode true BundleMode.BundleFalse)
        (subModuleOf worldBuiltins (ctxMode true BundleMode.BundleFalse) "left-pad/lib/a")).Path
        worldBuiltins.toEnv).1 = "/left-pad@1.3.0/es2022/lib/a.development.nobundle.mjs" ∧
    resolveExternalModuleBody worldBuiltins (ctxMode false BundleMode.BundleAll)
        "left-pad/lib/a" = Outcome.ok "/left-pad@1.3.0/es2022/lib/a.mjs" ∧
    ((subBuildContext (ctxMode false BundleMode.BundleAll)
        (subModuleOf worldBuiltins (ctxMode false BundleMode.BundleAll) "left-pad/lib/a")).Path
        worldBuiltins.toEnv).1 = "/left-pad@1.3.0/es2022/lib/a.mjs" ∧
    resolveExternalModuleBody worldBuiltins (ctxMode false BundleMode.BundleDefault)
        "left-pad/lib/a" = Outcome.ok "/left-pad@1.3.0/es2022/lib/a.mjs" :=
  ⟨((subModule_url_is_subBuild_path worldBuiltins (ctxMode true BundleMode.BundleFalse)
      "left-pad/lib/a" ResolveKind.ResolveJSImportStatement (by decide) (by decide)
      (by decide) (by decide) (by decide)).1).trans (by decide),
   by decide,
   ((subModule_url_is_subBuild_path worldBuiltins (ctxMode false BundleMode.BundleAll)
      "left-pad/lib/a" ResolveKind.ResolveJSImportStatement (by decide) (by decide)
      (by decide) (by decide) (by decide)).1).trans (by decide),
   by decide, by decide⟩

/-! ### A sub-module that is the main entry -/

theorem sliceFrom_rooted (x : String) (h : hasPrefix x "/" = true) :
    sliceFrom x 1 = some ⟨x.data.drop 1⟩ := by
  unfold hasPrefix at h
  obtain ⟨t, ht⟩ := List.isPrefixOf_iff_prefix.1 h
  have hx : x.data = '/' :: t := by rw [← ht]; rfl
  unfold sliceFrom
  rw [hx]
  have : dropBytes ('/' :: t) 1 = some t := by simp [dropBytes, utf8Bytes]
  rw [this]
  rfl

theorem checkMain_spec (env : Env) (subModule s : String)
    (hnorm : ∀ p, hasPrefix (env.normalizePathname p) "/" = true) :
    checkMain env subModule false s = some (s != "" && subModule == mainName env s) := by
  unfold checkMain mainName
  simp only [Bool.false_eq_true, if_false]
  by_cases hs : s = ""
  · subst hs
    rfl
  · have hne : (s != "") = true := bne_iff_ne.2 hs
    rw [if_pos hs, sliceFrom_rooted _ (hnorm _), hne, Bool.true_and]
    rfl

theorem checkPaths_spec (env : Env) (subModule : String) (l : List String)
    (hnorm : ∀ p, hasPrefix (env.normalizePathname p) "/" = true) :
    checkPaths env subModule l
      = some (l.any (fun s => s != "" && subModule == mainName env s)) := by
  induction l with
  | nil => rfl
  | cons a rest ih =>
    unfold checkPaths
    rw [checkMain_spec env subModule a hnorm, ih]
    simp only [List.any_cons]
    cases (a != "" && subModule == mainName env a) <;> rfl

theorem checkExports_spec (env : Env) (subModule : String) (p : PackageJSON)
    (hnorm : ∀ p, hasPrefix (env.normalizePathname p) "/" = true) :
    checkExports env subModule p
      = some ((exportsMainPaths p.Exports).any
          (fun s => s != "" && subModule == mainName env s)) := by
  unfold checkExports exportsMainPaths
  cases p.Exports with
  | str s => simp [checkMain_spec env subModule s hnorm]
  | omap om =>
    simp only []
    cases OrderedMap.Get om "." with
    | str s => simp [checkMain_spec env subModule s hnorm]
    | omap om2 => simp [checkPaths_spec env subModule _ hnorm]
    | null => simp
    | obj o => simp
    | arr a => simp
    | other => simp
  | null => simp
  | obj o => simp
  | arr a => simp
  | other => simp

theorem checkFields_spec (env : Env) (subModule : String) (p : PackageJSON)
    (hnorm : ∀ p, hasPrefix (env.normalizePathname p) "/" = true) :
    checkFields env subModule p
      = some ([p.Module, p.Main].any (fun s => s != "" && subModule == mainName env s)) := by
  have hif : ∀ s : String,
      (if s ≠ "" then checkMain env subModule false s else some false)
        = some (s != "" && subModule == mainName env s) := by
    intro s
    by_cases hs : s = ""
    · subst hs; rfl
    · rw [if_pos hs, checkMain_spec env subModule s hnorm]
  unfold checkFields
  rw [hif p.Module, hif p.Main]
  simp only [List.any_cons, List.any_nil, Bool.or_false]
  cases (p.Module != "" && subModule == mainName env p.Module) <;> rfl

theorem isPkgMainModule_spec (env : Env) (subModule : String) (p : PackageJSON)
    (hnorm : ∀ p, hasPrefix (env.normalizePathname p) "/" = true) :
    isPkgMainModule env subModule p = some (isMainEntry env subModule p) := by
  unfold isPkgMainModule isMainEntry
  rw [checkExports_spec env subModule p hnorm, checkFields_spec env subModule p hnorm,
    List.any_append]
  cases (exportsMainPaths p.Exports).any (fun s => s != "" && subModule == mainName env s) <;>
    rfl

theorem isMainEntry_iff (env : Env) (subModule : String) (p : PackageJSON) :
    isMainEntry env subModule p = true ↔
      ∃ s ∈ exportsMainPaths p.Exports ++ [p.Module, p.Main],
        s ≠ "" ∧ subModule = mainName env s := by
  unfold isMainEntry
  rw [List.any_eq_true]
  constructor
  · rintro ⟨s, hs, h⟩
    simp only [Bool.and_eq_true, bne_iff_ne, ne_eq, beq_iff_eq] at h
    exact ⟨s, hs, h.1, h.2⟩
  · rintro ⟨s, hs, h1, h2⟩
    refine ⟨s, hs, ?_⟩
    simp only [Bool.and_eq_true, bne_iff_ne, ne_eq, beq_iff_eq]
    exact ⟨h1, h2⟩

theorem normalizeManifestVersion_exports (ctx : BuildContext) (p : PackageJSON) :
    (normalizeManifestVersion ctx p).Exports = p.Exports := by
  unfold normalizeManifestVersion
  split_ifs <;> rfl

theorem normalizeManifestModule_exports (env : Env) (ctx : BuildContext) (p : PackageJSON) :
    (normalizeManifestModule env ctx p).Exports = p.Exports := by
  unfold normalizeManifestModule
  split_ifs <;> rfl

/-- C31 (amended): for a target other than `types`, when path names are
normalized to rooted paths, `normalizePackageJSON` clears the sub-path, the sub-bare-name
and the memoized path of the context exactly when the sub-bare-name is not
empty and equals the extension-stripped, normalized path (without its leading
slash) of a main entry: a string `exports`, `exports["."]` as a string or a
string leaf of its nested mapping, or the `module` or `main` field after the
`module` field has been filled from `es2015`, `jsnext:main` or `main`;
otherwise the context is unchanged, and for the target
`types` it is never changed. -/
theorem normalizePackageJSON_main_entry (env : Env) (ctx : BuildContext) (p : PackageJSON)
    (hnorm : ∀ s, hasPrefix (env.normalizePathname s) "/" = true) :
    (ctx.target = "types" →
      ctx.normalizePackageJSON env p = some (normalizeManifestVersion ctx p, ctx)) ∧
    (ctx.target ≠ "types" →
      (ctx.esmPath.SubBareName ≠ "" ∧
        isMainEntry env ctx.esmPath.SubBareName
          (normalizeManifestModule env ctx (normalizeManifestVersion ctx p)) = true →
        ctx.normalizePackageJSON env p
          = some (normalizeManifestModule env ctx (normalizeManifestVersion ctx p),
                  clearSubPath ctx)) ∧
      (¬ (ctx.esmPath.SubBareName ≠ "" ∧
        isMainEntry env ctx.esmPath.SubBareName
          (normalizeManifestModule env ctx (normalizeManifestVersion ctx p)) = true) →
        ctx.normalizePackageJSON env p
          = some (normalizeManifestModule env ctx (normalizeManifestVersion ctx p), ctx))) ∧
    (∀ (subModule : String) (q : PackageJSON), isMainEntry env subModule q = true ↔
      ∃ s ∈ exportsMainPaths q.Exports ++ [q.Module, q.Main],
        s ≠ "" ∧ subModule = mainName env s) ∧
    (normalizeManifestModule env ctx (normalizeManifestVersion ctx p)).Exports = p.Exports ∧
    (clearSubPath ctx).esmPath
      = { ctx.esmPath with SubPath := "", SubBareName := "" } ∧
    (clearSubPath ctx).path = "" := by
  refine ⟨fun ht => ?_, fun ht => ⟨fun hmain => ?_, fun hnot => ?_⟩,
    fun subModule q => isMainEntry_iff env subModule q, ?_, rfl, rfl⟩
  · unfold BuildContext.normalizePackageJSON
    simp only [ht, if_true]
  · unfold BuildContext.normalizePackageJSON
    simp only [ht, if_false]
    rw [if_pos hmain.1, isPkgMainModule_spec env _ _ hnorm, hmain.2]
  · unfold BuildContext.normalizePackageJSON
    simp only [ht, if_false]
    by_cases hs : ctx.esmPath.SubBareName ≠ ""
    · rw [if_pos hs, isPkgMainModule_spec env _ _ hnorm]
      have : isMainEntry env ctx.esmPath.SubBareName
          (normalizeManifestModule env ctx (normalizeManifestVersion ctx p)) = false := by
        cases h : isMainEntry env ctx.esmPath.SubBareName
          (normalizeManifestModule env ctx (normalizeManifestVersion ctx p))
        · rfl
        · exact absurd ⟨hs, h⟩ hnot
      rw [this]
    · rw [if_neg hs]
  · rw [normalizeManifestModule_exports, normalizeManifestVersion_exports]

/-- Witness of C31: the sub-module `esm/index` is a string leaf of
`exports["."]` and `lib/index` is the `main` field, so both are cleared; the
sub-module `feature` is neither, and for the target `types` nothing is
cleared. -/
theorem normalizePackageJSON_main_entry_witness :
    ((ctxSubModule "esm/index" "es2022").normalizePackageJSON (sampleEnv [] [])
        manifestNested).map (fun r => (r.2.esmPath, r.2.path))
      = some ({ PkgName := "pkg", PkgVersion := "1.0.0" }, "") ∧
    ((ctxSubModule "lib/index" "es2022").normalizePackageJSON (sampleEnv [] [])
        manifestNested).map (fun r => (r.2.esmPath, r.2.path))
      = some ({ PkgName := "pkg", PkgVersion := "1.0.0" }, "") ∧
    ((ctxSubModule "feature" "es2022").normalizePackageJSON (sampleEnv [] [])
        manifestNested).map (fun r => (r.2.esmPath, r.2.path))
      = some ({ PkgName := "pkg", PkgVersion := "1.0.0", SubPath := "feature.js",
                SubBareName := "feature" }, "/pkg@1.0.0/es2022/feature.mjs") ∧
    ((ctxSubModule "esm/index" "types").normalizePackageJSON (sampleEnv [] [])
        manifestNested).map (fun r => (r.2.esmPath, r.2.path))
      = some ({ PkgName := "pkg", PkgVersion := "1.0.0", SubPath := "esm/index.js",
                SubBareName := "esm/index" }, "/pkg@1.0.0/types/esm/index.mjs") :=
  ⟨(congrArg (Option.map (fun r => (r.2.esmPath, r.2.path)))
      (((normalizePackageJSON_main_entry (sampleEnv [] []) (ctxSubModule "esm/index" "es2022")
        manifestNested (fun s => pathClean_rooted s)).2.1 (by decide)).1
        ⟨by decide, by decide⟩)).trans (by decide),
   (congrArg (Option.map (fun r => (r.2.esmPath, r.2.path)))
      (((normalizePackageJSON_main_entry (sampleEnv [] []) (ctxSubModule "lib/index" "es2022")
        manifestNested (fun s => pathClean_rooted s)).2.1 (by decide)).1
        ⟨by decide, by decide⟩)).trans (by decide),
   (congrArg (Option.map (fun r => (r.2.esmPath, r.2.path)))
      (((normalizePackageJSON_main_entry (sampleEnv [] []) (ctxSubModule "feature" "es2022")
        manifestNested (fun s => pathClean_rooted s)).2.1 (by decide)).2
        (by decide))).trans (by decide),
   (congrArg (Option.map (fun r => (r.2.esmPath, r.2.path)))
      ((normalizePackageJSON_main_entry (sampleEnv [] []) (ctxSubModule "esm/index" "types")
        manifestNested (fun s => pathClean_rooted s)).1 (by decide))).trans (by decide)⟩

/-- Counterexample to C31: the manifest has no `exports`, `module` or `main`,
so the sub-module `es/index` is none of their paths; but `es2015` names an
existing file and becomes the `module` field, and the sub-path is cleared. -/
theorem normalizePackageJSON_es2015_fallback :
    isMainEntry (sampleEnv ["/pkg/es/index.js"] []) "es/index"
        (normalizeManifestVersion (ctxSubModule "es/index" "es2022") manifestES2015) = false ∧
    (normalizeManifestModule (sampleEnv ["/pkg/es/index.js"] [])
        (ctxSubModule "es/index" "es2022")
        (normalizeManifestVersion (ctxSubModule "es/index" "es2022") manifestES2015)).Module
      = "es/index.js" ∧
    ((ctxSubModule "es/index" "es2022").normalizePackageJSON
        (sampleEnv ["/pkg/es/index.js"] []) manifestES2015).map
        (fun r => (r.2.esmPath, r.2.path))
      = some ({ PkgName := "pkg", PkgVersion := "1.0.0" }, "") := by
  decide

/-- Without dts mode `lookupDep` returns the result of its first pass. -/
theorem lookupDepLoop_no_dts (env : DepEnv) (ctx : BuildContext)
    (pkgName version subpath : String) (fuel : Nat) :
    lookupDepLoop env ctx subpath false (fuel + 1) pkgName version
      = some (lookupDepPass env ctx pkgName version subpath false).result := by
  rw [lookupDepLoop_succ, lookupDepPass_no_retry]

end EsmSh
